import Mathlib

/-!
A verification development for `favicongen`.

A shallow embedding of the pure core of `favicongen` (size-list parsing, the
HTML tag emitter, the manifest emitter, the generation loop, the choice of a
processor, source validation, the command-line driver) together with the small
part of the Go standard library it relies on, followed by theorems about it.

Conventions of the embedding:

* a Go `string` is a `List Char` (the sequence of its code points; inputs are
  taken to be valid UTF-8);
* a Go `int` is an `Int`; the 64-bit range matters only where text is converted
  to a number (`Atoi`), and is checked there explicitly;
* a Go `[]int` that is only ranged over is a `List Int`; a slice whose nil-ness
  is observable (JSON encoding) is an `Option (List α)`, `none` being `nil`;
* a function returning `(T, error)` returns `Except`;
* functions touching the file system take and return an explicit `FS` state;
* an image processor is a record of functions over a `World`, the file system together
  with whatever else the processor sees; the calls a function makes to it are kept in a
  record returned next to the result;
* the two real backends run on a `Host`: the commands found on `PATH`, the effect of
  running an external command (a parameter), and the commands started so far;
* the driver `run` works on a `RunState`: the world, the text printed on standard output and
  on standard error, and a record of the steps taken (validation, detection, each call of
  `Resize` and `ConvertToICO`, the manifest and HTML-tag steps), which the theorems about
  what a run does and does not do are stated over.
-/

namespace Favicongen

/-! ## Go standard library: strings, strconv, fmt -/

/-- Go strings, as sequences of code points. -/
abbrev GoString := List Char

/-- The function `unicode.IsSpace`: the Latin-1 cases spelled out in its body, then the
ranges of the Unicode `White_Space` table. -/
def isSpace (r : Char) : Bool :=
  let n := r.toNat
  if n ≤ 0xFF then
    n = 0x09 || n = 0x0A || n = 0x0B || n = 0x0C || n = 0x0D || n = 0x20 || n = 0x85 || n = 0xA0
  else
    n = 0x1680 || (0x2000 ≤ n && n ≤ 0x200A) || n = 0x2028 || n = 0x2029 || n = 0x202F
      || n = 0x205F || n = 0x3000

/-- The function `strings.TrimSpace`: all leading and trailing white space removed. -/
def TrimSpace (s : GoString) : GoString :=
  ((s.dropWhile isSpace).reverse.dropWhile isSpace).reverse

/-- The function `strings.Split` for a one-character separator: the pieces between
consecutive separators; a string without separator (the empty one included) is one piece. -/
def stringsSplit (s : GoString) (sep : Char) : List GoString :=
  s.splitOn sep

/-- The function `strings.Join`. -/
def stringsJoin (elems : List GoString) (sep : GoString) : GoString :=
  sep.intercalate elems

/-- The function `strings.Contains`. -/
def stringsContains (s substr : GoString) : Prop :=
  substr <:+: s

instance (s substr : GoString) : Decidable (stringsContains s substr) := by
  unfold stringsContains; infer_instance

/-- The verb `%d` of `fmt.Sprintf` on an `int`: decimal digits, with a leading minus sign
for a negative number. -/
def formatInt (n : Int) : GoString :=
  if n < 0 then '-' :: Nat.toDigits 10 n.natAbs else Nat.toDigits 10 n.toNat

/-- The error kinds of `strconv.NumError`. -/
inductive NumError where
  | ErrSyntax
  | ErrRange
  deriving DecidableEq, Repr

/-- Largest value of a 64-bit Go `int`. -/
def maxInt : Int := 2 ^ 63 - 1

/-- Smallest value of a 64-bit Go `int`. -/
def minInt : Int := -(2 ^ 63)

/-- Whether a character is an ASCII decimal digit. -/
def isDigit (c : Char) : Bool :=
  '0' ≤ c && c ≤ '9'

/-- The value of a run of decimal digits, most significant first (`n = n*10 + int(ch)`). -/
def digitsValue (s : GoString) : Nat :=
  s.foldl (fun n ch => n * 10 + (ch.toNat - '0'.toNat)) 0

/-- The function `strconv.Atoi` on a 64-bit platform: an optional sign followed by one or
more decimal digits; anything else is a syntax error, a value outside the `int` range is a
range error. -/
def Atoi (s : GoString) : Except NumError Int :=
  match s with
  | [] => .error .ErrSyntax
  | c :: rest =>
    let neg := c = '-'
    let body := if c = '-' ∨ c = '+' then rest else s
    if body = [] then .error .ErrSyntax
    else if !body.all isDigit then .error .ErrSyntax
    else
      let un := digitsValue body
      if neg then
        if (un : Int) ≤ 2 ^ 63 then .ok (-(un : Int)) else .error .ErrRange
      else
        if (un : Int) ≤ maxInt then .ok (un : Int) else .error .ErrRange

/-! ## cmd/favicongen: parseSizes -/

/-- The loop of `parseSizes` over the remaining parts, `sizes` holding what was appended so
far; the first bad part ends the function with its error. -/
def parseSizesLoop : List GoString → List Int → Except GoString (List Int)
  | [], sizes => .ok sizes
  | part :: parts, sizes =>
    let part := TrimSpace part
    match Atoi part with
    | .error _ => .error ("invalid size: ".toList ++ part)
    | .ok size =>
      if size ≤ 0 then .error ("size must be positive: ".toList ++ formatInt size)
      else parseSizesLoop parts (sizes ++ [size])

/-- The function `parseSizes` of `cmd/favicongen/main.go`. -/
def parseSizes (sizesStr : GoString) : Except GoString (List Int) :=
  let parts := stringsSplit sizesStr ','
  parseSizesLoop parts []

/-! ## Go standard library: path/filepath, os, encoding/json -/

/-- One element of the path met by `filepath.Clean`, `out` being the elements kept so far:
an empty element and `.` are dropped; `..` removes the last kept element when there is one
to backtrack over, is dropped at the root, and is kept otherwise; any other element is
kept. -/
def cleanStep (rooted : Bool) (out : List GoString) (elem : GoString) : List GoString :=
  if elem = [] ∨ elem = ".".toList then out
  else if elem = "..".toList then
    match out.getLast? with
    | some last => if last = "..".toList then out ++ [elem] else out.dropLast
    | none => if rooted then out else out ++ [elem]
  else out ++ [elem]

/-- The function `filepath.Clean` with `/` as the separator: the shortest path naming the
same place by purely lexical processing; the empty path becomes `.`. -/
def filepathClean (path : GoString) : GoString :=
  if path = [] then ".".toList
  else
    let rooted := decide (path.head? = some '/')
    let elems := (stringsSplit path '/').foldl (cleanStep rooted) []
    let out := (if rooted then "/".toList else []) ++ stringsJoin elems "/".toList
    if out = [] then ".".toList else out

/-- The function `filepath.Join`: the elements from the first non-empty one on, joined with
the separator and cleaned; the empty string when every element is empty. -/
def filepathJoin : List GoString → GoString
  | [] => []
  | e :: rest =>
    if e ≠ [] then filepathClean (stringsJoin (e :: rest) "/".toList)
    else filepathJoin rest

/-- The directory holding the last element of a cleaned path: the text before the final
separator, `/` when that separator is the leading one, `.` when there is none. -/
def parentDir (path : GoString) : GoString :=
  let init := (stringsSplit path '/').dropLast
  if init = [] then ".".toList
  else
    let dir := stringsJoin init "/".toList
    if dir = [] then "/".toList else dir

/-- Values of the JSON data model; the keys of an object are field tags, kept as `String`. -/
inductive JSON where
  | null
  | str (s : GoString)
  | arr (elems : List JSON)
  | obj (members : List (String × JSON))

/-- The keys of a JSON object, in the order they are written; no key for another value. -/
def JSON.keys : JSON → List String
  | .obj members => members.map Prod.fst
  | _ => []

/-- The value stored under a key of a JSON object. -/
def JSON.get? : JSON → String → Option JSON
  | .obj members, key => (members.find? (fun kv => decide (kv.1 = key))).map Prod.snd
  | _, _ => none

/-- What a file holds: plain text, or the indented encoding of a JSON value (kept as the
value it encodes). -/
inductive FileContent where
  | text (s : GoString)
  | json (v : JSON)

/-- The error numbers the model of the file system reports. -/
inductive Errno where
  | ENOENT
  | EISDIR
  | ENOTDIR
  | EEXIST
  deriving DecidableEq, Repr

/-- Go error values: an `*fs.PathError`; an error wrapped by `fmt.Errorf` with `%w` under a
message; an error made of a message alone (`errors.New`, `fmt.Errorf` without `%w`); and an
error wrapped by `fmt.Errorf` with the format `{msg}%w, output: %s`. -/
inductive GoError where
  | pathError (op : GoString) (path : GoString) (errno : Errno)
  | wrapped (msg : GoString) (cause : GoError)
  | errorf (msg : GoString)
  | wrappedOutput (msg : GoString) (cause : GoError) (output : GoString)

/-- The state of the file system: the directories that exist and the regular files with
their contents, each under its cleaned path. Permissions are not modelled. -/
structure FS where
  dirs : List GoString
  files : List (GoString × FileContent)

/-- Whether the directory a path names exists: its cleaned path is among the directories.
The empty path is read as the current directory, as `filepath.Join` reads it; `os.Stat`
below does not. -/
def dirExists (fs : FS) (dir : GoString) : Bool :=
  decide (filepathClean dir ∈ fs.dirs)

/-- A cleaned path followed by its successive parents, `n` paths in all. -/
def pathChain : Nat → GoString → List GoString
  | 0, _ => []
  | n + 1, path => path :: pathChain n (parentDir path)

/-- The levels of a path: its cleaned form and the successive parents of it, one per path
element, the deepest first. -/
def pathLevels (path : GoString) : List GoString :=
  pathChain (stringsSplit (filepathClean path) '/').length (filepathClean path)

/-- Whether one of the parents of a path is a regular file: the path walk then ends with
`ENOTDIR` rather than `ENOENT`. -/
def underFile (fs : FS) (path : GoString) : Bool :=
  (pathLevels path).tail.any (fun p => decide (p ∈ fs.files.map Prod.fst))

/-- The function `os.WriteFile` on a cleaned path: the file is created or truncated in its
parent directory, which must exist; no directory is ever created. A missing parent is
reported with `ENOTDIR` when the path runs through a regular file, with `ENOENT` otherwise. -/
def osWriteFile (fs : FS) (name : GoString) (data : FileContent) : Except GoError FS :=
  if parentDir name ∉ fs.dirs then
    .error (.pathError "open".toList name (if underFile fs name = true then .ENOTDIR else .ENOENT))
  else if name ∈ fs.dirs then .error (.pathError "open".toList name .EISDIR)
  else .ok { fs with files := (name, data) :: fs.files.filter (fun f => decide (f.1 ≠ name)) }

/-- The function `os.ReadFile` on a cleaned path: the content of the regular file there. -/
def osReadFile (fs : FS) (name : GoString) : Except GoError FileContent :=
  if name ∈ fs.dirs then .error (.pathError "read".toList name .EISDIR)
  else
    match fs.files.find? (fun f => decide (f.1 = name)) with
    | some f => .ok f.2
    | none =>
      .error (.pathError "open".toList name
        (if underFile fs name = true then .ENOTDIR else .ENOENT))

/-- What `os.Stat` finds at a path. -/
inductive FileKind where
  | dir
  | file
  deriving DecidableEq, Repr

/-- The function `os.Stat`: the empty path names nothing; any other path is looked up in its
cleaned form. When nothing is there the error is `ENOTDIR` if the path runs through a regular
file, and `ENOENT` otherwise. -/
def osStat (fs : FS) (name : GoString) : Except GoError FileKind :=
  if name = [] then .error (.pathError "stat".toList name .ENOENT)
  else if filepathClean name ∈ fs.dirs then .ok .dir
  else if filepathClean name ∈ fs.files.map Prod.fst then .ok .file
  else if underFile fs name = true then .error (.pathError "stat".toList name .ENOTDIR)
  else .error (.pathError "stat".toList name .ENOENT)

/-- The function `os.IsNotExist`: whether an error, seen through a `PathError` but not through
a `%w` wrapping, says that a file or directory does not exist. -/
def osIsNotExist : GoError → Bool
  | .pathError _ _ .ENOENT => true
  | _ => false

/-- The function `os.Mkdir` on a cleaned path: one directory is created in its parent, which
must be an existing directory; the path itself must be free. -/
def osMkdir (fs : FS) (name : GoString) : Except GoError FS :=
  if name ∈ fs.dirs ∨ name ∈ fs.files.map Prod.fst then
    .error (.pathError "mkdir".toList name .EEXIST)
  else if parentDir name ∈ fs.files.map Prod.fst then
    .error (.pathError "mkdir".toList name .ENOTDIR)
  else if parentDir name ∉ fs.dirs then .error (.pathError "mkdir".toList name .ENOENT)
  else .ok { fs with dirs := fs.dirs ++ [name] }

/-- The recursion of `os.MkdirAll` along a path and the parents it would recurse into: a
path that is a directory ends it with success, one that is a regular file with `ENOTDIR`;
otherwise the parents are made first and then `os.Mkdir` is called, a failure of which is
forgiven when the directory is there after all. The file system reached is returned also
on failure. -/
def mkdirAllRec (fs : FS) : List GoString → Option GoError × FS
  | [] => (none, fs)
  | path :: parents =>
    if path ∈ fs.dirs then (none, fs)
    else if path ∈ fs.files.map Prod.fst then
      (some (.pathError "mkdir".toList path .ENOTDIR), fs)
    else
      match mkdirAllRec fs parents with
      | (some err, fs1) => (some err, fs1)
      | (none, fs1) =>
        match osMkdir fs1 path with
        | .ok fs2 => (none, fs2)
        | .error err => if path ∈ fs1.dirs then (none, fs1) else (some err, fs1)

/-- The function `os.MkdirAll`: the empty path cannot be made; any other path is made in its
cleaned form, with every parent that its elements name. -/
def osMkdirAll (fs : FS) (path : GoString) : Option GoError × FS :=
  if path = [] then (some (.pathError "mkdir".toList path .ENOENT), fs)
  else mkdirAllRec fs (pathLevels path)

/-- The loop of `filepath.Ext`, walking the path from its end: `rest` is what is still to be
visited, last character first, `seen` what was walked over; a separator ends the search
without result, a dot ends it with the dot and everything after it. -/
def extLoop : GoString → GoString → GoString
  | [], _ => []
  | c :: rest, seen =>
    if c = '/' then []
    else if c = '.' then '.' :: seen
    else extLoop rest (c :: seen)

/-- The function `filepath.Ext`: the suffix of the last element of the path that begins at
its last dot; empty when there is no dot. -/
def filepathExt (path : GoString) : GoString :=
  extLoop path.reverse []

/-- The function `strings.ToLower` on ASCII letters; a rune outside ASCII is left as it is,
the case tables of Unicode not being reproduced. -/
def stringsToLower (s : GoString) : GoString :=
  s.map Char.toLower

/-- The world a run acts on: the file system, and whatever else the image processor in use
can see or change. -/
structure World (σ : Type) where
  fs : FS
  ext : σ

/-! ## internal/generator: the HTML tag emitter -/

/-- The struct `HTMLTagsConfig` of `internal/generator/html.go`. -/
structure HTMLTagsConfig where
  Sizes : List Int
  IncludeManifest : Bool
  ThemeColor : GoString

/-- The first tag appended by `GenerateHTMLTags`: the default browser favicon. -/
def faviconIcoTag : GoString :=
  "<link rel=\"icon\" href=\"/favicon.ico\" sizes=\"any\">".toList

/-- The PNG icon link, the `fmt.Sprintf` of the first loop of `GenerateHTMLTags`. -/
def pngIconTag (size : Int) : GoString :=
  "<link rel=\"icon\" type=\"image/png\" sizes=\"".toList ++ formatInt size ++ "x".toList
    ++ formatInt size ++ "\" href=\"/favicon-".toList ++ formatInt size ++ "x".toList
    ++ formatInt size ++ ".png\">".toList

/-- The Apple touch icon link, the `fmt.Sprintf` of the second loop of `GenerateHTMLTags`. -/
def appleTouchIconTag (size : Int) : GoString :=
  "<link rel=\"apple-touch-icon\" sizes=\"".toList ++ formatInt size ++ "x".toList
    ++ formatInt size ++ "\" href=\"/favicon-".toList ++ formatInt size ++ "x".toList
    ++ formatInt size ++ ".png\">".toList

/-- The manifest link appended when `IncludeManifest` is set. -/
def manifestTag : GoString :=
  "<link rel=\"manifest\" href=\"/manifest.webmanifest\">".toList

/-- The theme colour meta tag, `fmt.Sprintf` with the verb `%s`. -/
def themeColorTag (themeColor : GoString) : GoString :=
  "<meta name=\"theme-color\" content=\"".toList ++ themeColor ++ "\">".toList

/-- The second loop of `GenerateHTMLTags`: walk the sizes in order, append the Apple touch
icon for the first one that passes the test `size == 180 || size >= 180`, and `break`. -/
def appleTouchLoop : List Int → List GoString → List GoString
  | [], tags => tags
  | size :: sizes, tags =>
    if size = 180 ∨ size ≥ 180 then tags ++ [appleTouchIconTag size]
    else appleTouchLoop sizes tags

/-- The slice `tags` of `GenerateHTMLTags` as it stands just before `strings.Join`. -/
def htmlTags (config : HTMLTagsConfig) : List GoString :=
  let tags : List GoString := []
  let tags := tags ++ [faviconIcoTag]
  let tags := config.Sizes.foldl (fun tags size => tags ++ [pngIconTag size]) tags
  let tags := appleTouchLoop config.Sizes tags
  let tags := if config.IncludeManifest then tags ++ [manifestTag] else tags
  let tags := if config.ThemeColor ≠ [] then tags ++ [themeColorTag config.ThemeColor] else tags
  tags

/-- The function `GenerateHTMLTags` of `internal/generator/html.go`. -/
def GenerateHTMLTags (config : HTMLTagsConfig) : GoString :=
  stringsJoin (htmlTags config) "\n".toList

/-- The lines of a text: its pieces between line feeds. -/
def lines (s : GoString) : List GoString :=
  stringsSplit s '\n'

/-- The tag list in the words of the specification: the default link, one PNG link per size
in the given order, the Apple touch icon for the first size that is at least 180 if there is
one, the manifest link if requested, the theme colour tag if the colour is not empty. -/
def specTags (config : HTMLTagsConfig) : List GoString :=
  [faviconIcoTag]
    ++ config.Sizes.map pngIconTag
    ++ (match config.Sizes.find? (fun s => decide (180 ≤ s)) with
        | some s => [appleTouchIconTag s]
        | none => [])
    ++ (if config.IncludeManifest = true then [manifestTag] else [])
    ++ (if config.ThemeColor = [] then [] else [themeColorTag config.ThemeColor])

/-- Whether a tag is an Apple touch icon link, that is, opens with
`<link rel="apple-touch-icon"`. -/
def isAppleTouchLink (tag : GoString) : Bool :=
  decide ("<link rel=\"apple-touch-icon\"".toList <+: tag)

/-! ## internal/generator: the manifest emitter -/

/-- The struct `ManifestConfig` of `internal/generator/manifest.go`; `Categories` keeps the
difference between a nil and an empty slice. -/
structure ManifestConfig where
  Name : GoString
  ShortName : GoString
  Description : GoString
  StartURL : GoString
  Display : GoString
  Orientation : GoString
  Scope : GoString
  ThemeColor : GoString
  BackgroundColor : GoString
  Categories : Option (List GoString)
  IconPath : GoString
  IconSizes : List Int

/-- The struct `Icon`; its field `Type` is spelled `Typ`, the former being reserved. -/
structure Icon where
  Src : GoString
  Sizes : GoString
  Typ : GoString
  Purpose : GoString

/-- The struct `Manifest`; a slice field is `none` when nil. -/
structure Manifest where
  Name : GoString
  ShortName : GoString
  Description : GoString
  StartURL : GoString
  Display : GoString
  Orientation : GoString
  Scope : GoString
  ThemeColor : GoString
  BackgroundColor : GoString
  Categories : Option (List GoString)
  Icons : Option (List Icon)

/-- The built-in `append` with one element, on a slice that may be nil. -/
def goAppend {α : Type} (s : Option (List α)) (x : α) : Option (List α) :=
  some (s.getD [] ++ [x])

/-- The built-in `len` of a slice that may be nil. -/
def goLen {α : Type} (s : Option (List α)) : Nat :=
  (s.getD []).length

/-- The body of the loop of `GenerateManifest`: the icon built for one size. -/
def iconFor (size : Int) : Icon :=
  let icon : Icon :=
    { Src := "favicon-".toList ++ formatInt size ++ "x".toList ++ formatInt size ++ ".png".toList
      Sizes := formatInt size ++ "x".toList ++ formatInt size
      Typ := "image/png".toList
      Purpose := [] }
  if size ≥ 192 then { icon with Purpose := "any maskable".toList } else icon

/-- The first part of `GenerateManifest`: the `Manifest` value as it stands when it is handed
to `json.MarshalIndent`. -/
def buildManifest (config : ManifestConfig) : Manifest :=
  let manifest : Manifest :=
    { Name := config.Name
      ShortName := config.ShortName
      Description := config.Description
      StartURL := config.StartURL
      Display := config.Display
      Orientation := config.Orientation
      Scope := config.Scope
      ThemeColor := config.ThemeColor
      BackgroundColor := config.BackgroundColor
      Categories := config.Categories
      Icons := some [] }
  config.IconSizes.foldl
    (fun manifest size => { manifest with Icons := goAppend manifest.Icons (iconFor size) })
    manifest

/-- A string field tagged `omitempty`: no member when the string is empty. -/
def omitEmptyStr (key : String) (v : GoString) : List (String × JSON) :=
  if v = [] then [] else [(key, .str v)]

/-- The encoding of an `Icon` by `encoding/json`, following its field tags. -/
def marshalIcon (icon : Icon) : JSON :=
  .obj ([("src", .str icon.Src), ("sizes", .str icon.Sizes), ("type", .str icon.Typ)]
    ++ omitEmptyStr "purpose" icon.Purpose)

/-- The encoding of a slice of icons that is not tagged `omitempty`: `null` for a nil slice,
an array otherwise. -/
def marshalIcons : Option (List Icon) → JSON
  | none => .null
  | some icons => .arr (icons.map marshalIcon)

/-- The encoding of a `Manifest` by `encoding/json`, following its field tags: members in
the order of the fields; a field tagged `omitempty` is left out when it is the empty string
or a slice of length zero; a nil slice without that tag is written `null`. -/
def marshalManifest (m : Manifest) : JSON :=
  .obj (omitEmptyStr "name" m.Name
    ++ omitEmptyStr "short_name" m.ShortName
    ++ omitEmptyStr "description" m.Description
    ++ [("start_url", .str m.StartURL), ("display", .str m.Display)]
    ++ omitEmptyStr "orientation" m.Orientation
    ++ omitEmptyStr "scope" m.Scope
    ++ omitEmptyStr "theme_color" m.ThemeColor
    ++ omitEmptyStr "background_color" m.BackgroundColor
    ++ (if goLen m.Categories = 0 then []
        else [("categories", .arr ((m.Categories.getD []).map .str))])
    ++ [("icons", marshalIcons m.Icons)])

/-- The call `json.MarshalIndent(manifest, "", "  ")`: it cannot fail on a `Manifest`, whose
fields are strings and slices of strings and structs. -/
def jsonMarshalIndent (m : Manifest) : Except GoError FileContent :=
  .ok (.json (marshalManifest m))

/-- The function `GenerateManifest` of `internal/generator/manifest.go`: the returned pair
of path and error, and the file system it leaves. -/
def GenerateManifest (config : ManifestConfig) (outputDir : GoString) (fs : FS) :
    (GoString × Option GoError) × FS :=
  let manifest := buildManifest config
  match jsonMarshalIndent manifest with
  | .error err => (([], some (.wrapped "failed to marshal manifest: ".toList err)), fs)
  | .ok data =>
    let manifestPath := filepathJoin [outputDir, "manifest.webmanifest".toList]
    match osWriteFile fs manifestPath data with
    | .error err => (([], some (.wrapped "failed to write manifest file: ".toList err)), fs)
    | .ok fs1 => ((manifestPath, none), fs1)

/-- The word looked for in the output of the HTML tag emitter by its tests. -/
def manifestWord : GoString :=
  "manifest".toList

/-! ## cmd/favicongen: the CLI configuration -/

/-- The struct `Config` of `cmd/favicongen/main.go`; `AppCategories` keeps the difference
between a nil and an empty slice. -/
structure Config where
  Source : GoString
  Output : GoString
  Sizes : List Int
  Backend : GoString
  GenerateHTML : Bool
  GenerateManifest : Bool
  GenerateICO : Bool
  GenerateHTMLOnly : Bool
  AppName : GoString
  AppShortName : GoString
  AppDescription : GoString
  AppStartURL : GoString
  AppDisplay : GoString
  AppOrientation : GoString
  AppScope : GoString
  AppThemeColor : GoString
  AppBackgroundColor : GoString
  AppCategories : Option (List GoString)
  AppIcon : GoString

/-- The method `Config.buildHTMLTagsConfig`. -/
def Config.buildHTMLTagsConfig (c : Config) : HTMLTagsConfig :=
  { Sizes := c.Sizes
    IncludeManifest := c.GenerateManifest
    ThemeColor := c.AppThemeColor }

/-- The method `Config.buildManifestConfig`. -/
def Config.buildManifestConfig (c : Config) : ManifestConfig :=
  { Name := c.AppName
    ShortName := c.AppShortName
    Description := c.AppDescription
    StartURL := c.AppStartURL
    Display := c.AppDisplay
    Orientation := c.AppOrientation
    Scope := c.AppScope
    ThemeColor := c.AppThemeColor
    BackgroundColor := c.AppBackgroundColor
    Categories := c.AppCategories
    IconPath := c.AppIcon
    IconSizes := c.Sizes }

/-- The configuration `main` builds for the command line `favicongen logo.svg`: every flag
at the default `defineFlags` gives it, the source taken from the first positional
argument. -/
def defaultConfig : Config :=
  { Source := "logo.svg".toList
    Output := "./favicons".toList
    Sizes := [16, 32, 48, 64, 128, 180, 256, 512]
    Backend := []
    GenerateHTML := true
    GenerateManifest := false
    GenerateICO := true
    GenerateHTMLOnly := false
    AppName := []
    AppShortName := []
    AppDescription := []
    AppStartURL := "/".toList
    AppDisplay := "standalone".toList
    AppOrientation := "any".toList
    AppScope := "/".toList
    AppThemeColor := "#ffffff".toList
    AppBackgroundColor := "#ffffff".toList
    AppCategories := none
    AppIcon := [] }

/-- A file system with nothing but the root and the current directory. -/
def emptyFS : FS :=
  { dirs := ["/".toList, ".".toList]
    files := [] }

/-! ## internal/processor -/

/-- The interface `Processor` of `internal/processor/processor.go`, over a world whose part
outside the file system is a `σ`; a method returning `error` returns `none` for `nil`. -/
structure Processor (σ : Type) where
  Name : GoString
  IsAvailable : World σ → Bool
  Resize : GoString → GoString → Int → World σ → Option GoError × World σ
  ConvertToICO : List GoString → GoString → World σ → Option GoError × World σ

/-- The host the two real backends run on: the command names `exec.LookPath` finds on
`PATH`; what running an external command does, a parameter of the model (combined output,
error, and the file system it leaves); and the commands started so far, kept as a record. -/
structure Host where
  onPath : List GoString
  run : GoString → List GoString → FS → (GoString × Option GoError) × FS
  executed : List (GoString × List GoString)

/-- The function `commandExists`: whether `exec.LookPath` finds the command. -/
def commandExists (w : World Host) (cmd : GoString) : Bool :=
  decide (cmd ∈ w.ext.onPath)

/-- The calls `exec.Command(name, args...)` and `cmd.CombinedOutput()`: a command that is not
found fails without being started; any other is recorded and run. -/
def execCombinedOutput (name : GoString) (args : List GoString) (w : World Host) :
    (GoString × Option GoError) × World Host :=
  if name ∉ w.ext.onPath then
    (([], some (.errorf ("exec: \"".toList ++ name
        ++ "\": executable file not found in $PATH".toList))), w)
  else
    let res := w.ext.run name args w.fs
    (res.1, { fs := res.2, ext := { w.ext with executed := w.ext.executed ++ [(name, args)] } })

/-- The method `ImageMagickProcessor.Name`. -/
def ImageMagickProcessor.Name : GoString :=
  "imagemagick".toList

/-- The method `ImageMagickProcessor.IsAvailable`. -/
def ImageMagickProcessor.IsAvailable (w : World Host) : Bool :=
  commandExists w "magick".toList || commandExists w "convert".toList

/-- The method `ImageMagickProcessor.getConvertCommand`. -/
def ImageMagickProcessor.getConvertCommand (w : World Host) : GoString × List GoString :=
  if commandExists w "magick".toList then ("magick".toList, ["convert".toList])
  else ("convert".toList, [])

/-- The method `ImageMagickProcessor.Resize`. -/
def ImageMagickProcessor.Resize (inputPath outputPath : GoString) (size : Int)
    (w : World Host) : Option GoError × World Host :=
  let cmd := ImageMagickProcessor.getConvertCommand w
  let args := cmd.2 ++ [inputPath,
    "-resize".toList, formatInt size ++ "x".toList ++ formatInt size,
    "-background".toList, "none".toList,
    "-gravity".toList, "center".toList,
    "-extent".toList, formatInt size ++ "x".toList ++ formatInt size,
    outputPath]
  let res := execCombinedOutput cmd.1 args w
  match res.1.2 with
  | some err => (some (.wrappedOutput "imagemagick resize failed: ".toList err res.1.1), res.2)
  | none => (none, res.2)

/-- The method `ImageMagickProcessor.ConvertToICO`. -/
def ImageMagickProcessor.ConvertToICO (inputPaths : List GoString) (outputPath : GoString)
    (w : World Host) : Option GoError × World Host :=
  let cmd := ImageMagickProcessor.getConvertCommand w
  let args := cmd.2 ++ inputPaths
  let args := args ++ [outputPath]
  let res := execCombinedOutput cmd.1 args w
  match res.1.2 with
  | some err =>
    (some (.wrappedOutput "imagemagick ico conversion failed: ".toList err res.1.1), res.2)
  | none => (none, res.2)

/-- The value `&ImageMagickProcessor{}` as a `Processor`. -/
def imageMagick : Processor Host :=
  { Name := ImageMagickProcessor.Name
    IsAvailable := ImageMagickProcessor.IsAvailable
    Resize := ImageMagickProcessor.Resize
    ConvertToICO := ImageMagickProcessor.ConvertToICO }

/-- The method `VipsProcessor.Name`. -/
def VipsProcessor.Name : GoString :=
  "vips".toList

/-- The method `VipsProcessor.IsAvailable`. -/
def VipsProcessor.IsAvailable (w : World Host) : Bool :=
  commandExists w "vips".toList

/-- The method `VipsProcessor.Resize`. -/
def VipsProcessor.Resize (inputPath outputPath : GoString) (size : Int)
    (w : World Host) : Option GoError × World Host :=
  let res := execCombinedOutput "vips".toList
    ["thumbnail".toList, inputPath, outputPath, formatInt size, "--size".toList, "down".toList] w
  match res.1.2 with
  | some err => (some (.wrappedOutput "vips resize failed: ".toList err res.1.1), res.2)
  | none => (none, res.2)

/-- The method `VipsProcessor.ConvertToICO`. -/
def VipsProcessor.ConvertToICO (inputPaths : List GoString) (outputPath : GoString)
    (w : World Host) : Option GoError × World Host :=
  if !commandExists w "convert".toList then
    (some (.errorf "ICO creation requires ImageMagick (convert command)".toList), w)
  else
    ImageMagickProcessor.ConvertToICO inputPaths outputPath w

/-- The value `&VipsProcessor{}` as a `Processor`. -/
def vips : Processor Host :=
  { Name := VipsProcessor.Name
    IsAvailable := VipsProcessor.IsAvailable
    Resize := VipsProcessor.Resize
    ConvertToICO := VipsProcessor.ConvertToICO }

/-- The slice `processors` of `DetectAvailableProcessor`. -/
def processors : List (Processor Host) :=
  [imageMagick, vips]

/-- The first loop of `DetectAvailableProcessor`: the first processor of that name that is
available. -/
def detectPreferred : List (Processor Host) → GoString → World Host → Option (Processor Host)
  | [], _, _ => none
  | p :: ps, preferred, w =>
    if p.Name = preferred ∧ p.IsAvailable w = true then some p
    else detectPreferred ps preferred w

/-- The second loop of `DetectAvailableProcessor`: the first processor that is available. -/
def detectFirst : List (Processor Host) → World Host → Option (Processor Host)
  | [], _ => none
  | p :: ps, w => if p.IsAvailable w = true then some p else detectFirst ps w

/-- The function `DetectAvailableProcessor` of `internal/processor/processor.go`. -/
def DetectAvailableProcessor (preferred : GoString) (w : World Host) :
    Except GoError (Processor Host) :=
  if preferred ≠ [] then
    match detectPreferred processors preferred w with
    | some p => .ok p
    | none =>
      .error (.errorf ("preferred processor ".toList ++ preferred ++ " is not available".toList))
  else
    match detectFirst processors w with
    | some p => .ok p
    | none => .error (.errorf "no image processor available (install ImageMagick or libvips)".toList)

/-! ## internal/generator: the favicon generation loop -/

/-- The struct `FaviconGenerator` of `internal/generator/favicon.go`. -/
structure FaviconGenerator (σ : Type) where
  Processor : Processor σ
  SourcePath : GoString
  OutputDir : GoString
  Sizes : List Int

/-- The struct `GenerateResult`. -/
structure GenerateResult where
  GeneratedFiles : List GoString
  ICOPath : GoString

/-- The arguments of one call of `Processor.Resize`. -/
structure ResizeCall where
  inputPath : GoString
  outputPath : GoString
  size : Int

/-- The arguments of one call of `Processor.ConvertToICO`. -/
structure IcoCall where
  inputPaths : List GoString
  outputPath : GoString

/-- What a call of `Generate` leaves: the result pointer (`none` for `nil`), the error, the
world, and the record of the calls of `Resize` it made, each with the error it returned. -/
structure GenerateOutcome (σ : Type) where
  result : Option GenerateResult
  err : Option GoError
  world : World σ
  resizeCalls : List (ResizeCall × Option GoError)

/-- The path `Generate` writes the icon of a size to. -/
def faviconPath (outputDir : GoString) (size : Int) : GoString :=
  filepathJoin [outputDir,
    "favicon-".toList ++ formatInt size ++ "x".toList ++ formatInt size ++ ".png".toList]

/-- The loop of `Generate` over the sizes still to do. -/
def generateLoop {σ : Type} (g : FaviconGenerator σ) :
    List Int → GenerateResult → World σ → List (ResizeCall × Option GoError) →
      GenerateOutcome σ
  | [], result, w, calls => ⟨some result, none, w, calls⟩
  | size :: sizes, result, w, calls =>
    let outputPath := faviconPath g.OutputDir size
    let res := g.Processor.Resize g.SourcePath outputPath size w
    let calls := calls ++ [(⟨g.SourcePath, outputPath, size⟩, res.1)]
    match res.1 with
    | some err =>
      ⟨none, some (.wrapped ("failed to generate ".toList ++ formatInt size ++ "x".toList
          ++ formatInt size ++ " favicon: ".toList) err), res.2, calls⟩
    | none =>
      generateLoop g sizes
        { result with GeneratedFiles := result.GeneratedFiles ++ [outputPath] } res.2 calls

/-- The method `FaviconGenerator.Generate`. -/
def FaviconGenerator.Generate {σ : Type} (g : FaviconGenerator σ) (w : World σ) :
    GenerateOutcome σ :=
  match osMkdirAll w.fs g.OutputDir with
  | (some err, fs1) =>
    ⟨none, some (.wrapped "failed to create output directory: ".toList err),
      { w with fs := fs1 }, []⟩
  | (none, fs1) =>
    generateLoop g g.Sizes { GeneratedFiles := [], ICOPath := [] } { w with fs := fs1 } []

/-- What a call of `GenerateICO` leaves: the returned path and error, the world, and the
record of the calls of `ConvertToICO` it made. -/
structure GenerateICOOutcome (σ : Type) where
  path : GoString
  err : Option GoError
  world : World σ
  icoCalls : List IcoCall

/-- The method `FaviconGenerator.GenerateICO`. -/
def FaviconGenerator.GenerateICO {σ : Type} (g : FaviconGenerator σ) (pngPaths : List GoString)
    (w : World σ) : GenerateICOOutcome σ :=
  let icoPath := filepathJoin [g.OutputDir, "favicon.ico".toList]
  let res := g.Processor.ConvertToICO pngPaths icoPath w
  match res.1 with
  | some err =>
    ⟨[], some (.wrapped "failed to generate ICO file: ".toList err), res.2, [⟨pngPaths, icoPath⟩]⟩
  | none => ⟨icoPath, none, res.2, [⟨pngPaths, icoPath⟩]⟩

/-! ## cmd/favicongen: validateSource -/

/-- The function `validateSource` of `cmd/favicongen/main.go`. -/
def validateSource (fs : FS) (source : GoString) : Option GoError :=
  if source = [] then
    some (.errorf "source image is required (use --source or provide as first argument)".toList)
  else
    let notExist :=
      match osStat fs source with
      | .error err => osIsNotExist err
      | .ok _ => false
    if notExist = true then
      some (.errorf ("source file does not exist: ".toList ++ source))
    else
      let ext := stringsToLower (filepathExt source)
      if ext ≠ ".svg".toList ∧ ext ≠ ".png".toList then
        some (.errorf ("source must be SVG or PNG format, got: ".toList ++ ext))
      else none

/-! ## cmd/favicongen: the driver -/

/-- The text of an error number. -/
def errnoText : Errno → GoString
  | .ENOENT => "no such file or directory".toList
  | .EISDIR => "is a directory".toList
  | .ENOTDIR => "not a directory".toList
  | .EEXIST => "file exists".toList

/-- The method `Error` of an error value: what the verb `%v` prints of it. -/
def GoError.Error : GoError → GoString
  | .pathError op path errno => op ++ " ".toList ++ path ++ ": ".toList ++ errnoText errno
  | .wrapped msg cause => msg ++ cause.Error
  | .errorf msg => msg
  | .wrappedOutput msg cause output => msg ++ cause.Error ++ ", output: ".toList ++ output

/-- The verb `%v` of `fmt.Printf` on a `[]int`: the numbers between brackets, separated by
blanks. -/
def formatInts (xs : List Int) : GoString :=
  "[".toList ++ stringsJoin (xs.map formatInt) " ".toList ++ "]".toList

/-- The steps of a run that the claims speak of, each kept in the record of the run when it
happens: a validation of the source with its verdict, a detection of the processor with the
name found, a call of `Resize` with the error it returned, a call of `ConvertToICO` through
`GenerateICO` and whether it failed, a call of `GenerateManifest` and a writing of the HTML
tags, each with the path and the error. -/
inductive Event where
  | validateSource (err : Option GoError)
  | detectProcessor (name : Option GoString)
  | resize (call : ResizeCall) (err : Option GoError)
  | convertToICO (call : IcoCall) (failed : Bool)
  | manifest (path : GoString) (err : Option GoError)
  | htmlTags (path : GoString) (err : Option GoError)

/-- The state a run goes through: the world, what was printed on standard output and on
standard error, and the record of the steps taken. -/
structure RunState where
  world : World Host
  stdout : GoString
  stderr : GoString
  events : List Event

/-- The state at the start of a run. -/
def RunState.init (w : World Host) : RunState :=
  { world := w, stdout := [], stderr := [], events := [] }

/-- Printing on standard output. -/
def RunState.print (st : RunState) (text : GoString) : RunState :=
  { st with stdout := st.stdout ++ text }

/-- Printing on standard error. -/
def RunState.warn (st : RunState) (text : GoString) : RunState :=
  { st with stderr := st.stderr ++ text }

/-- Adding steps to the record. -/
def RunState.record (st : RunState) (evs : List Event) : RunState :=
  { st with events := st.events ++ evs }

/-- The struct `flags` of `cmd/favicongen/main.go`, each pointer field holding the value of
its flag. -/
structure flags where
  source : GoString
  output : GoString
  sizesStr : GoString
  backend : GoString
  generateHTML : Bool
  generateManifest : Bool
  generateICO : Bool
  generateHTMLOnly : Bool
  appName : GoString
  appShortName : GoString
  appDescription : GoString
  appStartURL : GoString
  appDisplay : GoString
  appOrientation : GoString
  appScope : GoString
  appThemeColor : GoString
  appBackgroundColor : GoString
  appCategories : GoString
  appIcon : GoString
  showVersion : Bool
  showHelp : Bool

/-- The function `parsePositionalArgs`, `args` being what `flag.Args()` returns. -/
def parsePositionalArgs (f : flags) (args : List GoString) : flags :=
  let f :=
    match args with
    | arg0 :: _ => if f.source = [] then { f with source := arg0 } else f
    | [] => f
  match args with
  | _ :: arg1 :: _ => if f.output = "./favicons".toList then { f with output := arg1 } else f
  | _ => f

/-- The loop of `parseCategories` over the indices from `i` on, `n` of them: each element is
replaced by its trimmed form. -/
def trimLoop : Nat → Nat → List GoString → List GoString
  | _, 0, categories => categories
  | i, n + 1, categories =>
    trimLoop (i + 1) n (categories.set i (TrimSpace (categories.getD i [])))

/-- The function `parseCategories`; `none` is the nil slice. -/
def parseCategories (categoriesStr : GoString) : Option (List GoString) :=
  if categoriesStr = [] then none
  else
    let categories := stringsSplit categoriesStr ','
    some (trimLoop 0 categories.length categories)

/-- The function `fileExists`. -/
def fileExists (fs : FS) (path : GoString) : Bool :=
  match osStat fs path with
  | .ok _ => true
  | .error _ => false

/-- The loop of `generateICOFile` over the sizes 16, 32 and 48 still to look at. -/
def icoSizesLoop (fs : FS) (output : GoString) : List Int → List GoString → List GoString
  | [], icoSizes => icoSizes
  | size :: sizes, icoSizes =>
    let path := filepathJoin [output,
      "favicon-".toList ++ formatInt size ++ "x".toList ++ formatInt size ++ ".png".toList]
    if fileExists fs path = true then icoSizesLoop fs output sizes (icoSizes ++ [path])
    else icoSizesLoop fs output sizes icoSizes

/-- The function `generateICOFile`. -/
def generateICOFile (gen : FaviconGenerator Host) (config : Config) (st : RunState) :
    RunState :=
  let icoSizes := icoSizesLoop st.world.fs config.Output [16, 32, 48] []
  if icoSizes.length = 0 then st
  else
    let out := gen.GenerateICO icoSizes st.world
    let st := { st with world := out.world }
    let st := st.record (out.icoCalls.map (fun call => .convertToICO call out.err.isSome))
    match out.err with
    | some err =>
      st.warn ("Warning: failed to generate ICO file: ".toList ++ err.Error ++ "\n".toList)
    | none => st.print ("✓ Generated favicon.ico: ".toList ++ out.path ++ "\n".toList)

/-- The function `generateHTMLTagsFile`. -/
def generateHTMLTagsFile (config : Config) (st : RunState) : Option GoError × RunState :=
  let htmlTags := GenerateHTMLTags config.buildHTMLTagsConfig
  let htmlPath := filepathJoin [config.Output, "favicon-tags.html".toList]
  match osWriteFile st.world.fs htmlPath (.text htmlTags) with
  | .error err =>
    (some (.wrapped "failed to write HTML tags: ".toList err),
      st.record [.htmlTags htmlPath (some err)])
  | .ok fs1 =>
    let st := { st with world := { st.world with fs := fs1 } }
    let st := st.record [.htmlTags htmlPath none]
    let st := st.print ("✓ Generated HTML tags: ".toList ++ htmlPath ++ "\n".toList)
    let st := st.print "\nHTML tags to include in your <head>:\n".toList
    let st := st.print (List.replicate 50 '-' ++ "\n".toList)
    let st := st.print (htmlTags ++ "\n".toList)
    let st := st.print (List.replicate 50 '-' ++ "\n".toList)
    (none, st)

/-- The function `runHTMLOnlyMode`. -/
def runHTMLOnlyMode (config : Config) (st : RunState) : Option GoError × RunState :=
  let htmlTags := GenerateHTMLTags config.buildHTMLTagsConfig
  let st := st.print (htmlTags ++ "\n".toList)
  if config.GenerateManifest = true then
    let res := GenerateManifest config.buildManifestConfig config.Output st.world.fs
    let st := { st with world := { st.world with fs := res.2 } }
    let st := st.record [.manifest res.1.1 res.1.2]
    match res.1.2 with
    | some err => (some (.wrapped "failed to generate manifest: ".toList err), st)
    | none => (none, st.print ("\n✓ Generated manifest: ".toList ++ res.1.1 ++ "\n".toList))
  else (none, st)

/-- The end of `run`, after the ICO step: the manifest and the HTML tags. -/
def runTail (config : Config) (st : RunState) : Option GoError × RunState :=
  let manifestStep : Option GoError × RunState :=
    if config.GenerateManifest = true then
      let res := GenerateManifest config.buildManifestConfig config.Output st.world.fs
      let st := { st with world := { st.world with fs := res.2 } }
      let st := st.record [.manifest res.1.1 res.1.2]
      match res.1.2 with
      | some err => (some (.wrapped "failed to generate manifest: ".toList err), st)
      | none => (none, st.print ("✓ Generated manifest: ".toList ++ res.1.1 ++ "\n".toList))
    else (none, st)
  match manifestStep with
  | (some err, st) => (some err, st)
  | (none, st) =>
    if config.GenerateHTML = true then
      match generateHTMLTagsFile config st with
      | (some err, st) => (some err, st)
      | (none, st) => (none, st)
    else (none, st)

/-- The function `run`. -/
def run (config : Config) (st : RunState) : Option GoError × RunState :=
  if config.GenerateHTMLOnly = true then runHTMLOnlyMode config st
  else
    let verdict := validateSource st.world.fs config.Source
    let st := st.record [.validateSource verdict]
    match verdict with
    | some err => (some err, st)
    | none =>
      match DetectAvailableProcessor config.Backend st.world with
      | .error err =>
        (some (.wrapped "failed to initialize image processor: ".toList err),
          st.record [.detectProcessor none])
      | .ok proc =>
        let st := st.record [.detectProcessor (some proc.Name)]
        let st := st.print ("Using ".toList ++ proc.Name ++ " for image processing\n".toList)
        let st := st.print ("Source: ".toList ++ config.Source ++ "\n".toList)
        let st := st.print ("Output: ".toList ++ config.Output ++ "\n".toList)
        let st := st.print ("Sizes: ".toList ++ formatInts config.Sizes ++ "\n".toList)
        let gen : FaviconGenerator Host :=
          { Processor := proc
            SourcePath := config.Source
            OutputDir := config.Output
            Sizes := config.Sizes }
        let out := gen.Generate st.world
        let st := { st with world := out.world }
        let st := st.record (out.resizeCalls.map (fun c => .resize c.1 c.2))
        match out.err with
        | some err => (some (.wrapped "failed to generate favicons: ".toList err), st)
        | none =>
          let count : Int :=
            match out.result with
            | some result => result.GeneratedFiles.length
            | none => 0
          let st := st.print ("\n✓ Generated ".toList ++ formatInt count
            ++ " favicon files\n".toList)
          let st := if config.GenerateICO = true then generateICOFile gen config st else st
          runTail config st

/-! ## Processors and file systems used as examples -/

/-- A processor both of whose operations succeed whatever they are given, and change
nothing. -/
def okProcessor : Processor Unit :=
  { Name := "ok".toList
    IsAvailable := fun _ => true
    Resize := fun _ _ _ w => (none, w)
    ConvertToICO := fun _ _ w => (none, w) }

/-- The `MockProcessor` of `internal/generator/favicon_test.go`, with its fields `resizeErr`
and `icoErr`: an operation returns its error when one is set, and writes its output file
otherwise. -/
def mockProcessor (resizeErr icoErr : Option GoError) : Processor Unit :=
  { Name := "mock".toList
    IsAvailable := fun _ => true
    Resize := fun _ outputPath _ w =>
      match resizeErr with
      | some err => (some err, w)
      | none =>
        match osWriteFile w.fs outputPath (.text "mock png data".toList) with
        | .ok fs1 => (none, { w with fs := fs1 })
        | .error err => (some err, w)
    ConvertToICO := fun _ outputPath w =>
      match icoErr with
      | some err => (some err, w)
      | none =>
        match osWriteFile w.fs outputPath (.text "mock ico data".toList) with
        | .ok fs1 => (none, { w with fs := fs1 })
        | .error err => (some err, w) }

/-- A file system holding the root, the current directory, and in it the regular files
`logo.svg` and `notes.txt`. -/
def sourceFS : FS :=
  { dirs := ["/".toList, ".".toList]
    files := [("logo.svg".toList, .text "<svg/>".toList), ("notes.txt".toList, .text [])] }

/-- A host on which no command is found, and on which running a command changes nothing. -/
def bareHost : Host :=
  { onPath := []
    run := fun _ _ fs => (([], none), fs)
    executed := [] }

/-! ## Size tokens, in the words of the specification -/

/-- A well-formed token of a size list: a number written in decimal, with white space
before and after it. -/
structure SizeToken where
  lead : GoString
  value : Int
  trail : GoString

/-- The text of a token. -/
def SizeToken.text (t : SizeToken) : GoString :=
  t.lead ++ formatInt t.value ++ t.trail

/-- A token is well formed when its padding is white space and its number is a positive
`int`. -/
def SizeToken.WellFormed (t : SizeToken) : Prop :=
  (∀ c ∈ t.lead, isSpace c = true) ∧ (∀ c ∈ t.trail, isSpace c = true)
    ∧ 0 < t.value ∧ t.value ≤ maxInt

instance (t : SizeToken) : Decidable t.WellFormed := by
  unfold SizeToken.WellFormed; infer_instance

/-- The integer an optionally signed run of decimal digits denotes; `none` for any other
text. No range is imposed. -/
def numeralValue? (t : GoString) : Option Int :=
  match t with
  | [] => none
  | c :: rest =>
    if c = '-' then
      if rest ≠ [] ∧ rest.all isDigit = true then some (-(digitsValue rest : Int)) else none
    else if c = '+' then
      if rest ≠ [] ∧ rest.all isDigit = true then some (digitsValue rest : Int) else none
    else
      if t.all isDigit = true then some (digitsValue t : Int) else none

/-- A token that is not a positive number: it is not numeric, or it denotes zero or a
negative number. -/
def BadToken (t : GoString) : Prop :=
  match numeralValue? t with
  | none => True
  | some v => v ≤ 0

instance (t : GoString) : Decidable (BadToken t) := by
  unfold BadToken; split <;> infer_instance

/-- The three fields of an icon that every size gets, in the words of the specification. -/
def specIconFields (s : Int) : GoString × GoString × GoString :=
  ("favicon-".toList ++ formatInt s ++ "x".toList ++ formatInt s ++ ".png".toList,
   formatInt s ++ "x".toList ++ formatInt s,
   "image/png".toList)

/-- A plain file name: one non-empty path element other than `.` and `..`. -/
def PlainName (n : GoString) : Prop :=
  n ≠ [] ∧ '/' ∉ n ∧ n ≠ ".".toList ∧ n ≠ "..".toList

/-- The call of `Resize` that `Generate` makes for a size. -/
def resizeCallFor {σ : Type} (g : FaviconGenerator σ) (size : Int) : ResizeCall :=
  ⟨g.SourcePath, faviconPath g.OutputDir size, size⟩

/-- Every directory has its parent among the directories, as in any real file system. -/
def FS.DirsClosed (fs : FS) : Prop :=
  ∀ d ∈ fs.dirs, parentDir d ∈ fs.dirs

/-- Whether `os.Stat` finds something at a path. -/
def pathExists (fs : FS) (name : GoString) : Bool :=
  match osStat fs name with
  | .ok _ => true
  | .error _ => false

/-- Whether `os.Stat` fails at a path with an error in which `os.IsNotExist` recognises that
nothing is there. -/
def statNotExist (fs : FS) (name : GoString) : Bool :=
  match osStat fs name with
  | .error err => osIsNotExist err
  | .ok _ => false

/-- The extension `validateSource` compares: that of the path, lower-cased. -/
def lowerExt (source : GoString) : GoString :=
  stringsToLower (filepathExt source)

/-- A host on which `vips` and `magick` are found, but not `convert`. -/
def magickOnlyHost : Host :=
  { bareHost with onPath := ["vips".toList, "magick".toList] }

/-- The flag values `defineFlags` declares when the command line sets none. -/
def defaultFlags : flags :=
  { source := []
    output := "./favicons".toList
    sizesStr := "16,32,48,64,128,180,256,512".toList
    backend := []
    generateHTML := true
    generateManifest := false
    generateICO := true
    generateHTMLOnly := false
    appName := []
    appShortName := []
    appDescription := []
    appStartURL := "/".toList
    appDisplay := "standalone".toList
    appOrientation := "any".toList
    appScope := "/".toList
    appThemeColor := "#ffffff".toList
    appBackgroundColor := "#ffffff".toList
    appCategories := []
    appIcon := []
    showVersion := false
    showHelp := false }

/-- The function `filepath.Base` with `/` as the separator: the last element of the path,
trailing separators removed first; `.` for the empty path and `/` for a path made of
separators only. -/
def filepathBase (path : GoString) : GoString :=
  if path = [] then ".".toList
  else
    let path := (path.reverse.dropWhile (fun c => c == '/')).reverse
    let path := (path.reverse.takeWhile (fun c => c != '/')).reverse
    if path = [] then "/".toList else path

/-- The file name of the icon of a size, in the words of the specification:
`favicon-{s}x{s}.png`. -/
def faviconName (s : Int) : GoString :=
  "favicon-".toList ++ formatInt s ++ "x".toList ++ formatInt s ++ ".png".toList

/-- The text after the first occurrence of a pattern, if it occurs. -/
def afterFirst (pat : GoString) : GoString → Option GoString
  | [] => if pat = [] then some [] else none
  | c :: t => if pat.isPrefixOf (c :: t) = true then some ((c :: t).drop pat.length)
      else afterFirst pat t

/-- The value of the attribute `href` of a tag: the text between the first `href="` and the
double quote that closes it. -/
def hrefOf (tag : GoString) : Option GoString :=
  (afterFirst "href=\"".toList tag).map (List.takeWhile (fun c => c != '"'))

/-- A host on which `convert` is found and writes the file its last argument names, except
an `.ico` file, at which it fails. -/
def pngOnlyHost : Host :=
  { onPath := ["convert".toList]
    run := fun _ args fs =>
      match args.getLast? with
      | none => (("convert: no images defined".toList, some (.errorf "exit status 1".toList)), fs)
      | some out =>
        if filepathExt out = ".ico".toList then
          (("convert: no encode delegate for this image format".toList,
            some (.errorf "exit status 1".toList)), fs)
        else
          match osWriteFile fs out (.text []) with
          | .ok fs1 => (([], none), fs1)
          | .error _ =>
            (("convert: unable to open image".toList, some (.errorf "exit status 1".toList)), fs)
    executed := [] }

/-- A file system in which an earlier run has left the icons of the sizes 32 and 64 in the
directory `favicons`. -/
def leftoverFS : FS :=
  { dirs := ["/".toList, ".".toList, "favicons".toList]
    files := [("favicons/favicon-32x32.png".toList, .text "old".toList),
      ("favicons/favicon-64x64.png".toList, .text "old".toList)] }

/-- The candidates of the ICO file in the words of the specification: those of the files
`favicon-16x16.png`, `favicon-32x32.png` and `favicon-48x48.png` of the output directory that
exist, in that order. -/
def icoCandidates (fs : FS) (output : GoString) : List GoString :=
  ([16, 32, 48].map (fun s => filepathJoin [output, faviconName s])).filter
    (fun path => fileExists fs path)

/-- Whether a step of a run is a call of `ConvertToICO`. -/
def Event.isIco : Event → Bool
  | .convertToICO _ _ => true
  | _ => false

/-- Whether a step of a run is image work: the validation of the source, the detection of
the processor, a call of `Resize` or a call of `ConvertToICO`. -/
def Event.isImageWork : Event → Bool
  | .validateSource _ => true
  | .detectProcessor _ => true
  | .resize _ _ => true
  | .convertToICO _ _ => true
  | _ => false

/-- Whether a step of a run is a manifest or HTML-tag step that failed. -/
def Event.outputFailed : Event → Bool
  | .manifest _ (some _) => true
  | .htmlTags _ (some _) => true
  | _ => false

/-- The text by which the tests of the HTML tag emitter recognise an Apple touch icon
link. -/
def appleWord : GoString :=
  "apple-touch-icon".toList

/-- The world in which `Generate` finds itself after calling `Resize` for the sizes of a list
in order, each call starting in the world the one before left. -/
def resizeWorld {σ : Type} (g : FaviconGenerator σ) : List Int → World σ → World σ
  | [], w => w
  | s :: rest, w =>
    resizeWorld g rest (g.Processor.Resize g.SourcePath (faviconPath g.OutputDir s) s w).2

/-- A processor whose `Resize` fails on one size only, and changes nothing. -/
def pickyProcessor (bad : Int) : Processor Unit :=
  { Name := "picky".toList
    IsAvailable := fun _ => true
    Resize := fun _ _ size w =>
      if size = bad then (some (.errorf "resize failed".toList), w) else (none, w)
    ConvertToICO := fun _ _ w => (none, w) }

/-! # Theorems -/

/-! ## Decimal digits -/

theorem digitChar_isDigit (k : Nat) (hk : k < 10) : isDigit (Nat.digitChar k) = true := by
  interval_cases k <;> decide

theorem digitChar_value (k : Nat) (hk : k < 10) :
    (Nat.digitChar k).toNat - '0'.toNat = k := by
  interval_cases k <;> decide

theorem toDigitsCore_all_isDigit (fuel : Nat) :
    ∀ (n : Nat) (ds : GoString), (∀ c ∈ ds, isDigit c = true) →
      ∀ c ∈ Nat.toDigitsCore 10 fuel n ds, isDigit c = true := by
  induction fuel with
  | zero => intro n ds hds; simpa [Nat.toDigitsCore] using hds
  | succ fuel ih =>
    intro n ds hds
    have hd : isDigit (Nat.digitChar (n % 10)) = true :=
      digitChar_isDigit _ (Nat.mod_lt _ (by decide))
    have hcons : ∀ c ∈ Nat.digitChar (n % 10) :: ds, isDigit c = true := by
      intro c hc
      rcases List.mem_cons.mp hc with h | h
      · rw [h]; exact hd
      · exact hds c h
    simp only [Nat.toDigitsCore]
    split
    · exact hcons
    · exact ih _ _ hcons

theorem toDigitsCore_ne_nil (fuel n : Nat) (ds : GoString) :
    Nat.toDigitsCore 10 (fuel + 1) n ds ≠ [] := by
  induction fuel generalizing n ds with
  | zero =>
    simp only [Nat.toDigitsCore]
    split <;> simp
  | succ fuel ih =>
    rw [Nat.toDigitsCore]
    split
    · simp
    · exact ih _ _

theorem toDigitsCore_value (fuel : Nat) :
    ∀ (n : Nat) (ds : GoString), n < fuel →
      List.foldl (fun n ch => n * 10 + (ch.toNat - '0'.toNat)) 0 (Nat.toDigitsCore 10 fuel n ds)
        = List.foldl (fun n ch => n * 10 + (ch.toNat - '0'.toNat)) n ds := by
  induction fuel with
  | zero => intro n ds h; omega
  | succ fuel ih =>
    intro n ds hlt
    simp only [Nat.toDigitsCore]
    split
    · rename_i h0
      have hn : n % 10 = n := Nat.mod_eq_of_lt (by omega)
      have hv : (Nat.digitChar (n % 10)).toNat - '0'.toNat = n := by
        have h := digitChar_value _ (Nat.mod_lt n (by decide : 0 < 10))
        omega
      simp only [List.foldl_cons, Nat.zero_mul, Nat.zero_add, hv]
    · rename_i h0
      have hlt2 : n / 10 < fuel := by omega
      rw [ih _ _ hlt2]
      simp only [List.foldl_cons, digitChar_value _ (Nat.mod_lt n (by decide : 0 < 10))]
      congr 1
      omega

theorem toDigits_all_isDigit (n : Nat) : ∀ c ∈ Nat.toDigits 10 n, isDigit c = true :=
  toDigitsCore_all_isDigit _ _ _ (by simp)

theorem toDigits_ne_nil (n : Nat) : Nat.toDigits 10 n ≠ [] :=
  toDigitsCore_ne_nil _ _ _

theorem digitsValue_toDigits (n : Nat) : digitsValue (Nat.toDigits 10 n) = n := by
  unfold digitsValue Nat.toDigits
  rw [toDigitsCore_value _ _ _ (Nat.lt_succ_self n)]
  rfl

/-! ## parseSizes -/

theorem isDigit_range (c : Char) (h : isDigit c = true) : 48 ≤ c.toNat ∧ c.toNat ≤ 57 := by
  unfold isDigit at h
  simp only [Bool.and_eq_true, decide_eq_true_eq] at h
  obtain ⟨h1, h2⟩ := h
  rw [Char.le_def] at h1 h2
  exact ⟨h1, h2⟩

theorem isDigit_ne_of_toNat (c d : Char) (h : isDigit c = true)
    (hd : d.toNat < 48 ∨ 57 < d.toNat) : c ≠ d := by
  intro hcd
  have hr := isDigit_range c h
  rw [hcd] at hr
  omega

theorem Atoi_digits (ds : GoString) (hne : ds ≠ []) (hall : ∀ c ∈ ds, isDigit c = true) :
    Atoi ds = if (digitsValue ds : Int) ≤ maxInt then .ok (digitsValue ds : Int)
      else .error .ErrRange := by
  cases ds with
  | nil => exact absurd rfl hne
  | cons c rest =>
    have hc : isDigit c = true := hall c (List.mem_cons_self _ _)
    have h1 : c ≠ '-' := isDigit_ne_of_toNat c _ hc (by decide)
    have h2 : c ≠ '+' := isDigit_ne_of_toNat c _ hc (by decide)
    have hall2 : (c :: rest).all isDigit = true := List.all_eq_true.mpr hall
    simp only [Atoi, h1, h2, or_self, if_false, hall2, Bool.not_true, Bool.false_eq_true,
      reduceCtorEq, decide_False]

theorem Atoi_numeral (t : GoString) (v : Int) (h : Atoi t = .ok v) : numeralValue? t = some v := by
  cases t with
  | nil => simp [Atoi] at h
  | cons c rest =>
    unfold Atoi at h
    unfold numeralValue?
    simp only at h ⊢
    by_cases h1 : c = '-'
    · subst h1
      simp only [true_or, if_true, decide_True] at h ⊢
      by_cases hr : rest = []
      · simp [hr] at h
      · by_cases ha : rest.all isDigit = true
        · simp only [hr, ha, if_false, Bool.not_true, Bool.false_eq_true] at h
          split at h
          · simp only [Except.ok.injEq] at h
            simp [hr, ha, h]
          · simp at h
        · simp [hr, ha] at h
    · by_cases h2 : c = '+'
      · subst h2
        simp only [h1, or_true, if_true, if_false, decide_False, Bool.false_eq_true] at h ⊢
        by_cases hr : rest = []
        · simp [hr] at h
        · by_cases ha : rest.all isDigit = true
          · simp only [hr, ha, if_false, Bool.not_true, Bool.false_eq_true] at h
            split at h
            · simp only [Except.ok.injEq] at h
              simp [hr, ha, h]
            · simp at h
          · simp [hr, ha] at h
      · simp only [h1, h2, or_self, if_false, decide_False, Bool.false_eq_true] at h ⊢
        by_cases ha : (c :: rest).all isDigit = true
        · simp only [ha, reduceCtorEq, if_false, Bool.not_true, Bool.false_eq_true] at h
          split at h
          · simp only [Except.ok.injEq] at h
            simp [ha, h]
          · simp at h
        · simp [ha] at h




theorem isDigit_not_isSpace (c : Char) (h : isDigit c = true) : isSpace c = false := by
  have hr := isDigit_range c h
  unfold isSpace
  simp only
  rw [if_pos (by omega)]
  simp only [Bool.or_eq_false_iff, decide_eq_false_iff_not]
  omega


theorem isSpace_ne_comma (c : Char) (h : isSpace c = true) : c ≠ ',' := by
  intro hc
  rw [hc] at h
  exact absurd h (by decide)

theorem dropWhile_append_of_all (p : Char → Bool) (pre l : GoString)
    (h : ∀ c ∈ pre, p c = true) : (pre ++ l).dropWhile p = l.dropWhile p := by
  induction pre with
  | nil => rfl
  | cons a pre ih =>
    have ha : p a = true := h a (List.mem_cons_self _ _)
    simp only [List.cons_append, List.dropWhile_cons, ha, if_true]
    exact ih (fun c hc => h c (List.mem_cons_of_mem _ hc))

theorem dropWhile_of_head (p : Char → Bool) (l : GoString) (h : ∀ c ∈ l.head?, p c = false) :
    l.dropWhile p = l := by
  cases l with
  | nil => rfl
  | cons a l =>
    have ha : p a = false := h a (by simp)
    simp [List.dropWhile_cons, ha]

/-- Trimming a token whose core neither starts nor ends with white space. -/
theorem TrimSpace_padded (pre core post : GoString)
    (hpre : ∀ c ∈ pre, isSpace c = true) (hpost : ∀ c ∈ post, isSpace c = true)
    (hhead : ∀ c ∈ core.head?, isSpace c = false)
    (hlast : ∀ c ∈ core.getLast?, isSpace c = false) :
    TrimSpace (pre ++ core ++ post) = core := by
  unfold TrimSpace
  rw [List.append_assoc, dropWhile_append_of_all _ _ _ hpre]
  by_cases hc : core = []
  · subst hc
    simp only [List.nil_append]
    have h0 : post.dropWhile isSpace = [] := by
      rw [List.dropWhile_eq_nil_iff]; exact hpost
    rw [h0]; rfl
  · have h1 : (core ++ post).dropWhile isSpace = core ++ post := by
      apply dropWhile_of_head
      intro c hc2
      apply hhead
      cases core with
      | nil => exact absurd rfl hc
      | cons a core => simpa using hc2
    rw [h1, List.reverse_append,
      dropWhile_append_of_all _ _ _ (fun c hc2 => hpost c (List.mem_reverse.mp hc2))]
    rw [dropWhile_of_head, List.reverse_reverse]
    intro c hc2
    apply hlast
    rw [List.head?_reverse] at hc2
    exact hc2


theorem formatInt_of_pos (v : Int) (hv : 0 < v) : formatInt v = Nat.toDigits 10 v.toNat := by
  unfold formatInt
  rw [if_neg (by omega)]

theorem formatInt_pos_all_isDigit (v : Int) (hv : 0 < v) : ∀ c ∈ formatInt v, isDigit c = true := by
  rw [formatInt_of_pos v hv]; exact toDigits_all_isDigit _

theorem formatInt_ne_nil (v : Int) : formatInt v ≠ [] := by
  unfold formatInt
  split
  · simp
  · exact toDigits_ne_nil _

theorem Atoi_formatInt (v : Int) (hv : 0 < v) (hmax : v ≤ maxInt) : Atoi (formatInt v) = .ok v := by
  rw [Atoi_digits _ (formatInt_ne_nil v) (formatInt_pos_all_isDigit v hv)]
  have hval : (digitsValue (formatInt v) : Int) = v := by
    rw [formatInt_of_pos v hv, digitsValue_toDigits]
    omega
  rw [hval, if_pos hmax]

theorem TrimSpace_token (t : SizeToken) (h : t.WellFormed) : TrimSpace t.text = formatInt t.value := by
  obtain ⟨hl, ht, hpos, _⟩ := h
  unfold SizeToken.text
  apply TrimSpace_padded _ _ _ hl ht
  · intro c hc
    exact isDigit_not_isSpace c (formatInt_pos_all_isDigit _ hpos c (List.mem_of_mem_head? hc))
  · intro c hc
    exact isDigit_not_isSpace c (formatInt_pos_all_isDigit _ hpos c (List.mem_of_mem_getLast? hc))

theorem comma_not_mem_token (t : SizeToken) (h : t.WellFormed) : ',' ∉ t.text := by
  obtain ⟨hl, ht, hpos, _⟩ := h
  unfold SizeToken.text
  intro hmem
  rcases List.mem_append.mp hmem with h1 | h1
  · rcases List.mem_append.mp h1 with h2 | h2
    · exact isSpace_ne_comma _ (hl _ h2) rfl
    · exact isDigit_ne_of_toNat _ ',' (formatInt_pos_all_isDigit _ hpos _ h2) (by decide) rfl
  · exact isSpace_ne_comma _ (ht _ h1) rfl

theorem parseSizesLoop_tokens (toks : List SizeToken) (h : ∀ t ∈ toks, t.WellFormed) :
    ∀ sizes : List Int, parseSizesLoop (toks.map SizeToken.text) sizes
      = .ok (sizes ++ toks.map SizeToken.value) := by
  induction toks with
  | nil => intro sizes; simp [parseSizesLoop]
  | cons t toks ih =>
    intro sizes
    have ht : t.WellFormed := h t (List.mem_cons_self _ _)
    have hpos : 0 < t.value := ht.2.2.1
    simp only [List.map_cons, parseSizesLoop, TrimSpace_token t ht,
      Atoi_formatInt _ hpos ht.2.2.2]
    rw [if_neg (by omega), ih (fun u hu => h u (List.mem_cons_of_mem _ hu))]
    simp

/-- Claim C1: for every non-empty list of well-formed tokens (a positive `int` written in decimal,
with optional white space around it), `parseSizes` applied to the tokens joined with commas
succeeds and returns exactly the numbers, in order and with duplicates kept. -/
theorem parseSizes_wellFormed (toks : List SizeToken) (hne : toks ≠ [])
    (h : ∀ t ∈ toks, t.WellFormed) :
    parseSizes (stringsJoin (toks.map SizeToken.text) ",".toList)
      = .ok (toks.map SizeToken.value) := by
  unfold parseSizes stringsSplit stringsJoin
  have hsplit : List.splitOn ',' (",".toList.intercalate (toks.map SizeToken.text))
      = toks.map SizeToken.text := by
    apply List.splitOn_intercalate
    · intro l hl
      obtain ⟨t, ht, rfl⟩ := List.mem_map.mp hl
      exact comma_not_mem_token t (h t ht)
    · simpa using hne
  simp only [hsplit]
  rw [parseSizesLoop_tokens toks h]
  simp

/-- The tokens ` 16`, `32` followed by a tab, and ` 16` again: a duplicate, with padding. -/
theorem parseSizes_wellFormed_witness :
    (∀ t ∈ [SizeToken.mk [' '] 16 [], SizeToken.mk [] 32 ['\t'], SizeToken.mk [' '] 16 []],
        t.WellFormed)
      ∧ parseSizes (stringsJoin
          ([SizeToken.mk [' '] 16 [], SizeToken.mk [] 32 ['\t'], SizeToken.mk [' '] 16 []].map
            SizeToken.text) ",".toList)
        = .ok ([SizeToken.mk [' '] 16 [], SizeToken.mk [] 32 ['\t'],
            SizeToken.mk [' '] 16 []].map SizeToken.value) :=
  ⟨by decide, parseSizes_wellFormed _ (List.cons_ne_nil _ _) (by decide)⟩

theorem parseSizesLoop_bad (parts : List GoString) :
    ∀ sizes : List Int, (∃ part ∈ parts, BadToken (TrimSpace part)) →
      ∃ msg, parseSizesLoop parts sizes = .error msg := by
  induction parts with
  | nil => intro sizes h; obtain ⟨p, hp, _⟩ := h; simp at hp
  | cons part parts ih =>
    intro sizes h
    simp only [parseSizesLoop]
    cases hA : Atoi (TrimSpace part) with
    | error e => exact ⟨_, rfl⟩
    | ok v =>
      simp only
      by_cases hv : v ≤ 0
      · rw [if_pos hv]; exact ⟨_, rfl⟩
      · rw [if_neg hv]
        apply ih
        obtain ⟨p, hp, hbad⟩ := h
        rcases List.mem_cons.mp hp with rfl | hp2
        · have hn := Atoi_numeral _ _ hA
          unfold BadToken at hbad
          rw [hn] at hbad
          exact absurd hbad hv
        · exact ⟨p, hp2, hbad⟩

/-- Claim C2: `parseSizes` returns an error, and with it no list at all, for the empty string and
for every input one of whose comma-separated parts is, once trimmed, not numeric (the empty
part of a trailing comma included), zero, or negative. -/
theorem parseSizes_rejects (s : GoString)
    (h : s = [] ∨ ∃ part ∈ stringsSplit s ',', BadToken (TrimSpace part)) :
    ∃ msg, parseSizes s = .error msg := by
  unfold parseSizes
  apply parseSizesLoop_bad
  rcases h with rfl | h
  · exact ⟨[], by decide, by decide⟩
  · exact h

/-- The input `16,` with its trailing comma: the second part is empty. -/
theorem parseSizes_rejects_witness :
    (∃ part ∈ stringsSplit "16,".toList ',', BadToken (TrimSpace part))
      ∧ ∃ msg, parseSizes "16,".toList = .error msg :=
  ⟨⟨[], by decide, by decide⟩, parseSizes_rejects "16,".toList (Or.inr ⟨[], by decide, by decide⟩)⟩

/-! ## GenerateHTMLTags -/

theorem foldl_append_singleton {α β : Type} (f : α → β) (xs : List α) :
    ∀ acc : List β, xs.foldl (fun acc x => acc ++ [f x]) acc = acc ++ xs.map f := by
  induction xs with
  | nil => intro acc; simp
  | cons x xs ih => intro acc; simp [List.foldl_cons, ih]

theorem appleTouchLoop_eq (sizes : List Int) :
    ∀ tags : List GoString, appleTouchLoop sizes tags = tags ++
      (match sizes.find? (fun s => decide (180 ≤ s)) with
       | some s => [appleTouchIconTag s]
       | none => []) := by
  induction sizes with
  | nil => intro tags; simp [appleTouchLoop]
  | cons size sizes ih =>
    intro tags
    by_cases h : 180 ≤ size
    · have h2 : size = 180 ∨ size ≥ 180 := Or.inr h
      simp [appleTouchLoop, h2, List.find?_cons, h]
    · have h2 : ¬ (size = 180 ∨ size ≥ 180) := by omega
      rw [appleTouchLoop, if_neg h2, ih tags]
      simp [List.find?_cons, h]

theorem htmlTags_eq_specTags (config : HTMLTagsConfig) : htmlTags config = specTags config := by
  unfold htmlTags specTags
  simp only [foldl_append_singleton, appleTouchLoop_eq, List.nil_append]
  cases hm : config.IncludeManifest <;> by_cases ht : config.ThemeColor = [] <;> simp [ht]

theorem intercalate_cons_cons (sep a b : GoString) (l : List GoString) :
    sep.intercalate (a :: b :: l) = a ++ sep ++ sep.intercalate (b :: l) := by
  simp [List.intercalate, List.intersperse]

theorem intercalate_singleton (sep a : GoString) : sep.intercalate [a] = a := by
  simp [List.intercalate, List.intersperse]

theorem getLast?_intercalate (sep : GoString) (c : Char) (tags : List GoString)
    (hne : tags ≠ []) (h : ∀ t ∈ tags, t.getLast? = some c) :
    (sep.intercalate tags).getLast? = some c := by
  induction tags with
  | nil => exact absurd rfl hne
  | cons a tags ih =>
    cases tags with
    | nil => rw [intercalate_singleton]; exact h a (List.mem_cons_self _ _)
    | cons b tags =>
      rw [intercalate_cons_cons]
      have hb := ih (by simp) (fun t ht => h t (List.mem_cons_of_mem _ ht))
      have hne2 : sep.intercalate (b :: tags) ≠ [] := by
        intro h0; rw [h0] at hb; simp at hb
      rw [List.getLast?_append_of_ne_nil _ hne2]
      exact hb

theorem specTags_getLast (config : HTMLTagsConfig) :
    ∀ t ∈ specTags config, t.getLast? = some '>' := by
  intro t ht
  unfold specTags at ht
  simp only [List.mem_append, List.mem_singleton, List.mem_map] at ht
  rcases ht with (((h | ⟨s, _, h⟩) | h) | h) | h
  · subst h; decide
  · subst h; unfold pngIconTag
    rw [List.getLast?_append_of_ne_nil _ (by decide)]; rfl
  · split at h
    · simp only [List.mem_singleton] at h; subst h; unfold appleTouchIconTag
      rw [List.getLast?_append_of_ne_nil _ (by decide)]; rfl
    · simp at h
  · split at h
    · simp only [List.mem_singleton] at h; subst h; decide
    · simp at h
  · split at h
    · simp at h
    · simp only [List.mem_singleton] at h; subst h; unfold themeColorTag
      rw [List.getLast?_append_of_ne_nil _ (by decide)]; rfl

theorem GenerateHTMLTags_join (config : HTMLTagsConfig) :
    GenerateHTMLTags config = stringsJoin (specTags config) "\n".toList := by
  unfold GenerateHTMLTags; rw [htmlTags_eq_specTags]

theorem GenerateHTMLTags_getLast (config : HTMLTagsConfig) :
    (GenerateHTMLTags config).getLast? = some '>' := by
  rw [GenerateHTMLTags_join]
  unfold stringsJoin
  apply getLast?_intercalate _ _ _ _ (specTags_getLast config)
  simp [specTags]

theorem modifyHead_append_of_ne_nil {α : Type} (f : α → α) (l r : List α) (h : l ≠ []) :
    (l ++ r).modifyHead f = l.modifyHead f ++ r := by
  cases l with
  | nil => exact absurd rfl h
  | cons a l => rfl

theorem splitOn_append_sep (sep : Char) (a b : GoString) :
    (a ++ sep :: b).splitOn sep = a.splitOn sep ++ b.splitOn sep := by
  unfold List.splitOn
  induction a with
  | nil =>
    rw [List.nil_append, List.splitOnP_cons, List.splitOnP_nil]
    simp
  | cons x xs ih =>
    rw [List.cons_append, List.splitOnP_cons, List.splitOnP_cons, ih]
    by_cases hx : (x == sep) = true
    · simp [hx]
    · simp only [hx, if_false, Bool.false_eq_true]
      exact modifyHead_append_of_ne_nil _ _ _ (List.splitOnP_ne_nil _ _)

theorem splitOn_intercalate_flatMap (sep : Char) (ls : List GoString) (hne : ls ≠ []) :
    ([sep].intercalate ls).splitOn sep = ls.flatMap (fun l => l.splitOn sep) := by
  induction ls with
  | nil => exact absurd rfl hne
  | cons a ls ih =>
    cases ls with
    | nil => simp [intercalate_singleton]
    | cons b ls =>
      rw [intercalate_cons_cons, List.append_assoc, List.singleton_append, splitOn_append_sep,
        ih (by simp)]
      simp [List.flatMap_cons]

theorem lines_GenerateHTMLTags (config : HTMLTagsConfig) :
    lines (GenerateHTMLTags config) = (specTags config).flatMap lines := by
  rw [GenerateHTMLTags_join config]
  unfold lines stringsSplit stringsJoin
  exact splitOn_intercalate_flatMap '\n' _ (by simp [specTags])

/-- Claim C4: for every size list (the empty one included), every manifest flag and every
theme colour, the first line of the output of `GenerateHTMLTags` is the default link
`<link rel="icon" href="/favicon.ico" sizes="any">`, which is therefore one of its lines. -/
theorem GenerateHTMLTags_first_line (config : HTMLTagsConfig) :
    (lines (GenerateHTMLTags config)).head? = some faviconIcoTag
      ∧ faviconIcoTag ∈ lines (GenerateHTMLTags config) := by
  have h : ∃ rest, lines (GenerateHTMLTags config) = faviconIcoTag :: rest := by
    rw [lines_GenerateHTMLTags]
    unfold specTags
    simp only [List.append_assoc, List.singleton_append, List.cons_append, List.flatMap_cons]
    have h1 : lines faviconIcoTag = [faviconIcoTag] := by decide
    rw [h1]
    exact ⟨_, rfl⟩
  obtain ⟨rest, hr⟩ := h
  rw [hr]
  exact ⟨rfl, List.mem_cons_self _ _⟩

theorem prefix_append_iff_of_length_le (p a b : GoString) (h : p.length ≤ a.length) :
    p <+: a ++ b ↔ p <+: a := by
  constructor
  · intro hp
    exact List.prefix_of_prefix_length_le hp (List.prefix_append a b) h
  · intro hp
    exact hp.trans (List.prefix_append a b)

theorem isAppleTouchLink_pngIconTag (s : Int) : isAppleTouchLink (pngIconTag s) = false := by
  unfold isAppleTouchLink pngIconTag
  simp only [List.append_assoc]
  rw [decide_eq_false_iff_not, prefix_append_iff_of_length_le _ _ _ (by decide)]
  decide

theorem isAppleTouchLink_themeColorTag (tc : GoString) :
    isAppleTouchLink (themeColorTag tc) = false := by
  unfold isAppleTouchLink themeColorTag
  simp only [List.append_assoc]
  rw [decide_eq_false_iff_not, prefix_append_iff_of_length_le _ _ _ (by decide)]
  decide

theorem isAppleTouchLink_appleTouchIconTag (s : Int) :
    isAppleTouchLink (appleTouchIconTag s) = true := by
  unfold isAppleTouchLink appleTouchIconTag
  simp only [List.append_assoc]
  rw [decide_eq_true_iff, prefix_append_iff_of_length_le _ _ _ (by decide)]
  decide

theorem filter_isAppleTouchLink_specTags (config : HTMLTagsConfig) :
    (specTags config).filter isAppleTouchLink =
      match config.Sizes.find? (fun s => decide (180 ≤ s)) with
      | some s => [appleTouchIconTag s]
      | none => [] := by
  unfold specTags
  have h1 : (config.Sizes.map pngIconTag).filter isAppleTouchLink = [] := by
    rw [List.filter_eq_nil_iff]
    intro t ht
    obtain ⟨s, _, rfl⟩ := List.mem_map.mp ht
    simp [isAppleTouchLink_pngIconTag]
  have h0 : isAppleTouchLink faviconIcoTag = false := by decide
  have h2 : isAppleTouchLink manifestTag = false := by decide
  simp only [List.filter_append, h1, List.filter_cons, h0, List.filter_nil, List.nil_append,
    Bool.false_eq_true, if_false]
  have h3 : (if config.IncludeManifest = true then [manifestTag] else []).filter isAppleTouchLink
      = [] := by
    split <;> simp [h2]
  have h4 : (if config.ThemeColor = [] then []
      else [themeColorTag config.ThemeColor]).filter isAppleTouchLink = [] := by
    split <;> simp [isAppleTouchLink_themeColorTag]
  rw [h3, h4, List.append_nil, List.append_nil]
  generalize List.find? (fun s => decide (180 ≤ s)) config.Sizes = found
  cases found <;> simp [isAppleTouchLink_appleTouchIconTag]

/-- Among the tags `GenerateHTMLTags` joins at most one is an Apple touch icon link: when
some size is at least 180 there is exactly one, that of the first such size in list order;
when every size is below 180 no tag is an Apple touch icon link. -/
theorem htmlTags_appleTouch (config : HTMLTagsConfig) :
    GenerateHTMLTags config = stringsJoin (htmlTags config) "\n".toList
      ∧ ((htmlTags config).filter isAppleTouchLink).length ≤ 1
      ∧ (∀ s, config.Sizes.find? (fun s => decide (180 ≤ s)) = some s →
          (htmlTags config).filter isAppleTouchLink = [appleTouchIconTag s])
      ∧ ((∀ s ∈ config.Sizes, s < 180) →
          ∀ t ∈ htmlTags config, isAppleTouchLink t = false) := by
  have hf := filter_isAppleTouchLink_specTags config
  rw [← htmlTags_eq_specTags] at hf
  refine ⟨rfl, ?_, ?_, ?_⟩
  · rw [hf]; split <;> simp
  · intro s hs; rw [hf, hs]
  · intro hall t ht
    have hnone : config.Sizes.find? (fun s => decide (180 ≤ s)) = none := by
      rw [List.find?_eq_none]
      intro s hs
      have := hall s hs
      simp only [decide_eq_true_eq]; omega
    rw [hnone] at hf
    have := List.filter_eq_nil_iff.mp hf t ht
    simpa using this

/-- A pattern that avoids a character cannot straddle an occurrence of it. -/
theorem infix_append_sep (p u v : GoString) (c : Char) (hc : c ∉ p)
    (h : p <:+: u ++ c :: v) : p <:+: u ∨ p <:+: v := by
  obtain ⟨s, t, hst⟩ := h
  rcases List.append_eq_append_iff.mp hst with ⟨a, hu, _⟩ | ⟨d, hsp, hcv⟩
  · exact Or.inl ⟨s, a, hu.symm⟩
  · cases d with
    | nil =>
      rw [List.append_nil] at hsp
      exact Or.inl ⟨s, [], by rw [List.append_nil]; exact hsp⟩
    | cons x d =>
      rw [List.cons_append] at hcv
      obtain ⟨hx, hv⟩ := List.cons.inj hcv
      subst hx
      rcases List.append_eq_append_iff.mp hsp with ⟨a, _, ha⟩ | ⟨e, _, he⟩
      · exact absurd (ha ▸ List.mem_append_right a (List.mem_cons_self c d)) hc
      · cases e with
        | nil =>
          rw [List.nil_append] at he
          exact absurd (he ▸ List.mem_cons_self c d) hc
        | cons y e =>
          rw [List.cons_append] at he
          obtain ⟨_, hd⟩ := List.cons.inj he
          exact Or.inr ⟨e, t, by rw [hv, hd]⟩

theorem not_infix_append_sep (p u v : GoString) (c : Char) (hc : c ∉ p)
    (hu : ¬ p <:+: u) (hv : ¬ p <:+: v) : ¬ p <:+: u ++ c :: v := by
  intro h
  rcases infix_append_sep p u v c hc h with h1 | h1
  · exact hu h1
  · exact hv h1


theorem not_infix_sepRun (p d v : GoString) (hp : p ≠ []) (hd : ∀ c ∈ d, c ∉ p)
    (hv : ¬ p <:+: v) : ¬ p <:+: d ++ v := by
  induction d with
  | nil => simpa using hv
  | cons c d ih =>
    have h := not_infix_append_sep p [] (d ++ v) c (hd c (List.mem_cons_self _ _))
      (by simpa using hp) (ih (fun x hx => hd x (List.mem_cons_of_mem _ hx)))
    simpa using h

theorem not_infix_wrap (p u d v : GoString) (hp : p ≠ []) (hne : d ≠ [])
    (hd : ∀ c ∈ d, c ∉ p) (hu : ¬ p <:+: u) (hv : ¬ p <:+: v) : ¬ p <:+: u ++ (d ++ v) := by
  cases d with
  | nil => exact absurd rfl hne
  | cons c d =>
    rw [List.cons_append]
    exact not_infix_append_sep p u (d ++ v) c (hd c (List.mem_cons_self _ _)) hu
      (not_infix_sepRun p d v hp (fun x hx => hd x (List.mem_cons_of_mem _ hx)) hv)

theorem formatInt_chars (n : Int) : ∀ c ∈ formatInt n, c = '-' ∨ isDigit c = true := by
  intro c hc
  unfold formatInt at hc
  split at hc
  · rcases List.mem_cons.mp hc with h | h
    · exact Or.inl h
    · exact Or.inr (toDigits_all_isDigit _ c h)
  · exact Or.inr (toDigits_all_isDigit _ c hc)

theorem formatInt_not_mem_manifestWord (n : Int) : ∀ c ∈ formatInt n, c ∉ manifestWord := by
  intro c hc hmem
  rcases formatInt_chars n c hc with h | h
  · subst h; exact absurd hmem (by decide)
  · have hr := isDigit_range c h
    have : ∀ x ∈ manifestWord, 57 < x.toNat := by decide
    have := this c hmem
    omega

/-- The text `{n}x{n}` of a square box. -/
theorem sizeBox_not_mem_manifestWord (n : Int) :
    ∀ c ∈ formatInt n ++ ("x".toList ++ formatInt n), c ∉ manifestWord := by
  intro c hc
  rcases List.mem_append.mp hc with h | h
  · exact formatInt_not_mem_manifestWord n c h
  · rcases List.mem_append.mp h with h2 | h2
    · have : c = 'x' := by simpa using h2
      subst this; decide
    · exact formatInt_not_mem_manifestWord n c h2

theorem sizeBox_ne_nil (n : Int) : formatInt n ++ ("x".toList ++ formatInt n) ≠ [] := by
  simp [formatInt_ne_nil]

theorem manifestWord_ne_nil : manifestWord ≠ [] := by decide

/-- Both link templates with a size have the shape `f1 {n}x{n} f2 {n}x{n} f3`; the word is
in none of them when it is in none of the three fixed parts. -/
theorem sizedTag_no_manifestWord (f1 f2 f3 : GoString) (n : Int)
    (h1 : ¬ manifestWord <:+: f1) (h2 : ¬ manifestWord <:+: f2) (h3 : ¬ manifestWord <:+: f3) :
    ¬ manifestWord <:+: f1 ++ formatInt n ++ "x".toList ++ formatInt n ++ f2 ++ formatInt n
      ++ "x".toList ++ formatInt n ++ f3 := by
  have hshape : f1 ++ formatInt n ++ "x".toList ++ formatInt n ++ f2 ++ formatInt n
      ++ "x".toList ++ formatInt n ++ f3
      = f1 ++ ((formatInt n ++ ("x".toList ++ formatInt n))
          ++ (f2 ++ ((formatInt n ++ ("x".toList ++ formatInt n)) ++ f3))) := by
    simp only [List.append_assoc]
  rw [hshape]
  exact not_infix_wrap _ _ _ _ manifestWord_ne_nil (sizeBox_ne_nil n)
    (sizeBox_not_mem_manifestWord n) h1
    (not_infix_wrap _ _ _ _ manifestWord_ne_nil (sizeBox_ne_nil n)
      (sizeBox_not_mem_manifestWord n) h2 h3)

theorem pngIconTag_no_manifestWord (n : Int) : ¬ manifestWord <:+: pngIconTag n :=
  sizedTag_no_manifestWord _ _ _ n (by decide) (by decide) (by decide)

theorem appleTouchIconTag_no_manifestWord (n : Int) :
    ¬ manifestWord <:+: appleTouchIconTag n :=
  sizedTag_no_manifestWord _ _ _ n (by decide) (by decide) (by decide)

theorem themeColorTag_no_manifestWord (tc : GoString) (h : ¬ manifestWord <:+: tc) :
    ¬ manifestWord <:+: themeColorTag tc := by
  have hshape : themeColorTag tc
      = "<meta name=\"theme-color\" content=".toList ++ '"' :: (tc ++ '"' :: ">".toList) := by
    unfold themeColorTag
    have e1 : "<meta name=\"theme-color\" content=\"".toList
        = "<meta name=\"theme-color\" content=".toList ++ ['"'] := by decide
    have e2 : "\">".toList = '"' :: ">".toList := by decide
    rw [e1, e2]
    simp only [List.append_assoc, List.singleton_append, List.cons_append, List.nil_append]
  rw [hshape]
  exact not_infix_append_sep _ _ _ _ (by decide) (by decide)
    (not_infix_append_sep _ _ _ _ (by decide) h (by decide))

theorem intercalate_no_infix (p : GoString) (c : Char) (hc : c ∉ p) (tags : List GoString)
    (hne : tags ≠ []) (h : ∀ t ∈ tags, ¬ p <:+: t) : ¬ p <:+: [c].intercalate tags := by
  induction tags with
  | nil => exact absurd rfl hne
  | cons a tags ih =>
    cases tags with
    | nil => rw [intercalate_singleton]; exact h a (List.mem_cons_self _ _)
    | cons b tags =>
      rw [intercalate_cons_cons, List.append_assoc, List.singleton_append]
      exact not_infix_append_sep _ _ _ _ hc (h a (List.mem_cons_self _ _))
        (ih (by simp) (fun t ht => h t (List.mem_cons_of_mem _ ht)))

theorem specTags_no_manifestWord (config : HTMLTagsConfig) (hm : config.IncludeManifest = false)
    (htc : ¬ manifestWord <:+: config.ThemeColor) :
    ∀ t ∈ specTags config, ¬ manifestWord <:+: t := by
  intro t ht
  unfold specTags at ht
  simp only [List.mem_append, List.mem_singleton, List.mem_map, hm, Bool.false_eq_true,
    if_false, List.not_mem_nil, or_false] at ht
  rcases ht with ((h | ⟨s, _, h⟩) | h) | h
  · subst h; decide
  · subst h; exact pngIconTag_no_manifestWord s
  · split at h
    · simp only [List.mem_singleton] at h; subst h; exact appleTouchIconTag_no_manifestWord _
    · simp at h
  · split at h
    · simp at h
    · simp only [List.mem_singleton] at h; subst h; exact themeColorTag_no_manifestWord _ htc

theorem mem_splitOn_infix (sep : Char) (l xs : GoString) (h : l ∈ xs.splitOn sep) :
    l <:+: xs := by
  have hx := List.intercalate_splitOn xs sep
  have key : ∀ (ls : List GoString), l ∈ ls → l <:+: [sep].intercalate ls := by
    intro ls hl
    induction ls with
    | nil => simp at hl
    | cons a ls ih =>
      cases ls with
      | nil =>
        rw [intercalate_singleton]
        have : l = a := by simpa using hl
        rw [this]
      | cons b ls =>
        rw [intercalate_cons_cons]
        rcases List.mem_cons.mp hl with h1 | h1
        · rw [h1, List.append_assoc]; exact List.infix_append' [] a _
        · exact (ih h1).trans (List.suffix_append (a ++ [sep]) _).isInfix
  rw [← hx]
  exact key _ h

/-- Claim C6: for every CLI configuration whose theme colour does not contain the word
`manifest`, the output of `GenerateHTMLTags` on `buildHTMLTagsConfig` has the line
`<link rel="manifest" href="/manifest.webmanifest">` if and only if `GenerateManifest` is
true, and when it is false the output does not contain the word `manifest` at all. -/
theorem GenerateHTMLTags_manifest (c : Config) (h : ¬ stringsContains c.AppThemeColor manifestWord) :
    (manifestTag ∈ lines (GenerateHTMLTags c.buildHTMLTagsConfig) ↔ c.GenerateManifest = true)
      ∧ (c.GenerateManifest = false →
          ¬ stringsContains (GenerateHTMLTags c.buildHTMLTagsConfig) manifestWord) := by
  have hno : c.GenerateManifest = false →
      ¬ stringsContains (GenerateHTMLTags c.buildHTMLTagsConfig) manifestWord := by
    intro hm
    unfold stringsContains
    rw [GenerateHTMLTags_join]
    unfold stringsJoin
    exact intercalate_no_infix _ _ (by decide) _ (by simp [specTags])
      (specTags_no_manifestWord _ hm h)
  refine ⟨⟨?_, ?_⟩, hno⟩
  · intro hline
    cases hm : c.GenerateManifest with
    | true => rfl
    | false =>
      exfalso
      apply hno hm
      have h1 : manifestTag <:+: GenerateHTMLTags c.buildHTMLTagsConfig :=
        mem_splitOn_infix _ _ _ hline
      have h2 : manifestWord <:+: manifestTag := by decide
      exact h2.trans h1
  · intro hm
    rw [lines_GenerateHTMLTags]
    rw [List.mem_flatMap]
    refine ⟨manifestTag, ?_, by decide⟩
    unfold specTags
    have : c.buildHTMLTagsConfig.IncludeManifest = true := hm
    simp [this]

/-- The default configuration: its theme colour `#ffffff` does not contain the word, and
no manifest is asked for. -/
theorem GenerateHTMLTags_manifest_witness :
    ¬ stringsContains defaultConfig.AppThemeColor manifestWord
      ∧ ((manifestTag ∈ lines (GenerateHTMLTags defaultConfig.buildHTMLTagsConfig)
            ↔ defaultConfig.GenerateManifest = true)
          ∧ (defaultConfig.GenerateManifest = false →
              ¬ stringsContains (GenerateHTMLTags defaultConfig.buildHTMLTagsConfig)
                manifestWord)) :=
  ⟨by decide, GenerateHTMLTags_manifest defaultConfig (by decide)⟩

theorem newline_not_mem_formatInt (n : Int) : '\n' ∉ formatInt n := by
  intro h
  rcases formatInt_chars n _ h with h1 | h1
  · exact absurd h1 (by decide)
  · exact absurd h1 (by decide)

theorem newline_not_mem_pngIconTag (n : Int) : '\n' ∉ pngIconTag n := by
  have hf := eq_false (newline_not_mem_formatInt n)
  simp only [pngIconTag, List.mem_append, hf, or_false, false_or]
  decide

theorem newline_not_mem_appleTouchIconTag (n : Int) : '\n' ∉ appleTouchIconTag n := by
  have hf := eq_false (newline_not_mem_formatInt n)
  simp only [appleTouchIconTag, List.mem_append, hf, or_false, false_or]
  decide

theorem newline_not_mem_specTags (config : HTMLTagsConfig) (h : '\n' ∉ config.ThemeColor) :
    ∀ t ∈ specTags config, '\n' ∉ t := by
  intro t ht
  unfold specTags at ht
  simp only [List.mem_append, List.mem_singleton, List.mem_map] at ht
  rcases ht with (((h1 | ⟨s, _, h1⟩) | h1) | h1) | h1
  · subst h1; decide
  · subst h1; exact newline_not_mem_pngIconTag s
  · split at h1
    · simp only [List.mem_singleton] at h1; subst h1; exact newline_not_mem_appleTouchIconTag _
    · simp at h1
  · split at h1
    · simp only [List.mem_singleton] at h1; subst h1; decide
    · simp at h1
  · split at h1
    · simp at h1
    · simp only [List.mem_singleton] at h1; subst h1
      have hf := eq_false h
      simp only [themeColorTag, List.mem_append, hf, or_false, false_or]
      decide

theorem lines_eq_specTags (config : HTMLTagsConfig) (h : '\n' ∉ config.ThemeColor) :
    lines (GenerateHTMLTags config) = specTags config := by
  rw [GenerateHTMLTags_join config]
  unfold lines stringsSplit stringsJoin
  exact List.splitOn_intercalate _ '\n' (newline_not_mem_specTags config h) (by simp [specTags])

/-- Claim C3: for every configuration, `GenerateHTMLTags` returns exactly the newline-join of
the default `favicon.ico` link, one PNG link per size in the given order (duplicates kept),
the Apple touch icon link for the first size that is at least 180 if there is one, the
manifest link if `IncludeManifest` is set, and the theme colour tag if `ThemeColor` is not
empty. Nothing else is joined: the output ends with the `>` of its last tag, not with a
newline, and when the theme colour has no line break of its own the lines of the output are
exactly these tags. -/
theorem GenerateHTMLTags_eq_spec (config : HTMLTagsConfig) :
    GenerateHTMLTags config = stringsJoin (specTags config) "\n".toList
      ∧ (GenerateHTMLTags config).getLast? = some '>'
      ∧ ('\n' ∉ config.ThemeColor → lines (GenerateHTMLTags config) = specTags config) :=
  ⟨GenerateHTMLTags_join config, GenerateHTMLTags_getLast config, lines_eq_specTags config⟩

/-- The sizes 16 and 180 with a manifest and the theme colour `#fff`: five lines. -/
theorem GenerateHTMLTags_eq_spec_witness :
    '\n' ∉ "#fff".toList
      ∧ lines (GenerateHTMLTags ⟨[16, 180], true, "#fff".toList⟩)
        = specTags ⟨[16, 180], true, "#fff".toList⟩ :=
  ⟨by decide, (GenerateHTMLTags_eq_spec ⟨[16, 180], true, "#fff".toList⟩).2.2 (by decide)⟩

/-! ## GenerateManifest: the manifest value and its encoding -/

theorem foldl_icons (m : Manifest) (sizes : List Int) :
    ∀ icons : List Icon,
      sizes.foldl (fun manifest size =>
          { manifest with Icons := goAppend manifest.Icons (iconFor size) })
        { m with Icons := some icons }
      = { m with Icons := some (icons ++ sizes.map iconFor) } := by
  induction sizes with
  | nil => intro icons; simp
  | cons s sizes ih =>
    intro icons
    have h := ih (icons ++ [iconFor s])
    rw [List.append_assoc, List.singleton_append] at h
    exact h

theorem buildManifest_eq (config : ManifestConfig) :
    buildManifest config =
      { Name := config.Name
        ShortName := config.ShortName
        Description := config.Description
        StartURL := config.StartURL
        Display := config.Display
        Orientation := config.Orientation
        Scope := config.Scope
        ThemeColor := config.ThemeColor
        BackgroundColor := config.BackgroundColor
        Categories := config.Categories
        Icons := some (config.IconSizes.map iconFor) } := by
  unfold buildManifest
  have h := foldl_icons
    { Name := config.Name
      ShortName := config.ShortName
      Description := config.Description
      StartURL := config.StartURL
      Display := config.Display
      Orientation := config.Orientation
      Scope := config.Scope
      ThemeColor := config.ThemeColor
      BackgroundColor := config.BackgroundColor
      Categories := config.Categories
      Icons := some [] } config.IconSizes []
  simpa using h

theorem keys_omitEmptyStr (key : String) (v : GoString) :
    (omitEmptyStr key v).map Prod.fst = if v = [] then [] else [key] := by
  unfold omitEmptyStr; split <;> rfl

theorem marshalManifest_keys (m : Manifest) :
    (marshalManifest m).keys =
      (if m.Name = [] then [] else ["name"])
        ++ (if m.ShortName = [] then [] else ["short_name"])
        ++ (if m.Description = [] then [] else ["description"])
        ++ ["start_url", "display"]
        ++ (if m.Orientation = [] then [] else ["orientation"])
        ++ (if m.Scope = [] then [] else ["scope"])
        ++ (if m.ThemeColor = [] then [] else ["theme_color"])
        ++ (if m.BackgroundColor = [] then [] else ["background_color"])
        ++ (if goLen m.Categories = 0 then [] else ["categories"])
        ++ ["icons"] := by
  unfold marshalManifest JSON.keys
  simp only [List.map_append, keys_omitEmptyStr, List.map_cons, List.map_nil]
  congr 2
  split <;> rfl

theorem find?_omitEmptyStr_append (key k : String) (v : GoString)
    (rest : List (String × JSON)) (hk : key ≠ k) :
    (omitEmptyStr key v ++ rest).find? (fun kv => decide (kv.1 = k))
      = rest.find? (fun kv => decide (kv.1 = k)) := by
  unfold omitEmptyStr
  split
  · rfl
  · simp [List.find?_cons, hk]

theorem find?_key_cons (key k : String) (v : JSON) (rest : List (String × JSON)) (hk : key ≠ k) :
    ((key, v) :: rest).find? (fun kv => decide (kv.1 = k))
      = rest.find? (fun kv => decide (kv.1 = k)) := by
  simp [List.find?_cons, hk]

theorem marshalManifest_icons (m : Manifest) :
    (marshalManifest m).get? "icons" = some (marshalIcons m.Icons) := by
  unfold marshalManifest JSON.get?
  simp only [List.append_assoc]
  rw [find?_omitEmptyStr_append "name" "icons" _ _ (by decide),
    find?_omitEmptyStr_append "short_name" "icons" _ _ (by decide),
    find?_omitEmptyStr_append "description" "icons" _ _ (by decide)]
  rw [List.cons_append, find?_key_cons "start_url" "icons" _ _ (by decide), List.cons_append,
    find?_key_cons "display" "icons" _ _ (by decide), List.nil_append]
  rw [find?_omitEmptyStr_append "orientation" "icons" _ _ (by decide),
    find?_omitEmptyStr_append "scope" "icons" _ _ (by decide),
    find?_omitEmptyStr_append "theme_color" "icons" _ _ (by decide),
    find?_omitEmptyStr_append "background_color" "icons" _ _ (by decide)]
  split
  · simp
  · rw [List.singleton_append, find?_key_cons "categories" "icons" _ _ (by decide)]
    simp

theorem marshalIcon_keys (icon : Icon) :
    (marshalIcon icon).keys
      = ["src", "sizes", "type"] ++ if icon.Purpose = [] then [] else ["purpose"] := by
  unfold marshalIcon JSON.keys
  simp only [List.map_append, keys_omitEmptyStr, List.map_cons, List.map_nil]

/-- The `Manifest` value holds the icons `iconFor s` of the sizes, and the icon built for a
size `s` has the purpose `any maskable` exactly when `s ≥ 192`; it is then encoded under the
key `purpose`, while an icon for a size below 192 has an empty purpose and no such key, the
sizes 180 to 191 of an Apple touch icon included. -/
theorem iconFor_purpose (config : ManifestConfig) :
    (buildManifest config).Icons = some (config.IconSizes.map iconFor)
      ∧ ∀ s : Int,
        ((iconFor s).Purpose = "any maskable".toList ↔ s ≥ 192)
          ∧ (s ≥ 192 → "purpose" ∈ (marshalIcon (iconFor s)).keys)
          ∧ (s < 192 → (iconFor s).Purpose = [] ∧ "purpose" ∉ (marshalIcon (iconFor s)).keys)
          ∧ (180 ≤ s → s < 192 → appleTouchLoop [s] [] = [appleTouchIconTag s]) := by
  refine ⟨by rw [buildManifest_eq], ?_⟩
  intro s
  by_cases h : s ≥ 192
  · have hp : (iconFor s).Purpose = "any maskable".toList := by
      unfold iconFor; rw [if_pos h]
    refine ⟨⟨fun _ => h, fun _ => hp⟩, ?_, fun h2 => absurd h (by omega),
      fun _ h2 => absurd h (by omega)⟩
    intro _
    rw [marshalIcon_keys, hp]
    decide
  · have hp : (iconFor s).Purpose = [] := by
      unfold iconFor; rw [if_neg h]
    refine ⟨⟨fun h2 => ?_, fun h2 => absurd h2 h⟩, fun h2 => absurd h2 h, fun _ => ⟨hp, ?_⟩,
      fun h2 _ => ?_⟩
    · rw [hp] at h2; exact absurd h2 (by decide)
    · rw [marshalIcon_keys, hp]
      decide
    · have h3 : s = 180 ∨ s ≥ 180 := Or.inr h2
      rw [appleTouchLoop, if_pos h3]
      rfl

/-- The `Manifest` value has exactly one icon per size of the list, in its order and with
duplicates kept, the one for `s` having the source `favicon-{s}x{s}.png`, the sizes `{s}x{s}`
and the type `image/png`; these icons are what is encoded under the key `icons`. -/
theorem buildManifest_icons (config : ManifestConfig) :
    goLen (buildManifest config).Icons = config.IconSizes.length
      ∧ ((buildManifest config).Icons.getD []).map (fun icon => (icon.Src, icon.Sizes, icon.Typ))
          = config.IconSizes.map specIconFields
      ∧ (marshalManifest (buildManifest config)).get? "icons"
          = some (.arr (config.IconSizes.map (fun s => marshalIcon (iconFor s)))) := by
  have hI : (buildManifest config).Icons = some (config.IconSizes.map iconFor) := by
    rw [buildManifest_eq]
  refine ⟨?_, ?_, ?_⟩
  · rw [hI]; simp [goLen]
  · rw [hI]
    simp only [Option.getD_some, List.map_map]
    apply List.map_congr_left
    intro s _
    unfold iconFor specIconFields
    simp only [Function.comp]
    split <;> rfl
  · rw [marshalManifest_icons, hI]
    simp [marshalIcons, List.map_map, Function.comp]

/-- In the encoding of the `Manifest` value, each of the keys `name`, `short_name`,
`description`, `orientation`, `scope`, `theme_color`, `background_color` and `categories` is
present exactly when the corresponding value of the configuration is not empty; `start_url`,
`display` and `icons` are always present; `icons` is always an array, the empty array when
the size list is empty. -/
theorem buildManifest_keys (config : ManifestConfig) :
    ("name" ∈ (marshalManifest (buildManifest config)).keys ↔ config.Name ≠ [])
      ∧ ("short_name" ∈ (marshalManifest (buildManifest config)).keys ↔ config.ShortName ≠ [])
      ∧ ("description" ∈ (marshalManifest (buildManifest config)).keys
          ↔ config.Description ≠ [])
      ∧ ("orientation" ∈ (marshalManifest (buildManifest config)).keys
          ↔ config.Orientation ≠ [])
      ∧ ("scope" ∈ (marshalManifest (buildManifest config)).keys ↔ config.Scope ≠ [])
      ∧ ("theme_color" ∈ (marshalManifest (buildManifest config)).keys
          ↔ config.ThemeColor ≠ [])
      ∧ ("background_color" ∈ (marshalManifest (buildManifest config)).keys
          ↔ config.BackgroundColor ≠ [])
      ∧ ("categories" ∈ (marshalManifest (buildManifest config)).keys
          ↔ goLen config.Categories ≠ 0)
      ∧ "start_url" ∈ (marshalManifest (buildManifest config)).keys
      ∧ "display" ∈ (marshalManifest (buildManifest config)).keys
      ∧ "icons" ∈ (marshalManifest (buildManifest config)).keys
      ∧ (∃ elems, (marshalManifest (buildManifest config)).get? "icons" = some (.arr elems))
      ∧ (config.IconSizes = [] →
          (marshalManifest (buildManifest config)).get? "icons" = some (.arr [])) := by
  rw [marshalManifest_keys, marshalManifest_icons, buildManifest_eq]
  simp only
  refine ⟨?_, ?_, ?_, ?_, ?_, ?_, ?_, ?_, ?_, ?_, ?_, ?_, ?_⟩
  · simp [List.mem_append]
  · simp [List.mem_append]
  · simp [List.mem_append]
  · simp [List.mem_append]
  · simp [List.mem_append]
  · simp [List.mem_append]
  · simp [List.mem_append]
  · simp [List.mem_append]
  · simp
  · simp
  · simp
  · exact ⟨_, rfl⟩
  · intro h; rw [h]; rfl

/-! ## Paths and the file system -/

theorem sep_not_mem_of_mem_splitOn (sep : Char) (xs : GoString) :
    ∀ l ∈ xs.splitOn sep, sep ∉ l := by
  unfold List.splitOn
  induction xs with
  | nil => intro l hl; simp [List.splitOnP_nil] at hl; simp [hl]
  | cons x xs ih =>
    intro l hl
    rw [List.splitOnP_cons] at hl
    by_cases hx : (x == sep) = true
    · rw [if_pos hx] at hl
      rcases List.mem_cons.mp hl with h | h
      · simp [h]
      · exact ih l h
    · rw [if_neg hx] at hl
      cases hs : List.splitOnP (fun y => y == sep) xs with
      | nil => exact absurd hs (List.splitOnP_ne_nil _ _)
      | cons a as =>
        rw [hs] at hl ih
        simp only [List.modifyHead_cons, List.mem_cons] at hl
        rcases hl with h | h
        · rw [h]
          intro hmem
          rcases List.mem_cons.mp hmem with h2 | h2
          · exact hx (by simp [h2])
          · exact ih a (List.mem_cons_self _ _) h2
        · exact ih l (List.mem_cons_of_mem _ h)

theorem mem_cleanStep (rooted : Bool) (out : List GoString) (x e : GoString)
    (h : e ∈ cleanStep rooted out x) : e ∈ out ∨ (e = x ∧ x ≠ []) := by
  unfold cleanStep at h
  split at h
  · exact Or.inl h
  · rename_i hx
    have hx0 : x ≠ [] := fun h0 => hx (Or.inl h0)
    have happ : e ∈ out ++ [x] → e ∈ out ∨ (e = x ∧ x ≠ []) := by
      intro h1
      rcases List.mem_append.mp h1 with h2 | h2
      · exact Or.inl h2
      · exact Or.inr ⟨by simpa using h2, hx0⟩
    split at h
    · split at h
      · split at h
        · exact happ h
        · exact Or.inl (List.mem_of_mem_dropLast h)
      · split at h
        · exact Or.inl h
        · exact happ h
    · exact happ h

theorem mem_foldl_cleanStep (rooted : Bool) (xs : List GoString) :
    ∀ (out : List GoString) (e : GoString), e ∈ xs.foldl (cleanStep rooted) out →
      e ∈ out ∨ (e ∈ xs ∧ e ≠ []) := by
  induction xs with
  | nil => intro out e h; exact Or.inl h
  | cons x xs ih =>
    intro out e h
    rw [List.foldl_cons] at h
    rcases ih _ _ h with h1 | ⟨h1, h2⟩
    · rcases mem_cleanStep _ _ _ _ h1 with h3 | ⟨h3, h4⟩
      · exact Or.inl h3
      · exact Or.inr ⟨by rw [h3]; exact List.mem_cons_self _ _, by rw [h3]; exact h4⟩
    · exact Or.inr ⟨List.mem_cons_of_mem _ h1, h2⟩

theorem intercalate_ne_nil (sep : GoString) (ls : List GoString) (hne : ls ≠ [])
    (h : ∀ l ∈ ls, l ≠ []) : sep.intercalate ls ≠ [] := by
  cases ls with
  | nil => exact absurd rfl hne
  | cons a ls =>
    have ha : a ≠ [] := h a (List.mem_cons_self _ _)
    cases ls with
    | nil => rw [intercalate_singleton]; exact ha
    | cons b ls => rw [intercalate_cons_cons]; simp [ha]

theorem intercalate_append_singleton (sep : GoString) (ls : List GoString) (n : GoString)
    (hne : ls ≠ []) : sep.intercalate (ls ++ [n]) = sep.intercalate ls ++ sep ++ n := by
  induction ls with
  | nil => exact absurd rfl hne
  | cons a ls ih =>
    cases ls with
    | nil => simp [intercalate_cons_cons, intercalate_singleton]
    | cons b ls =>
      rw [List.cons_append, List.cons_append, intercalate_cons_cons, ← List.cons_append,
        ih (by simp), intercalate_cons_cons]
      simp [List.append_assoc]

theorem cleanStep_plain (rooted : Bool) (out : List GoString) (n : GoString)
    (hn : PlainName n) : cleanStep rooted out n = out ++ [n] := by
  obtain ⟨h1, _, h3, h4⟩ := hn
  unfold cleanStep
  rw [if_neg (not_or.mpr ⟨h1, h3⟩), if_neg h4]

theorem splitOn_plain (n : GoString) (hn : PlainName n) : n.splitOn '/' = [n] := by
  unfold List.splitOn
  apply List.splitOnP_eq_single
  intro x hx hx2
  have : x = '/' := by simpa using hx2
  exact hn.2.1 (this ▸ hx)

/-- The elements `filepath.Clean` keeps of a path. -/
theorem cleanElems_props (rooted : Bool) (d : GoString) :
    ∀ e ∈ (stringsSplit d '/').foldl (cleanStep rooted) [], '/' ∉ e ∧ e ≠ [] := by
  intro e he
  rcases mem_foldl_cleanStep _ _ _ _ he with h | ⟨h1, h2⟩
  · simp at h
  · exact ⟨sep_not_mem_of_mem_splitOn _ _ _ h1, h2⟩

theorem parentDir_rendered (rooted : Bool) (elems : List GoString) (n : GoString)
    (hn : PlainName n) (helems : ∀ e ∈ elems, '/' ∉ e ∧ e ≠ []) :
    parentDir ((if rooted = true then "/".toList else []) ++ stringsJoin (elems ++ [n]) "/".toList)
      = if (if rooted = true then "/".toList else []) ++ stringsJoin elems "/".toList = []
        then ".".toList
        else (if rooted = true then "/".toList else []) ++ stringsJoin elems "/".toList := by
  have hslash : "/".toList = ['/'] := rfl
  have hall : ∀ l ∈ elems ++ [n], '/' ∉ l := by
    intro l hl
    rcases List.mem_append.mp hl with h | h
    · exact (helems l h).1
    · have : l = n := by simpa using h
      rw [this]; exact hn.2.1
  unfold parentDir stringsSplit stringsJoin
  rw [hslash]
  cases rooted with
  | true =>
    simp only [if_true]
    have hshape : ['/'] ++ ['/'].intercalate (elems ++ [n])
        = ['/'].intercalate ([] :: (elems ++ [n])) := by
      cases hE : elems ++ [n] with
      | nil => simp at hE
      | cons b l => rw [intercalate_cons_cons]; simp
    have hall2 : ∀ l ∈ [] :: (elems ++ [n]), '/' ∉ l := by
      intro l hl
      rcases List.mem_cons.mp hl with h | h
      · simp [h]
      · exact hall l h
    rw [hshape, List.splitOn_intercalate _ '/' hall2 (by simp)]
    have hdrop : ([] :: (elems ++ [n])).dropLast = [] :: elems := by
      rw [List.dropLast_cons_of_ne_nil (by simp), List.dropLast_concat]
    rw [hdrop]
    simp only [reduceCtorEq, if_false]
    cases elems with
    | nil => simp [intercalate_singleton, List.intercalate]
    | cons b l => rw [intercalate_cons_cons]; simp
  | false =>
    simp only [Bool.false_eq_true, if_false, List.nil_append]
    rw [List.splitOn_intercalate _ '/' hall (by simp), List.dropLast_concat]
    by_cases hE : elems = []
    · simp [hE, List.intercalate]
    · have hne := intercalate_ne_nil ['/'] elems hE (fun l hl => (helems l hl).2)
      rw [if_neg hE, if_neg hne, if_neg hne]

theorem parentDir_filepathJoin (d n : GoString) (hn : PlainName n) :
    parentDir (filepathJoin [d, n]) = filepathClean d := by
  have hslash : "/".toList = ['/'] := rfl
  by_cases hd : d = []
  · subst hd
    have h1 := parentDir_rendered false [] n hn (by simp)
    have hj : filepathJoin [[], n] = n := by
      have hhead : n.head? ≠ some '/' := by
        intro h
        exact hn.2.1 (List.mem_of_mem_head? h)
      simp only [filepathJoin, ne_eq, not_true_eq_false, if_false, hn.1, not_false_eq_true,
        if_true, stringsJoin, intercalate_singleton, filepathClean, stringsSplit,
        splitOn_plain n hn, List.foldl_cons, List.foldl_nil, cleanStep_plain _ _ _ hn, hhead,
        decide_False, Bool.false_eq_true, List.nil_append]
    rw [hj]
    simpa [stringsJoin, intercalate_singleton, filepathClean] using h1
  · have hj : filepathJoin [d, n] = filepathClean (d ++ '/' :: n) := by
      simp only [filepathJoin, ne_eq, hd, not_false_eq_true, if_true, stringsJoin, hslash,
        intercalate_cons_cons, intercalate_singleton, List.append_assoc, List.singleton_append]
    have hhead : (d ++ '/' :: n).head? = d.head? := by
      cases d with
      | nil => exact absurd rfl hd
      | cons a d => rfl
    have hsplit : stringsSplit (d ++ '/' :: n) '/' = stringsSplit d '/' ++ [n] := by
      unfold stringsSplit
      rw [splitOn_append_sep, splitOn_plain n hn]
    have hfold : ∀ r, (stringsSplit (d ++ '/' :: n) '/').foldl (cleanStep r) []
        = (stringsSplit d '/').foldl (cleanStep r) [] ++ [n] := by
      intro r
      rw [hsplit, List.foldl_append, List.foldl_cons, List.foldl_nil, cleanStep_plain _ _ _ hn]
    have hne : ∀ (pre : GoString) (elems : List GoString),
        pre ++ stringsJoin (elems ++ [n]) "/".toList ≠ [] := by
      intro pre elems h
      have h2 := (List.append_eq_nil.mp h).2
      unfold stringsJoin at h2
      cases elems with
      | nil => rw [List.nil_append, intercalate_singleton] at h2; exact hn.1 h2
      | cons b l =>
        rw [intercalate_append_singleton _ _ _ (by simp)] at h2
        exact hn.1 (List.append_eq_nil.mp h2).2
    rw [hj]
    unfold filepathClean
    rw [if_neg (by simp), if_neg hd]
    simp only [hhead, hfold]
    rw [if_neg (hne _ _)]
    exact parentDir_rendered _ _ n hn (cleanElems_props _ d)

theorem plainName_manifest : PlainName "manifest.webmanifest".toList :=
  ⟨by decide, by decide, by decide, by decide⟩

theorem osWriteFile_dirs (fs fs1 : FS) (name : GoString) (data : FileContent)
    (h : osWriteFile fs name data = .ok fs1) : fs1.dirs = fs.dirs := by
  unfold osWriteFile at h
  split at h
  · simp at h
  · split at h
    · simp at h
    · simp only [Except.ok.injEq] at h
      rw [← h]

/-- Claim C10: for every manifest configuration and every output directory that does not
exist, `GenerateManifest` returns an error together with the empty path and leaves the
file system as it found it; and whatever the directory, the set of directories is the same
after the call as before: no directory is created. -/
theorem GenerateManifest_missing_dir (config : ManifestConfig) (outputDir : GoString) (fs : FS)
    (h : dirExists fs outputDir = false) :
    (∃ err, GenerateManifest config outputDir fs = (([], some err), fs))
      ∧ ∀ dir, (GenerateManifest config dir fs).2.dirs = fs.dirs := by
  constructor
  · have hp : parentDir (filepathJoin [outputDir, "manifest.webmanifest".toList]) ∉ fs.dirs := by
      rw [parentDir_filepathJoin _ _ plainName_manifest]
      simpa [dirExists] using h
    unfold GenerateManifest jsonMarshalIndent osWriteFile
    simp only [hp, not_false_eq_true, if_true]
    exact ⟨_, rfl⟩
  · intro dir
    unfold GenerateManifest jsonMarshalIndent
    simp only
    split
    · rfl
    · rename_i fs1 hw
      exact osWriteFile_dirs _ _ _ _ hw

/-- The directory of the test `TestGenerateManifestInvalidDir`, in a file system that has
only the root and the current directory. -/
theorem GenerateManifest_missing_dir_witness :
    dirExists emptyFS "/nonexistent/path/that/cannot/exist".toList = false
      ∧ ((∃ err, GenerateManifest defaultConfig.buildManifestConfig
            "/nonexistent/path/that/cannot/exist".toList emptyFS = (([], some err), emptyFS))
          ∧ ∀ dir, (GenerateManifest defaultConfig.buildManifestConfig dir emptyFS).2.dirs
              = emptyFS.dirs) :=
  ⟨by decide, GenerateManifest_missing_dir _ _ _ (by decide)⟩

/-! ## FaviconGenerator.Generate -/

theorem generateLoop_ok {σ : Type} (g : FaviconGenerator σ)
    (hok : ∀ inp out size w, (g.Processor.Resize inp out size w).1 = none) (sizes : List Int) :
    ∀ (result : GenerateResult) (w : World σ) (calls : List (ResizeCall × Option GoError)),
      (generateLoop g sizes result w calls).err = none
        ∧ (generateLoop g sizes result w calls).result
            = some { result with
                GeneratedFiles := result.GeneratedFiles ++ sizes.map (faviconPath g.OutputDir) }
        ∧ (generateLoop g sizes result w calls).resizeCalls
            = calls ++ sizes.map (fun s => (resizeCallFor g s, none)) := by
  induction sizes with
  | nil => intro result w calls; simp [generateLoop]
  | cons s sizes ih =>
    intro result w calls
    have hs := hok g.SourcePath (faviconPath g.OutputDir s) s w
    unfold generateLoop
    simp only [hs]
    obtain ⟨h1, h2, h3⟩ := ih
      { result with GeneratedFiles := result.GeneratedFiles ++ [faviconPath g.OutputDir s] }
      (g.Processor.Resize g.SourcePath (faviconPath g.OutputDir s) s w).2
      (calls ++ [(⟨g.SourcePath, faviconPath g.OutputDir s, s⟩, none)])
    refine ⟨h1, ?_, ?_⟩
    · rw [h2]; simp
    · rw [h3]; simp [resizeCallFor]

/-- Claim C11, as amended: for every size list and a processor whose `Resize` always
succeeds, when the output directory exists or can be made (`os.MkdirAll` succeeds),
`Generate` returns no error and a result with exactly one path per size, the one for `s`
being `OutputDir` joined with `favicon-{s}x{s}.png`, in the order of the list, without
deduplication or sorting; and `Resize` is called exactly once per size, in that order, with
the source path, that path and the size. -/
theorem Generate_all_sizes {σ : Type} (g : FaviconGenerator σ) (w : World σ)
    (hdir : (osMkdirAll w.fs g.OutputDir).1 = none)
    (hok : ∀ inp out size w1, (g.Processor.Resize inp out size w1).1 = none) :
    (g.Generate w).err = none
      ∧ (g.Generate w).result
          = some { GeneratedFiles := g.Sizes.map (faviconPath g.OutputDir), ICOPath := [] }
      ∧ (g.Generate w).resizeCalls = g.Sizes.map (fun s => (resizeCallFor g s, none))
      ∧ ((g.Generate w).resizeCalls.map Prod.fst).length = g.Sizes.length := by
  unfold FaviconGenerator.Generate
  cases hmk : osMkdirAll w.fs g.OutputDir with
  | mk e fs1 =>
    rw [hmk] at hdir
    simp only at hdir
    subst hdir
    simp only
    obtain ⟨h1, h2, h3⟩ := generateLoop_ok g hok g.Sizes
      { GeneratedFiles := [], ICOPath := [] } { w with fs := fs1 } []
    refine ⟨h1, ?_, ?_, ?_⟩
    · rw [h2]; simp
    · rw [h3]; simp
    · rw [h3]; simp

theorem generateLoop_cases {σ : Type} (g : FaviconGenerator σ) (sizes : List Int) :
    ∀ (result : GenerateResult) (w : World σ) (calls : List (ResizeCall × Option GoError)),
      ((generateLoop g sizes result w calls).err = none
        ∧ (generateLoop g sizes result w calls).resizeCalls
            = calls ++ sizes.map (fun s => (resizeCallFor g s, none)))
      ∨ (∃ k e, k < sizes.length
          ∧ (generateLoop g sizes result w calls).result = none
          ∧ (generateLoop g sizes result w calls).err ≠ none
          ∧ (generateLoop g sizes result w calls).resizeCalls
              = calls ++ (sizes.take k).map (fun s => (resizeCallFor g s, none))
                ++ ((sizes.drop k).take 1).map (fun s => (resizeCallFor g s, some e))) := by
  induction sizes with
  | nil => intro result w calls; left; simp [generateLoop]
  | cons s sizes ih =>
    intro result w calls
    cases hr : (g.Processor.Resize g.SourcePath (faviconPath g.OutputDir s) s w).1 with
    | some e =>
      right
      refine ⟨0, e, by simp, ?_, ?_, ?_⟩
      · unfold generateLoop; simp only [hr]
      · unfold generateLoop; simp only [hr]; simp
      · unfold generateLoop; simp only [hr]; simp [resizeCallFor]
    | none =>
      have hstep : generateLoop g (s :: sizes) result w calls
          = generateLoop g sizes
              { result with
                GeneratedFiles := result.GeneratedFiles ++ [faviconPath g.OutputDir s] }
              (g.Processor.Resize g.SourcePath (faviconPath g.OutputDir s) s w).2
              (calls ++ [(resizeCallFor g s, none)]) := by
        conv => lhs; unfold generateLoop
        simp only [hr]
        rfl
      rw [hstep]
      rcases ih _ (g.Processor.Resize g.SourcePath (faviconPath g.OutputDir s) s w).2
          (calls ++ [(resizeCallFor g s, none)]) with ⟨h1, h2⟩ | ⟨k, e, hk, h1, h2, h3⟩
      · left
        refine ⟨h1, ?_⟩
        rw [h2]; simp
      · right
        refine ⟨k + 1, e, by simpa using hk, h1, h2, ?_⟩
        rw [h3]; simp

/-- The record of a failed call: if the call of `Resize` recorded at index `i` returned an
error, then `Generate` returns an error and a nil result, `i` is an index of the size list,
`Resize` has been called exactly `i + 1` times, on the first `i + 1` sizes in order, and
every call before that one succeeded. -/
theorem Generate_failed_call {σ : Type} (g : FaviconGenerator σ) (w : World σ) (i : Nat)
    (c : ResizeCall) (e : GoError)
    (hfail : (g.Generate w).resizeCalls[i]? = some (c, some e)) :
    (g.Generate w).result = none
      ∧ (g.Generate w).err ≠ none
      ∧ i < g.Sizes.length
      ∧ (g.Generate w).resizeCalls.length = i + 1
      ∧ (g.Generate w).resizeCalls.map Prod.fst = (g.Sizes.take (i + 1)).map (resizeCallFor g)
      ∧ ∀ j < i, ((g.Generate w).resizeCalls.map Prod.snd)[j]? = some none := by
  unfold FaviconGenerator.Generate at hfail ⊢
  cases hmk : osMkdirAll w.fs g.OutputDir with
  | mk me fs1 =>
    rw [hmk] at hfail
    cases me with
    | some err => simp at hfail
    | none =>
      simp only at hfail ⊢
      rcases generateLoop_cases g g.Sizes { GeneratedFiles := [], ICOPath := [] }
          { w with fs := fs1 } [] with ⟨_, h2⟩ | ⟨k, e2, hk, h1, h2, h3⟩
      · rw [h2] at hfail
        simp only [List.nil_append, List.getElem?_map] at hfail
        cases hs : g.Sizes[i]? with
        | none => rw [hs] at hfail; simp at hfail
        | some s => rw [hs] at hfail; simp at hfail
      · rw [h3] at hfail
        simp only [List.nil_append] at h3 hfail
        have hlen : ((g.Sizes.take k).map (fun s => (resizeCallFor g s, (none : Option GoError)))).length = k := by
          simp; omega
        have hone : ∃ s, (g.Sizes.drop k).take 1 = [s] ∧ g.Sizes.take (k + 1) = g.Sizes.take k ++ [s] := by
          cases hd : g.Sizes.drop k with
          | nil =>
            have := List.drop_eq_nil_iff.mp hd
            omega
          | cons s rest =>
            refine ⟨s, by simp, ?_⟩
            rw [List.take_succ]
            have hget : g.Sizes[k]? = some s := by
              have h0 : (g.Sizes.drop k)[0]? = some s := by rw [hd]; simp
              simpa using h0
            rw [hget]; rfl
        obtain ⟨s, hs1, hs2⟩ := hone
        rw [hs1] at h3 hfail
        have hik : i = k := by
          by_contra hne
          rcases Nat.lt_or_gt_of_ne hne with hlt | hgt
          · rw [List.getElem?_append_left (by rw [hlen]; exact hlt)] at hfail
            rw [List.getElem?_map] at hfail
            cases hs : (g.Sizes.take k)[i]? with
            | none => rw [hs] at hfail; simp at hfail
            | some s => rw [hs] at hfail; simp at hfail
          · rw [List.getElem?_append_right (by rw [hlen]; omega)] at hfail
            rw [hlen] at hfail
            have : i - k ≠ 0 := by omega
            cases hik : i - k with
            | zero => exact this hik
            | succ n => rw [hik] at hfail; simp at hfail
        subst hik
        refine ⟨h1, h2, hk, ?_, ?_, ?_⟩
        · rw [h3]; simp; omega
        · rw [h3, hs2]; simp [Function.comp_def]
        · intro j hj
          rw [h3]
          simp only [List.map_append, List.map_map, List.map_cons, List.map_nil]
          rw [List.getElem?_append_left (by simp; omega)]
          rw [List.getElem?_map]
          have : j < (g.Sizes.take i).length := by simp; omega
          rw [List.getElem?_eq_getElem this]
          rfl

/-! ## os.MkdirAll -/

theorem osMkdir_spec (fs fs1 : FS) (name : GoString) (h : osMkdir fs name = .ok fs1) :
    fs1.dirs = fs.dirs ++ [name] ∧ fs1.files = fs.files := by
  unfold osMkdir at h
  split at h
  · simp at h
  · split at h
    · simp at h
    · split at h
      · simp at h
      · simp only [Except.ok.injEq] at h
        rw [← h]
        exact ⟨rfl, rfl⟩

theorem mkdirAllRec_frame (fs : FS) (chain : List GoString) :
    (mkdirAllRec fs chain).2.files = fs.files
      ∧ (∀ d ∈ fs.dirs, d ∈ (mkdirAllRec fs chain).2.dirs)
      ∧ (∀ d ∈ (mkdirAllRec fs chain).2.dirs, d ∈ fs.dirs ∨ d ∈ chain) := by
  induction chain with
  | nil => simp [mkdirAllRec]
  | cons p parents ih =>
    unfold mkdirAllRec
    split
    · exact ⟨rfl, fun d hd => hd, fun d hd => Or.inl hd⟩
    · split
      · exact ⟨rfl, fun d hd => hd, fun d hd => Or.inl hd⟩
      · obtain ⟨ih1, ih2, ih3⟩ := ih
        cases hrec : mkdirAllRec fs parents with
        | mk e fs1 =>
          rw [hrec] at ih1 ih2 ih3
          simp only at ih1 ih2 ih3
          cases e with
          | some err =>
            simp only
            refine ⟨ih1, ih2, ?_⟩
            intro d hd
            rcases ih3 d hd with h | h
            · exact Or.inl h
            · exact Or.inr (List.mem_cons_of_mem _ h)
          | none =>
            simp only
            cases hmk : osMkdir fs1 p with
            | ok fs2 =>
              obtain ⟨hd2, hf2⟩ := osMkdir_spec _ _ _ hmk
              simp only
              refine ⟨by rw [hf2, ih1], ?_, ?_⟩
              · intro d hd; rw [hd2]; exact List.mem_append_left _ (ih2 d hd)
              · intro d hd
                rw [hd2] at hd
                rcases List.mem_append.mp hd with h | h
                · rcases ih3 d h with h3 | h3
                  · exact Or.inl h3
                  · exact Or.inr (List.mem_cons_of_mem _ h3)
                · have : d = p := by simpa using h
                  rw [this]; exact Or.inr (List.mem_cons_self _ _)
            | error err =>
              simp only
              have hboth : ∀ (r : Option GoError × FS), r.2 = fs1 →
                  r.2.files = fs.files ∧ (∀ d ∈ fs.dirs, d ∈ r.2.dirs)
                    ∧ (∀ d ∈ r.2.dirs, d ∈ fs.dirs ∨ d ∈ p :: parents) := by
                intro r hr
                rw [hr]
                refine ⟨ih1, ih2, ?_⟩
                intro d hd
                rcases ih3 d hd with h | h
                · exact Or.inl h
                · exact Or.inr (List.mem_cons_of_mem _ h)
              split
              · exact hboth _ rfl
              · exact hboth _ rfl

theorem mkdirAllRec_head (fs fs1 : FS) (p : GoString) (parents : List GoString)
    (h : mkdirAllRec fs (p :: parents) = (none, fs1)) : p ∈ fs1.dirs := by
  unfold mkdirAllRec at h
  split at h
  · rename_i hp
    simp only [Prod.mk.injEq, true_and] at h
    rw [← h]; exact hp
  · split at h
    · simp at h
    · cases hrec : mkdirAllRec fs parents with
      | mk e fs2 =>
        rw [hrec] at h
        cases e with
        | some err => simp at h
        | none =>
          simp only at h
          cases hmk : osMkdir fs2 p with
          | ok fs3 =>
            rw [hmk] at h
            simp only [Prod.mk.injEq, true_and] at h
            rw [← h, (osMkdir_spec _ _ _ hmk).1]
            simp
          | error err =>
            rw [hmk] at h
            simp only at h
            split at h
            · rename_i hp
              simp only [Prod.mk.injEq, true_and] at h
              rw [← h]; exact hp
            · simp at h

theorem pathChain_closed (fs : FS) (hc : fs.DirsClosed) (n : Nat) :
    ∀ p ∈ fs.dirs, ∀ a ∈ pathChain n p, a ∈ fs.dirs := by
  induction n with
  | zero => intro p _ a ha; simp [pathChain] at ha
  | succ n ih =>
    intro p hp a ha
    rcases List.mem_cons.mp ha with h | h
    · rw [h]; exact hp
    · exact ih _ (hc p hp) a h

theorem mkdirAllRec_chain (fs : FS) (hc : fs.DirsClosed) (n : Nat) :
    ∀ (p : GoString) (fs1 : FS), mkdirAllRec fs (pathChain n p) = (none, fs1) →
      ∀ a ∈ pathChain n p, a ∈ fs1.dirs := by
  induction n with
  | zero => intro p fs1 _ a ha; simp [pathChain] at ha
  | succ n ih =>
    intro p fs1 h a ha
    have hhead : p ∈ fs1.dirs := mkdirAllRec_head fs fs1 p _ h
    rcases List.mem_cons.mp ha with h1 | h1
    · rw [h1]; exact hhead
    · have hframe := mkdirAllRec_frame fs (pathChain (n + 1) p)
      rw [h] at hframe
      by_cases hp : p ∈ fs.dirs
      · exact hframe.2.1 a (pathChain_closed fs hc n _ (hc p hp) a h1)
      · have h' := h
        simp only [pathChain] at h'
        unfold mkdirAllRec at h'
        rw [if_neg hp] at h'
        split at h'
        · simp at h'
        · cases hrec : mkdirAllRec fs (pathChain n (parentDir p)) with
          | mk e fs2 =>
            rw [hrec] at h'
            cases e with
            | some err => simp at h'
            | none =>
              have ha2 : a ∈ fs2.dirs := ih _ _ hrec a h1
              simp only at h'
              cases hmk : osMkdir fs2 p with
              | ok fs3 =>
                rw [hmk] at h'
                simp only [Prod.mk.injEq, true_and] at h'
                rw [← h', (osMkdir_spec _ _ _ hmk).1]
                exact List.mem_append_left _ ha2
              | error err =>
                rw [hmk] at h'
                simp only at h'
                split at h'
                · simp only [Prod.mk.injEq, true_and] at h'
                  rw [← h']; exact ha2
                · simp at h'

theorem pathLevels_eq_cons (path : GoString) :
    ∃ rest, pathLevels path = filepathClean path :: rest := by
  unfold pathLevels
  cases hn : (stringsSplit (filepathClean path) '/').length with
  | zero =>
    have h0 := List.length_eq_zero.mp hn
    exact absurd h0 (List.splitOnP_ne_nil _ _)
  | succ n => exact ⟨_, rfl⟩

theorem osMkdirAll_ok (fs fs1 : FS) (path : GoString) (h : osMkdirAll fs path = (none, fs1)) :
    osStat fs1 path = .ok .dir
      ∧ fs1.files = fs.files
      ∧ (∀ d ∈ fs.dirs, d ∈ fs1.dirs)
      ∧ (∀ d ∈ fs1.dirs, d ∈ fs.dirs ∨ d ∈ pathLevels path)
      ∧ (fs.DirsClosed → ∀ a ∈ pathLevels path, a ∈ fs1.dirs) := by
  unfold osMkdirAll at h
  split at h
  · simp at h
  · rename_i hne
    have hframe := mkdirAllRec_frame fs (pathLevels path)
    rw [h] at hframe
    obtain ⟨rest, hrest⟩ := pathLevels_eq_cons path
    have hhead : filepathClean path ∈ fs1.dirs := by
      rw [hrest] at h
      exact mkdirAllRec_head fs fs1 _ _ h
    refine ⟨?_, hframe.1, hframe.2.1, hframe.2.2, ?_⟩
    · unfold osStat
      rw [if_neg hne, if_pos hhead]
    · intro hc
      exact mkdirAllRec_chain fs hc _ _ fs1 h

theorem osMkdirAll_existing (fs : FS) (path : GoString) (h : osStat fs path = .ok .dir) :
    osMkdirAll fs path = (none, fs) := by
  unfold osStat at h
  split at h
  · simp at h
  · rename_i hne
    split at h
    · rename_i hdir
      unfold osMkdirAll
      rw [if_neg hne]
      obtain ⟨rest, hrest⟩ := pathLevels_eq_cons path
      rw [hrest]
      unfold mkdirAllRec
      rw [if_pos hdir]
    · split at h
      · simp at h
      · split at h <;> simp at h

/-- Claim C13: `Generate` calls `os.MkdirAll` on the output directory first. When that
succeeds, the loop over the sizes starts in a file system in which the output directory is a
directory, nothing but levels of its path has been added, no file has changed, and (every
directory of the file system having its parent) every level of the path is a directory; for
an empty size list that file system is what `Generate` leaves, with an empty result. When the
directory is already there `os.MkdirAll` succeeds and changes nothing. When `os.MkdirAll`
fails, `Generate` returns its error, wrapped, and a nil result, and `Resize` is not called. -/
theorem Generate_ensures_directory {σ : Type} (g : FaviconGenerator σ) (w : World σ) :
    (∀ fs1, osMkdirAll w.fs g.OutputDir = (none, fs1) →
        g.Generate w
            = generateLoop g g.Sizes { GeneratedFiles := [], ICOPath := [] }
                { w with fs := fs1 } []
          ∧ osStat fs1 g.OutputDir = .ok .dir
          ∧ fs1.files = w.fs.files
          ∧ (∀ d ∈ w.fs.dirs, d ∈ fs1.dirs)
          ∧ (∀ d ∈ fs1.dirs, d ∈ w.fs.dirs ∨ d ∈ pathLevels g.OutputDir)
          ∧ (w.fs.DirsClosed → ∀ a ∈ pathLevels g.OutputDir, a ∈ fs1.dirs)
          ∧ (g.Sizes = [] →
              g.Generate w
                = ⟨some { GeneratedFiles := [], ICOPath := [] }, none, { w with fs := fs1 }, []⟩))
      ∧ (osStat w.fs g.OutputDir = .ok .dir → osMkdirAll w.fs g.OutputDir = (none, w.fs))
      ∧ (∀ err fs1, osMkdirAll w.fs g.OutputDir = (some err, fs1) →
          g.Generate w
            = ⟨none, some (.wrapped "failed to create output directory: ".toList err),
                { w with fs := fs1 }, []⟩) := by
  refine ⟨?_, osMkdirAll_existing _ _, ?_⟩
  · intro fs1 h
    obtain ⟨h1, h2, h3, h4, h5⟩ := osMkdirAll_ok _ _ _ h
    have hgen : g.Generate w
        = generateLoop g g.Sizes { GeneratedFiles := [], ICOPath := [] }
            { w with fs := fs1 } [] := by
      unfold FaviconGenerator.Generate
      rw [h]
    refine ⟨hgen, h1, h2, h3, h4, h5, ?_⟩
    intro hs
    rw [hgen, hs]
    rfl
  · intro err fs1 h
    unfold FaviconGenerator.Generate
    rw [h]

/-! ## GenerateICO and the choice of a processor -/

/-- Claim C14: for every list of PNG paths, `GenerateICO` calls `ConvertToICO` exactly once,
with the paths as given and the output path `OutputDir` joined with `favicon.ico`; it returns
that path and no error when the processor succeeds, and the empty path with the wrapped
error when the processor fails. -/
theorem GenerateICO_once {σ : Type} (g : FaviconGenerator σ) (pngPaths : List GoString)
    (w : World σ) :
    (g.GenerateICO pngPaths w).icoCalls
        = [⟨pngPaths, filepathJoin [g.OutputDir, "favicon.ico".toList]⟩]
      ∧ (g.GenerateICO pngPaths w).world
          = (g.Processor.ConvertToICO pngPaths
              (filepathJoin [g.OutputDir, "favicon.ico".toList]) w).2
      ∧ ((g.Processor.ConvertToICO pngPaths
            (filepathJoin [g.OutputDir, "favicon.ico".toList]) w).1 = none →
          (g.GenerateICO pngPaths w).path = filepathJoin [g.OutputDir, "favicon.ico".toList]
            ∧ (g.GenerateICO pngPaths w).err = none)
      ∧ (∀ e, (g.Processor.ConvertToICO pngPaths
            (filepathJoin [g.OutputDir, "favicon.ico".toList]) w).1 = some e →
          (g.GenerateICO pngPaths w).path = []
            ∧ (g.GenerateICO pngPaths w).err
                = some (.wrapped "failed to generate ICO file: ".toList e)) := by
  cases hr : g.Processor.ConvertToICO pngPaths
      (filepathJoin [g.OutputDir, "favicon.ico".toList]) w with
  | mk e w1 =>
    simp only [FaviconGenerator.GenerateICO, hr]
    cases e with
    | none => exact ⟨rfl, rfl, fun _ => ⟨rfl, rfl⟩, fun e h => by simp at h⟩
    | some e =>
      refine ⟨rfl, rfl, fun h => by simp at h, fun e2 h => ?_⟩
      simp only [Option.some.injEq] at h
      subst h
      exact ⟨rfl, rfl⟩

theorem imageMagick_ne_vips : imageMagick ≠ vips := by
  intro h
  have hn : imageMagick.Name = vips.Name := by rw [h]
  exact absurd hn (by decide)

/-- Claim C15: for a non-empty preferred name, `DetectAvailableProcessor` returns the
ImageMagick backend when the name is `imagemagick` and that backend is available, the vips
backend when the name is `vips` and that backend is available, and in every other case fails
with `preferred processor {name} is not available`; so it returns a processor exactly in the
first two cases, and never another backend than the one named. -/
theorem DetectAvailableProcessor_preferred (preferred : GoString) (w : World Host)
    (hne : preferred ≠ []) :
    (preferred = "imagemagick".toList → ImageMagickProcessor.IsAvailable w = true →
        DetectAvailableProcessor preferred w = .ok imageMagick)
      ∧ (preferred = "vips".toList → VipsProcessor.IsAvailable w = true →
          DetectAvailableProcessor preferred w = .ok vips)
      ∧ (¬ ((preferred = "imagemagick".toList ∧ ImageMagickProcessor.IsAvailable w = true)
            ∨ (preferred = "vips".toList ∧ VipsProcessor.IsAvailable w = true)) →
          DetectAvailableProcessor preferred w
            = .error (.errorf ("preferred processor ".toList ++ preferred
                ++ " is not available".toList)))
      ∧ ((∃ p, DetectAvailableProcessor preferred w = .ok p)
          ↔ ((preferred = "imagemagick".toList ∧ ImageMagickProcessor.IsAvailable w = true)
            ∨ (preferred = "vips".toList ∧ VipsProcessor.IsAvailable w = true))) := by
  have hIM : imageMagick.Name = "imagemagick".toList := rfl
  have hV : vips.Name = "vips".toList := rfl
  have hIMa : imageMagick.IsAvailable w = ImageMagickProcessor.IsAvailable w := rfl
  have hVa : vips.IsAvailable w = VipsProcessor.IsAvailable w := rfl
  have hdiff : "imagemagick".toList ≠ "vips".toList := by decide
  have h1 : preferred = "imagemagick".toList → ImageMagickProcessor.IsAvailable w = true →
      DetectAvailableProcessor preferred w = .ok imageMagick := by
    intro hp ha
    unfold DetectAvailableProcessor
    rw [if_pos hne]
    simp only [processors, detectPreferred, hIM, hIMa, hp, ha, and_self, if_true]
  have h2 : preferred = "vips".toList → VipsProcessor.IsAvailable w = true →
      DetectAvailableProcessor preferred w = .ok vips := by
    intro hp ha
    unfold DetectAvailableProcessor
    rw [if_pos hne]
    simp only [processors, detectPreferred, hIM, hV, hVa, hp, ha, and_self, if_true, hdiff,
      false_and, if_false]
  have h3 : ¬ ((preferred = "imagemagick".toList ∧ ImageMagickProcessor.IsAvailable w = true)
        ∨ (preferred = "vips".toList ∧ VipsProcessor.IsAvailable w = true)) →
      DetectAvailableProcessor preferred w
        = .error (.errorf ("preferred processor ".toList ++ preferred
            ++ " is not available".toList)) := by
    intro hn
    obtain ⟨ha, hb⟩ := not_or.mp hn
    have ha2 : ¬ ("imagemagick".toList = preferred ∧ ImageMagickProcessor.IsAvailable w = true) :=
      fun h => ha ⟨h.1.symm, h.2⟩
    have hb2 : ¬ ("vips".toList = preferred ∧ VipsProcessor.IsAvailable w = true) :=
      fun h => hb ⟨h.1.symm, h.2⟩
    unfold DetectAvailableProcessor
    rw [if_pos hne]
    simp only [processors, detectPreferred, hIM, hIMa, hV, hVa, if_neg ha2, if_neg hb2]
  refine ⟨h1, h2, h3, ?_, ?_⟩
  · rintro ⟨p, hp⟩
    by_contra hn
    rw [h3 hn] at hp
    simp at hp
  · rintro (⟨hp, ha⟩ | ⟨hp, ha⟩)
    · exact ⟨_, h1 hp ha⟩
    · exact ⟨_, h2 hp ha⟩

/-- Claim C16: without a preferred name, `DetectAvailableProcessor` returns the ImageMagick
backend whenever it is available, returns the vips backend exactly when ImageMagick is not
available and vips is, and when neither is available fails with the message
`no image processor available (install ImageMagick or libvips)`. -/
theorem DetectAvailableProcessor_auto (w : World Host) :
    (ImageMagickProcessor.IsAvailable w = true →
        DetectAvailableProcessor [] w = .ok imageMagick)
      ∧ (DetectAvailableProcessor [] w = .ok vips
          ↔ (ImageMagickProcessor.IsAvailable w = false ∧ VipsProcessor.IsAvailable w = true))
      ∧ (ImageMagickProcessor.IsAvailable w = false → VipsProcessor.IsAvailable w = false →
          DetectAvailableProcessor [] w
            = .error (.errorf
                "no image processor available (install ImageMagick or libvips)".toList)) := by
  have hIMa : imageMagick.IsAvailable w = ImageMagickProcessor.IsAvailable w := rfl
  have hVa : vips.IsAvailable w = VipsProcessor.IsAvailable w := rfl
  have h1 : ImageMagickProcessor.IsAvailable w = true →
      DetectAvailableProcessor [] w = .ok imageMagick := by
    intro ha
    simp [DetectAvailableProcessor, processors, detectFirst, hIMa, ha]
  have h2 : ImageMagickProcessor.IsAvailable w = false → VipsProcessor.IsAvailable w = true →
      DetectAvailableProcessor [] w = .ok vips := by
    intro ha hb
    simp [DetectAvailableProcessor, processors, detectFirst, hIMa, hVa, ha, hb]
  have h3 : ImageMagickProcessor.IsAvailable w = false → VipsProcessor.IsAvailable w = false →
      DetectAvailableProcessor [] w
        = .error (.errorf
            "no image processor available (install ImageMagick or libvips)".toList) := by
    intro ha hb
    simp [DetectAvailableProcessor, processors, detectFirst, hIMa, hVa, ha, hb]
  refine ⟨h1, ⟨?_, fun h => h2 h.1 h.2⟩, h3⟩
  intro h
  cases ha : ImageMagickProcessor.IsAvailable w with
  | true =>
    rw [h1 ha] at h
    simp only [Except.ok.injEq] at h
    exact absurd h imageMagick_ne_vips
  | false =>
    cases hb : VipsProcessor.IsAvailable w with
    | true => exact ⟨rfl, rfl⟩
    | false =>
      rw [h3 ha hb] at h
      simp at h

/-- Claim C20: `getConvertCommand` returns `magick` with the base argument `convert` when
`magick` is on `PATH`, whether or not `convert` is too, and `convert` without base argument
otherwise; it returns nothing else. -/
theorem getConvertCommand_cases (w : World Host) :
    (commandExists w "magick".toList = true →
        ImageMagickProcessor.getConvertCommand w = ("magick".toList, ["convert".toList]))
      ∧ (commandExists w "magick".toList = false →
          ImageMagickProcessor.getConvertCommand w = ("convert".toList, []))
      ∧ (ImageMagickProcessor.getConvertCommand w = ("magick".toList, ["convert".toList])
          ∨ ImageMagickProcessor.getConvertCommand w = ("convert".toList, [])) := by
  unfold ImageMagickProcessor.getConvertCommand
  cases h : commandExists w "magick".toList <;> simp

/-! ## validateSource and the fallback of the vips backend -/

theorem statNotExist_iff (fs : FS) (source : GoString) (hne : source ≠ []) :
    statNotExist fs source = true
      ↔ pathExists fs source = false ∧ underFile fs source = false := by
  unfold statNotExist pathExists osStat
  rw [if_neg hne]
  by_cases h1 : filepathClean source ∈ fs.dirs
  · simp [h1]
  · rw [if_neg h1]
    by_cases h2 : filepathClean source ∈ fs.files.map Prod.fst
    · simp [h2]
    · rw [if_neg h2]
      cases h3 : underFile fs source
      · simp [osIsNotExist]
      · simp [osIsNotExist]

theorem pathExists_statNotExist (fs : FS) (source : GoString)
    (hex : pathExists fs source = true) : statNotExist fs source = false := by
  unfold pathExists at hex
  unfold statNotExist
  cases hs : osStat fs source with
  | ok k => rfl
  | error e => rw [hs] at hex; simp at hex

theorem validateSource_notExist (fs : FS) (source : GoString) (hne : source ≠ [])
    (h : statNotExist fs source = true) :
    validateSource fs source
      = some (.errorf ("source file does not exist: ".toList ++ source)) := by
  unfold statNotExist at h
  unfold validateSource
  rw [if_neg hne]
  simp only [h, if_true]

theorem validateSource_otherwise (fs : FS) (source : GoString) (hne : source ≠ [])
    (h : statNotExist fs source = false) :
    validateSource fs source
      = if lowerExt source ≠ ".svg".toList ∧ lowerExt source ≠ ".png".toList then
          some (.errorf ("source must be SVG or PNG format, got: ".toList ++ lowerExt source))
        else none := by
  unfold statNotExist at h
  unfold validateSource
  rw [if_neg hne]
  simp only [h, Bool.false_eq_true, if_false]
  rfl

theorem validateSource_existing (fs : FS) (source : GoString) (hne : source ≠ [])
    (hex : pathExists fs source = true) :
    validateSource fs source
      = if lowerExt source ≠ ".svg".toList ∧ lowerExt source ≠ ".png".toList then
          some (.errorf ("source must be SVG or PNG format, got: ".toList ++ lowerExt source))
        else none :=
  validateSource_otherwise fs source hne (pathExists_statNotExist fs source hex)

/-- Claim C17, as amended: `validateSource` decides in this order. The empty source fails
with the `source image is required` error, whatever the file system holds. Otherwise a path
for which `os.Stat` reports that nothing is there, in the sense of `os.IsNotExist`, fails
with `source file does not exist`, whatever its extension. Otherwise a path whose lower-cased
extension is neither `.svg` nor `.png` fails with `source must be SVG or PNG format`.
Otherwise there is no error. A path that exists is never reported missing; a path that does
not exist is reported missing unless it runs through a regular file. -/
theorem validateSource_order (fs : FS) (source : GoString) :
    (∀ fs1, validateSource fs1 []
        = some (.errorf
            "source image is required (use --source or provide as first argument)".toList))
      ∧ (source ≠ [] → statNotExist fs source = true →
          validateSource fs source
            = some (.errorf ("source file does not exist: ".toList ++ source)))
      ∧ (source ≠ [] → statNotExist fs source = false →
          lowerExt source ≠ ".svg".toList ∧ lowerExt source ≠ ".png".toList →
          validateSource fs source
            = some (.errorf
                ("source must be SVG or PNG format, got: ".toList ++ lowerExt source)))
      ∧ (source ≠ [] → statNotExist fs source = false →
          lowerExt source = ".svg".toList ∨ lowerExt source = ".png".toList →
          validateSource fs source = none)
      ∧ (pathExists fs source = true → statNotExist fs source = false)
      ∧ (source ≠ [] →
          (statNotExist fs source = true
            ↔ pathExists fs source = false ∧ underFile fs source = false)) := by
  refine ⟨fun _ => rfl, validateSource_notExist fs source, ?_, ?_,
    pathExists_statNotExist fs source, statNotExist_iff fs source⟩
  · intro hne hex hext
    rw [validateSource_otherwise fs source hne hex, if_pos hext]
  · intro hne hex hext
    rw [validateSource_otherwise fs source hne hex, if_neg]
    intro h
    rcases hext with h1 | h1
    · exact h.1 h1
    · exact h.2 h1

/-- Claim C17 fails as stated: `logo.svg` being a regular file, the path `logo.svg/x.png`
does not exist, yet `validateSource` returns no error for it: `os.Stat` fails with `ENOTDIR`,
which `os.IsNotExist` does not recognise, and the extension is `.png`. -/
theorem validateSource_under_file :
    "logo.svg/x.png".toList ≠ []
      ∧ pathExists sourceFS "logo.svg/x.png".toList = false
      ∧ osStat sourceFS "logo.svg/x.png".toList
        = .error (.pathError "stat".toList "logo.svg/x.png".toList .ENOTDIR)
      ∧ validateSource sourceFS "logo.svg/x.png".toList = none :=
  ⟨by decide, by decide, by rfl, by rfl⟩

/-- Claim C18, as amended: for every non-empty source path that exists and whose extension,
lower-cased, is other than `.svg` and `.png`, `validateSource` fails with the error
`source must be SVG or PNG format`. -/
theorem validateSource_wrong_format (fs : FS) (source : GoString) (hne : source ≠ [])
    (hex : pathExists fs source = true)
    (hext : lowerExt source ≠ ".svg".toList ∧ lowerExt source ≠ ".png".toList) :
    validateSource fs source
      = some (.errorf ("source must be SVG or PNG format, got: ".toList ++ lowerExt source)) := by
  rw [validateSource_existing fs source hne hex, if_pos hext]

/-- An existing file `notes.TXT`. -/
theorem validateSource_wrong_format_witness :
    "notes.TXT".toList ≠ [] ∧ pathExists
        { sourceFS with files := [("notes.TXT".toList, .text [])] } "notes.TXT".toList = true
      ∧ (lowerExt "notes.TXT".toList ≠ ".svg".toList ∧ lowerExt "notes.TXT".toList ≠ ".png".toList)
      ∧ validateSource { sourceFS with files := [("notes.TXT".toList, .text [])] }
          "notes.TXT".toList
        = some (.errorf ("source must be SVG or PNG format, got: ".toList
            ++ lowerExt "notes.TXT".toList)) :=
  ⟨by decide, by decide, by decide,
    validateSource_wrong_format _ _ (by decide) (by decide) (by decide)⟩

/-- Claim C18 fails as stated: `missing.txt` has an extension other than `.svg` and `.png`
and does not exist; `validateSource` fails with `source file does not exist`, not with the
error about the format. -/
theorem validateSource_missing_wrong_ext :
    "missing.txt".toList ≠ []
      ∧ (lowerExt "missing.txt".toList ≠ ".svg".toList
          ∧ lowerExt "missing.txt".toList ≠ ".png".toList)
      ∧ pathExists sourceFS "missing.txt".toList = false
      ∧ validateSource sourceFS "missing.txt".toList
          = some (.errorf "source file does not exist: missing.txt".toList)
      ∧ validateSource sourceFS "missing.txt".toList
          ≠ some (.errorf ("source must be SVG or PNG format, got: ".toList
              ++ lowerExt "missing.txt".toList)) := by
  refine ⟨by decide, by decide, by decide, rfl, ?_⟩
  intro h
  have h2 : validateSource sourceFS "missing.txt".toList
      = some (.errorf "source file does not exist: missing.txt".toList) := rfl
  rw [h2] at h
  simp only [Option.some.injEq, GoError.errorf.injEq] at h
  exact absurd h (by decide)

/-- Claim C19, the code at the failing input: on a host where `magick` is found and
`convert` is not, the ImageMagick backend is available, yet `VipsProcessor.ConvertToICO`
fails with `ICO creation requires ImageMagick (convert command)` and starts no command,
while `ImageMagickProcessor.ConvertToICO`, to which it would delegate, runs
`magick convert` on the same arguments. -/
theorem VipsProcessor_ConvertToICO_magick_only :
    ImageMagickProcessor.IsAvailable ⟨emptyFS, magickOnlyHost⟩ = true
      ∧ (VipsProcessor.ConvertToICO ["favicon-16x16.png".toList] "favicon.ico".toList
          ⟨emptyFS, magickOnlyHost⟩).1
        = some (.errorf "ICO creation requires ImageMagick (convert command)".toList)
      ∧ (VipsProcessor.ConvertToICO ["favicon-16x16.png".toList] "favicon.ico".toList
          ⟨emptyFS, magickOnlyHost⟩).2.ext.executed = []
      ∧ (ImageMagickProcessor.ConvertToICO ["favicon-16x16.png".toList] "favicon.ico".toList
          ⟨emptyFS, magickOnlyHost⟩).1 = none
      ∧ (ImageMagickProcessor.ConvertToICO ["favicon-16x16.png".toList] "favicon.ico".toList
          ⟨emptyFS, magickOnlyHost⟩).2.ext.executed
        = [("magick".toList,
            ["convert".toList, "favicon-16x16.png".toList, "favicon.ico".toList])] :=
  ⟨by rfl, by rfl, by rfl, by rfl, by rfl⟩

/-! ## Instances -/

/-- Claim C11 fails as stated: with `logo.svg`, a regular file, given as the output
directory, a processor whose `Resize` always succeeds is never called, and `Generate` returns
the error of `os.MkdirAll` and no result. -/
theorem Generate_blocked_directory :
    (∀ inp out size w1, (okProcessor.Resize inp out size w1).1 = none)
      ∧ (FaviconGenerator.Generate ⟨okProcessor, "logo.svg".toList, "logo.svg".toList, [16, 32]⟩
          ⟨sourceFS, ()⟩).result = none
      ∧ (FaviconGenerator.Generate ⟨okProcessor, "logo.svg".toList, "logo.svg".toList, [16, 32]⟩
          ⟨sourceFS, ()⟩).err
        = some (.wrapped "failed to create output directory: ".toList
            (.pathError "mkdir".toList "logo.svg".toList .ENOTDIR))
      ∧ (FaviconGenerator.Generate ⟨okProcessor, "logo.svg".toList, "logo.svg".toList, [16, 32]⟩
          ⟨sourceFS, ()⟩).resizeCalls = [] :=
  ⟨fun _ _ _ _ => rfl, by rfl, by rfl, by rfl⟩

/-- The sizes 32, 16 and 32 again, with an output directory two levels deep. -/
theorem Generate_all_sizes_witness :
    (osMkdirAll sourceFS "out/icons".toList).1 = none
      ∧ (∀ inp out size w1, (okProcessor.Resize inp out size w1).1 = none)
      ∧ ((FaviconGenerator.Generate ⟨okProcessor, "logo.svg".toList, "out/icons".toList,
            [32, 16, 32]⟩ ⟨sourceFS, ()⟩).err = none
        ∧ (FaviconGenerator.Generate ⟨okProcessor, "logo.svg".toList, "out/icons".toList,
            [32, 16, 32]⟩ ⟨sourceFS, ()⟩).result
          = some { GeneratedFiles := [32, 16, 32].map (faviconPath "out/icons".toList),
                   ICOPath := [] }
        ∧ (FaviconGenerator.Generate ⟨okProcessor, "logo.svg".toList, "out/icons".toList,
            [32, 16, 32]⟩ ⟨sourceFS, ()⟩).resizeCalls
          = [32, 16, 32].map (fun s =>
              (resizeCallFor ⟨okProcessor, "logo.svg".toList, "out/icons".toList, [32, 16, 32]⟩ s,
                none))
        ∧ ((FaviconGenerator.Generate ⟨okProcessor, "logo.svg".toList, "out/icons".toList,
            [32, 16, 32]⟩ ⟨sourceFS, ()⟩).resizeCalls.map Prod.fst).length = 3) :=
  ⟨by rfl, fun _ _ _ _ => rfl,
    Generate_all_sizes ⟨okProcessor, "logo.svg".toList, "out/icons".toList, [32, 16, 32]⟩
      ⟨sourceFS, ()⟩ (by rfl) (fun _ _ _ _ => rfl)⟩

/-- The nested directory of `TestFaviconGeneratorGenerate`, with an empty size list. -/
theorem Generate_ensures_directory_witness :
    (osMkdirAll emptyFS "deep/nested/output".toList).2.dirs
        = ["/".toList, ".".toList, "deep".toList, "deep/nested".toList,
            "deep/nested/output".toList]
      ∧ osStat (osMkdirAll emptyFS "deep/nested/output".toList).2 "deep/nested/output".toList
          = .ok .dir
      ∧ FaviconGenerator.Generate
            ⟨mockProcessor none none, "logo.svg".toList, "deep/nested/output".toList, []⟩
            ⟨emptyFS, ()⟩
          = ⟨some { GeneratedFiles := [], ICOPath := [] }, none,
              ⟨(osMkdirAll emptyFS "deep/nested/output".toList).2, ()⟩, []⟩ :=
  ⟨by rfl,
   ((Generate_ensures_directory
      ⟨mockProcessor none none, "logo.svg".toList, "deep/nested/output".toList, []⟩
      ⟨emptyFS, ()⟩).1 _ (by rfl)).2.1,
   ((Generate_ensures_directory
      ⟨mockProcessor none none, "logo.svg".toList, "deep/nested/output".toList, []⟩
      ⟨emptyFS, ()⟩).1 _ (by rfl)).2.2.2.2.2.2 rfl⟩

/-- The mock of `TestFaviconGeneratorGenerateICOError`. -/
theorem GenerateICO_once_witness :
    (FaviconGenerator.GenerateICO
        ⟨mockProcessor none (some (.errorf "mock ico error".toList)), [], "out".toList, [16, 32]⟩
        ["a.png".toList, "b.png".toList] ⟨sourceFS, ()⟩).path = []
      ∧ (FaviconGenerator.GenerateICO
        ⟨mockProcessor none (some (.errorf "mock ico error".toList)), [], "out".toList, [16, 32]⟩
        ["a.png".toList, "b.png".toList] ⟨sourceFS, ()⟩).err
        = some (.wrapped "failed to generate ICO file: ".toList
            (.errorf "mock ico error".toList)) :=
  (GenerateICO_once
      ⟨mockProcessor none (some (.errorf "mock ico error".toList)), [], "out".toList, [16, 32]⟩
      ["a.png".toList, "b.png".toList] ⟨sourceFS, ()⟩).2.2.2 _ (by rfl)

/-- The name `vips` on a host that has ImageMagick only: no fallback. -/
theorem DetectAvailableProcessor_preferred_witness :
    "vips".toList ≠ []
      ∧ DetectAvailableProcessor "vips".toList
          ⟨emptyFS, { bareHost with onPath := ["magick".toList, "convert".toList] }⟩
        = .error (.errorf ("preferred processor ".toList ++ "vips".toList
            ++ " is not available".toList)) :=
  ⟨by decide,
   (DetectAvailableProcessor_preferred "vips".toList
      ⟨emptyFS, { bareHost with onPath := ["magick".toList, "convert".toList] }⟩
      (by decide)).2.2.1 (by decide)⟩

/-- A host with both backends, and a host with none. -/
theorem DetectAvailableProcessor_auto_witness :
    DetectAvailableProcessor []
        ⟨emptyFS, { bareHost with onPath := ["vips".toList, "convert".toList] }⟩
      = .ok imageMagick
      ∧ DetectAvailableProcessor [] ⟨emptyFS, bareHost⟩
        = .error (.errorf
            "no image processor available (install ImageMagick or libvips)".toList) :=
  ⟨(DetectAvailableProcessor_auto
      ⟨emptyFS, { bareHost with onPath := ["vips".toList, "convert".toList] }⟩).1 (by rfl),
   (DetectAvailableProcessor_auto ⟨emptyFS, bareHost⟩).2.2 (by rfl) (by rfl)⟩

/-- The file `logo.svg` under two spellings, one of which names nothing, and a path that
runs through it, which is not reported missing. -/
theorem validateSource_order_witness :
    validateSource sourceFS "./logo.SVG".toList
        = some (.errorf ("source file does not exist: ".toList ++ "./logo.SVG".toList))
      ∧ validateSource sourceFS "./logo.svg".toList = none
      ∧ validateSource sourceFS "logo.svg/x.txt".toList
        = some (.errorf ("source must be SVG or PNG format, got: ".toList
            ++ lowerExt "logo.svg/x.txt".toList)) :=
  ⟨(validateSource_order sourceFS "./logo.SVG".toList).2.1 (by decide) (by decide),
   (validateSource_order sourceFS "./logo.svg".toList).2.2.2.1 (by decide) (by decide)
     (by decide),
   (validateSource_order sourceFS "logo.svg/x.txt".toList).2.2.1 (by decide) (by decide)
     (by decide)⟩

/-- A host with both commands, and a host with none. -/
theorem getConvertCommand_cases_witness :
    ImageMagickProcessor.getConvertCommand
        ⟨emptyFS, { bareHost with onPath := ["convert".toList, "magick".toList] }⟩
      = ("magick".toList, ["convert".toList])
      ∧ ImageMagickProcessor.getConvertCommand ⟨emptyFS, bareHost⟩ = ("convert".toList, []) :=
  ⟨(getConvertCommand_cases
      ⟨emptyFS, { bareHost with onPath := ["convert".toList, "magick".toList] }⟩).1 (by rfl),
   (getConvertCommand_cases ⟨emptyFS, bareHost⟩).2.1 (by rfl)⟩

/-! ## The command line: positional arguments, categories, and the resize command -/

theorem trimLoop_length (n i : Nat) (cats : List GoString) :
    (trimLoop i n cats).length = cats.length := by
  induction n generalizing i cats with
  | zero => rfl
  | succ n ih => simp [trimLoop, ih]

theorem trimLoop_getElem? (n i : Nat) (cats : List GoString) (k : Nat) :
    (trimLoop i n cats)[k]?
      = if i ≤ k ∧ k < i + n then cats[k]?.map TrimSpace else cats[k]? := by
  induction n generalizing i cats with
  | zero =>
    have : ¬ (i ≤ k ∧ k < i + 0) := by omega
    rw [if_neg this, trimLoop]
  | succ n ih =>
    rw [trimLoop, ih]
    by_cases hk : k = i
    · subst hk
      have h1 : ¬ (k + 1 ≤ k ∧ k < k + 1 + n) := by omega
      have h2 : k ≤ k ∧ k < k + (n + 1) := by omega
      rw [if_neg h1, if_pos h2]
      by_cases hl : k < cats.length
      · simp [List.getElem?_set, hl, List.getD_eq_getElem?_getD]
      · have hl2 : cats.length ≤ k := by omega
        simp [List.getElem?_set, hl, List.getElem?_eq_none hl2]
    · have hne : i ≠ k := fun h => hk h.symm
      rw [List.getElem?_set_ne hne]
      by_cases h1 : i + 1 ≤ k ∧ k < i + 1 + n
      · have h2 : i ≤ k ∧ k < i + (n + 1) := by omega
        rw [if_pos h1, if_pos h2]
      · have h2 : ¬ (i ≤ k ∧ k < i + (n + 1)) := by omega
        rw [if_neg h1, if_neg h2]

theorem trimLoop_all (cats : List GoString) :
    trimLoop 0 cats.length cats = cats.map TrimSpace := by
  apply List.ext_getElem?
  intro k
  rw [trimLoop_getElem?]
  by_cases hk : k < cats.length
  · have : 0 ≤ k ∧ k < 0 + cats.length := by omega
    rw [if_pos this, List.getElem?_map]
  · have h1 : ¬ (0 ≤ k ∧ k < 0 + cats.length) := by omega
    have h2 : cats.length ≤ k := by omega
    rw [if_neg h1, List.getElem?_map, List.getElem?_eq_none h2]
    rfl

theorem splitOnP_length {α : Type} (p : α → Bool) (xs : List α) :
    (xs.splitOnP p).length = xs.countP p + 1 := by
  induction xs with
  | nil => simp
  | cons x xs ih =>
    rw [List.splitOnP_cons]
    by_cases hp : p x = true
    · simp [hp, ih]
    · simp [hp, ih]

theorem stringsSplit_length (s : GoString) (sep : Char) :
    (stringsSplit s sep).length = s.count sep + 1 := by
  unfold stringsSplit List.splitOn
  rw [splitOnP_length]
  rfl

theorem parseCategories_eq (s : GoString) :
    parseCategories s = if s = [] then none else some ((stringsSplit s ',').map TrimSpace) := by
  unfold parseCategories
  by_cases h : s = []
  · simp [h]
  · simp only [if_neg h, trimLoop_all]

theorem resize_exec (inputPath outputPath : GoString) (size : Int) (w : World Host) :
    (ImageMagickProcessor.Resize inputPath outputPath size w).2
      = (execCombinedOutput (ImageMagickProcessor.getConvertCommand w).1
          ((ImageMagickProcessor.getConvertCommand w).2 ++ [inputPath,
            "-resize".toList, formatInt size ++ "x".toList ++ formatInt size,
            "-background".toList, "none".toList,
            "-gravity".toList, "center".toList,
            "-extent".toList, formatInt size ++ "x".toList ++ formatInt size,
            outputPath]) w).2 := by
  unfold ImageMagickProcessor.Resize
  simp only
  split <;> rfl

theorem execCombinedOutput_executed (name : GoString) (args : List GoString) (w : World Host) :
    (execCombinedOutput name args w).2.ext.executed
      = if name ∈ w.ext.onPath then w.ext.executed ++ [(name, args)] else w.ext.executed := by
  unfold execCombinedOutput
  by_cases h : name ∈ w.ext.onPath
  · simp [h]
  · simp [h]

theorem execCombinedOutput_fs (name : GoString) (args : List GoString) (w : World Host) :
    (execCombinedOutput name args w).2.fs
      = if name ∈ w.ext.onPath then (w.ext.run name args w.fs).2 else w.fs := by
  unfold execCombinedOutput
  by_cases h : name ∈ w.ext.onPath
  · simp [h]
  · simp [h]

/-- Claim C21: the arguments `ImageMagickProcessor.Resize` starts the external tool with are
the base arguments of `getConvertCommand`, then the input path, `-resize` with the box
`{s}x{s}`, `-background none`, `-gravity center`, `-extent` with the same box, and last the
output path: when the command is found, exactly this one command line is added to the record
of started commands and run on the file system; when it is not, nothing is started. -/
theorem Resize_arguments (inputPath outputPath : GoString) (size : Int) (w : World Host) :
    (ImageMagickProcessor.Resize inputPath outputPath size w).2.ext.executed
        = (if (ImageMagickProcessor.getConvertCommand w).1 ∈ w.ext.onPath then
            w.ext.executed ++ [((ImageMagickProcessor.getConvertCommand w).1,
              (ImageMagickProcessor.getConvertCommand w).2 ++ [inputPath,
                "-resize".toList, formatInt size ++ "x".toList ++ formatInt size,
                "-background".toList, "none".toList,
                "-gravity".toList, "center".toList,
                "-extent".toList, formatInt size ++ "x".toList ++ formatInt size,
                outputPath])]
          else w.ext.executed)
      ∧ (ImageMagickProcessor.Resize inputPath outputPath size w).2.fs
        = (if (ImageMagickProcessor.getConvertCommand w).1 ∈ w.ext.onPath then
            (w.ext.run (ImageMagickProcessor.getConvertCommand w).1
              ((ImageMagickProcessor.getConvertCommand w).2 ++ [inputPath,
                "-resize".toList, formatInt size ++ "x".toList ++ formatInt size,
                "-background".toList, "none".toList,
                "-gravity".toList, "center".toList,
                "-extent".toList, formatInt size ++ "x".toList ++ formatInt size,
                outputPath]) w.fs).2
          else w.fs) := by
  rw [resize_exec, execCombinedOutput_executed, execCombinedOutput_fs]
  exact ⟨rfl, rfl⟩

/-- Claim C24: `parseCategories` returns nil for the empty string; for any other string it
returns its comma-separated fields, in order and each trimmed of surrounding white space.
The fields are the comma-free pieces which, joined by commas, give the string back; there
are as many entries as the string has commas, plus one. -/
theorem parseCategories_fields (s : GoString) :
    parseCategories s
        = (if s = [] then none else some ((stringsSplit s ',').map TrimSpace))
      ∧ ((stringsSplit s ',').map TrimSpace).length = s.count ',' + 1
      ∧ stringsJoin (stringsSplit s ',') ",".toList = s
      ∧ ∀ field ∈ stringsSplit s ',', ',' ∉ field := by
  refine ⟨parseCategories_eq s, ?_, ?_, sep_not_mem_of_mem_splitOn ',' s⟩
  · rw [List.length_map, stringsSplit_length]
  · exact List.intercalate_splitOn s ','

/-- Claim C28: the manifest does not depend on `IconPath`. Two configurations that differ
only in that field give the same `Manifest` value, the same serialization, the same returned
path and error, and the same file system; so do two CLI configurations that differ only in
`AppIcon`. -/
theorem GenerateManifest_IconPath_independent (c1 c2 : ManifestConfig)
    (h : { c1 with IconPath := c2.IconPath } = c2) (outputDir : GoString) (fs : FS) :
    buildManifest c1 = buildManifest c2
      ∧ jsonMarshalIndent (buildManifest c1) = jsonMarshalIndent (buildManifest c2)
      ∧ GenerateManifest c1 outputDir fs = GenerateManifest c2 outputDir fs
      ∧ ∀ (config : Config) (icon : GoString),
          GenerateManifest ({ config with AppIcon := icon }).buildManifestConfig outputDir fs
            = GenerateManifest config.buildManifestConfig outputDir fs := by
  have hb : buildManifest c1 = buildManifest c2 := by
    rw [← h]; rfl
  refine ⟨hb, by rw [hb], ?_, ?_⟩
  · unfold GenerateManifest
    simp only [hb]
  · intro config icon
    rfl

/-- Claim C29: in `parsePositionalArgs` an explicit flag wins over the positional shorthand.
The source becomes the first positional argument only when the flag value is empty and such
an argument exists; the output becomes the second positional argument only when the flag
value is the default `./favicons` and such an argument exists; no other flag changes, and
without positional arguments nothing changes. -/
theorem parsePositionalArgs_precedence (f : flags) (args : List GoString) :
    (parsePositionalArgs f args).source
        = (if f.source = [] then args[0]?.getD f.source else f.source)
      ∧ (parsePositionalArgs f args).output
        = (if f.output = "./favicons".toList then args[1]?.getD f.output else f.output)
      ∧ { parsePositionalArgs f args with source := f.source, output := f.output } = f
      ∧ parsePositionalArgs f [] = f
      ∧ defaultFlags.output = "./favicons".toList := by
  refine ⟨?_, ?_, ?_, rfl, rfl⟩
  · unfold parsePositionalArgs
    generalize "./favicons".toList = d
    rcases args with _ | ⟨a, _ | ⟨b, rest⟩⟩ <;> by_cases h1 : f.source = [] <;>
      by_cases h2 : f.output = d <;> simp [h1, h2]
  · unfold parsePositionalArgs
    generalize "./favicons".toList = d
    rcases args with _ | ⟨a, _ | ⟨b, rest⟩⟩ <;> by_cases h1 : f.source = [] <;>
      by_cases h2 : f.output = d <;> simp [h1, h2]
  · unfold parsePositionalArgs
    generalize "./favicons".toList = d
    rcases args with _ | ⟨a, _ | ⟨b, rest⟩⟩ <;> simp only [] <;> split_ifs <;> rfl

/-- Two configurations of the default run that differ in the icon path. -/
theorem GenerateManifest_IconPath_independent_witness :
    GenerateManifest defaultConfig.buildManifestConfig "out".toList emptyFS
      = GenerateManifest { defaultConfig.buildManifestConfig with IconPath := "/logo.png".toList }
          "out".toList emptyFS :=
  (GenerateManifest_IconPath_independent defaultConfig.buildManifestConfig
    { defaultConfig.buildManifestConfig with IconPath := "/logo.png".toList } rfl
    "out".toList emptyFS).2.2.1

/-! ## The naming convention of the icon files -/

theorem afterFirst_skip (p : Char) (ps : GoString) (skipped : GoString)
    (h : ∀ c ∈ skipped, c ≠ p) (t : GoString) :
    afterFirst (p :: ps) (skipped ++ t) = afterFirst (p :: ps) t := by
  induction skipped with
  | nil => rfl
  | cons c skipped ih =>
    have hc : c ≠ p := h c (List.mem_cons_self _ _)
    have hpc : (p == c) = false := by
      simp only [beq_eq_false_iff_ne, ne_eq]
      exact fun h => hc h.symm
    rw [List.cons_append, afterFirst]
    simp only [List.isPrefixOf, hpc, Bool.false_and, Bool.false_eq_true, if_false]
    exact ih (fun c hc => h c (List.mem_cons_of_mem _ hc))

theorem formatInt_no_h (n : Int) : ∀ c ∈ formatInt n, c ≠ 'h' := by
  intro c hc
  rcases formatInt_chars n c hc with h | h
  · rw [h]; decide
  · have hr := isDigit_range c h
    intro hh
    rw [hh] at hr
    revert hr
    decide

theorem formatInt_no_quote (n : Int) : ∀ c ∈ formatInt n, (c != '"') = true := by
  intro c hc
  rcases formatInt_chars n c hc with h | h
  · rw [h]; decide
  · have hr := isDigit_range c h
    simp only [bne_iff_ne, ne_eq]
    intro hh
    rw [hh] at hr
    revert hr
    decide

theorem takeWhile_append_stop {α : Type} (p : α → Bool) (a : List α) (x : α) (t : List α)
    (ha : ∀ c ∈ a, p c = true) (hx : p x = false) : (a ++ x :: t).takeWhile p = a := by
  induction a with
  | nil => simp [List.takeWhile, hx]
  | cons c a ih =>
    rw [List.cons_append, List.takeWhile_cons, if_pos (ha c (List.mem_cons_self _ _)),
      ih (fun c hc => ha c (List.mem_cons_of_mem _ hc))]

theorem faviconName_no_quote (s : Int) :
    ∀ c ∈ "/".toList ++ faviconName s, (c != '"') = true := by
  intro c hc
  unfold faviconName at hc
  simp only [List.mem_append] at hc
  rcases hc with h | (((h | h) | h) | h) | h
  · revert c; decide
  · revert c; decide
  · exact formatInt_no_quote s c h
  · revert c; decide
  · exact formatInt_no_quote s c h
  · revert c; decide

theorem hrefOf_tail (pre : GoString) (s : Int)
    (hpre : afterFirst "href=\"".toList (pre ++ ("\" href=\"/favicon-".toList ++ formatInt s
        ++ "x".toList ++ formatInt s ++ ".png\">".toList))
      = afterFirst "href=\"".toList ("\" href=\"/favicon-".toList ++ formatInt s
        ++ "x".toList ++ formatInt s ++ ".png\">".toList)) :
    hrefOf (pre ++ ("\" href=\"/favicon-".toList ++ formatInt s
        ++ "x".toList ++ formatInt s ++ ".png\">".toList))
      = some ("/".toList ++ faviconName s) := by
  unfold hrefOf
  rw [hpre]
  have h1 : afterFirst "href=\"".toList ("\" href=\"/favicon-".toList ++ formatInt s
        ++ "x".toList ++ formatInt s ++ ".png\">".toList)
      = some (("/".toList ++ faviconName s) ++ '"' :: ['>']) := by
    have e : "\" href=\"/favicon-".toList ++ formatInt s ++ "x".toList ++ formatInt s
        ++ ".png\">".toList
        = '"' :: ' ' :: ("href=\"".toList ++ (("/".toList ++ faviconName s) ++ '"' :: ['>'])) := by
      unfold faviconName
      simp
    rw [e]
    simp [afterFirst, List.isPrefixOf]
  rw [h1, Option.map_some']
  rw [takeWhile_append_stop _ _ _ _ (faviconName_no_quote s) (by decide)]

theorem hrefOf_pngIconTag (s : Int) :
    hrefOf (pngIconTag s) = some ("/".toList ++ faviconName s) := by
  have e : pngIconTag s
      = ("<link rel=\"icon\" type=\"image/png\" sizes=\"".toList ++ formatInt s ++ "x".toList
          ++ formatInt s)
        ++ ("\" href=\"/favicon-".toList ++ formatInt s ++ "x".toList ++ formatInt s
          ++ ".png\">".toList) := by
    unfold pngIconTag
    simp only [List.append_assoc]
  rw [e]
  apply hrefOf_tail
  apply afterFirst_skip
  intro c hc
  simp only [List.mem_append] at hc
  rcases hc with ((h | h) | h) | h
  · revert c; decide
  · exact formatInt_no_h s c h
  · revert c; decide
  · exact formatInt_no_h s c h

theorem hrefOf_appleTouchIconTag (s : Int) :
    hrefOf (appleTouchIconTag s) = some ("/".toList ++ faviconName s) := by
  have e : appleTouchIconTag s
      = ("<link rel=\"apple-touc".toList ++ ('h' :: ("-icon\" sizes=\"".toList ++ formatInt s
          ++ "x".toList ++ formatInt s)))
        ++ ("\" href=\"/favicon-".toList ++ formatInt s ++ "x".toList ++ formatInt s
          ++ ".png\">".toList) := by
    unfold appleTouchIconTag
    simp
  rw [e]
  apply hrefOf_tail
  have hpat : "href=\"".toList = 'h' :: "ref=\"".toList := rfl
  rw [hpat, List.append_assoc, afterFirst_skip _ _ _ (by decide), List.cons_append, afterFirst]
  have hp : List.isPrefixOf ('h' :: "ref=\"".toList) ('h' :: ("-icon\" sizes=\"".toList ++ formatInt s
      ++ "x".toList ++ formatInt s ++ ("\" href=\"/favicon-".toList ++ formatInt s
      ++ "x".toList ++ formatInt s ++ ".png\">".toList))) = false := by
    simp [List.isPrefixOf]
  rw [hp]
  simp only [Bool.false_eq_true, if_false]
  apply afterFirst_skip
  intro c hc
  simp only [List.mem_append] at hc
  rcases hc with ((h | h) | h) | h
  · revert c; decide
  · exact formatInt_no_h s c h
  · revert c; decide
  · exact formatInt_no_h s c h

theorem dropWhile_head {α : Type} (p : α → Bool) (c : α) (l : List α) (hc : p c = false) :
    (c :: l).dropWhile p = c :: l := by
  rw [List.dropWhile_cons, if_neg (by simp [hc])]

theorem filepathBase_append (pre n : GoString) (hn : PlainName n)
    (hpre : pre = [] ∨ pre.getLast? = some '/') : filepathBase (pre ++ n) = n := by
  obtain ⟨hne, hslash, _, _⟩ := hn
  have hall : ∀ c ∈ n.reverse, (c != '/') = true := by
    intro c hc
    simp only [bne_iff_ne, ne_eq]
    intro h
    exact hslash (h ▸ List.mem_reverse.mp hc)
  have hrev : (pre ++ n).reverse = n.reverse ++ pre.reverse := List.reverse_append _ _
  obtain ⟨c, l, hcl⟩ : ∃ c l, n.reverse = c :: l := by
    cases h : n.reverse with
    | nil => exact absurd (List.reverse_eq_nil_iff.mp h) hne
    | cons c l => exact ⟨c, l, rfl⟩
  have hc : (c == '/') = false := by
    have := hall c (by rw [hcl]; exact List.mem_cons_self _ _)
    simpa using this
  have hdrop : ((pre ++ n).reverse.dropWhile (fun c => c == '/')) = (pre ++ n).reverse := by
    rw [hrev, hcl, List.cons_append]
    exact dropWhile_head _ _ _ hc
  have htake : ((pre ++ n).reverse.takeWhile (fun c => c != '/')) = n.reverse := by
    rw [hrev]
    rcases hpre with h | h
    · rw [h, List.reverse_nil, List.append_nil]
      exact List.takeWhile_eq_self_iff.mpr hall
    · have h2 : pre.reverse.head? = some '/' := by rw [List.head?_reverse]; exact h
      obtain ⟨t, ht⟩ : ∃ t, pre.reverse = '/' :: t := by
        cases hp : pre.reverse with
        | nil => rw [hp] at h2; simp at h2
        | cons x t =>
          rw [hp] at h2
          simp only [List.head?_cons, Option.some.injEq] at h2
          exact ⟨t, by rw [h2]⟩
      rw [ht]
      exact takeWhile_append_stop _ _ _ _ hall (by decide)
  unfold filepathBase
  have hne2 : pre ++ n ≠ [] := by
    intro h
    exact hne (List.append_eq_nil.mp h).2
  rw [if_neg hne2]
  simp only [hdrop, List.reverse_reverse, htake]
  rw [if_neg hne]

theorem filepathJoin_plain (d n : GoString) (hn : PlainName n) :
    ∃ pre, filepathJoin [d, n] = pre ++ n ∧ (pre = [] ∨ pre.getLast? = some '/') := by
  have hslash : "/".toList = ['/'] := rfl
  by_cases hd : d = []
  · subst hd
    have hhead : n.head? ≠ some '/' := by
      intro h
      exact hn.2.1 (List.mem_of_mem_head? h)
    have hj : filepathJoin [[], n] = n := by
      simp only [filepathJoin, ne_eq, not_true_eq_false, if_false, hn.1, not_false_eq_true,
        if_true, stringsJoin, intercalate_singleton, filepathClean, stringsSplit,
        splitOn_plain n hn, List.foldl_cons, List.foldl_nil, cleanStep_plain _ _ _ hn, hhead,
        decide_False, Bool.false_eq_true, List.nil_append]
    exact ⟨[], by rw [hj]; rfl, Or.inl rfl⟩
  · have hj : filepathJoin [d, n] = filepathClean (d ++ '/' :: n) := by
      simp only [filepathJoin, ne_eq, hd, not_false_eq_true, if_true, stringsJoin, hslash,
        intercalate_cons_cons, intercalate_singleton, List.append_assoc, List.singleton_append]
    have hhead : (d ++ '/' :: n).head? = d.head? := by
      cases d with
      | nil => exact absurd rfl hd
      | cons a d => rfl
    have hsplit : stringsSplit (d ++ '/' :: n) '/' = stringsSplit d '/' ++ [n] := by
      unfold stringsSplit
      rw [splitOn_append_sep, splitOn_plain n hn]
    have hfold : ∀ r, (stringsSplit (d ++ '/' :: n) '/').foldl (cleanStep r) []
        = (stringsSplit d '/').foldl (cleanStep r) [] ++ [n] := by
      intro r
      rw [hsplit, List.foldl_append, List.foldl_cons, List.foldl_nil, cleanStep_plain _ _ _ hn]
    have hne : ∀ (pre : GoString) (elems : List GoString),
        pre ++ stringsJoin (elems ++ [n]) "/".toList ≠ [] := by
      intro pre elems h
      have h2 := (List.append_eq_nil.mp h).2
      unfold stringsJoin at h2
      cases elems with
      | nil => rw [List.nil_append, intercalate_singleton] at h2; exact hn.1 h2
      | cons b l =>
        rw [intercalate_append_singleton _ _ _ (by simp)] at h2
        exact hn.1 (List.append_eq_nil.mp h2).2
    rw [hj]
    unfold filepathClean
    rw [if_neg (by simp)]
    simp only [hhead, hfold]
    rw [if_neg (hne _ _)]
    generalize (stringsSplit d '/').foldl (cleanStep (decide (d.head? = some '/'))) [] = elems
    have hroot : ∀ b : Bool, (if b = true then "/".toList else []) = []
        ∨ (if b = true then "/".toList else []).getLast? = some '/' := by
      intro b; cases b
      · exact Or.inl rfl
      · exact Or.inr rfl
    cases elems with
    | nil =>
      rw [List.nil_append]
      unfold stringsJoin
      rw [intercalate_singleton]
      exact ⟨_, rfl, hroot _⟩
    | cons b l =>
      unfold stringsJoin
      rw [intercalate_append_singleton _ _ _ (by simp), ← List.append_assoc, ← List.append_assoc]
      refine ⟨_, rfl, Or.inr ?_⟩
      rw [hslash]
      simp

theorem plainName_faviconName (s : Int) : PlainName (faviconName s) := by
  have hshape : faviconName s
      = 'f' :: ("avicon-".toList ++ formatInt s ++ "x".toList ++ formatInt s ++ ".png".toList) := by
    unfold faviconName; simp
  have hlen : 2 < (faviconName s).length := by
    unfold faviconName; simp
  refine ⟨?_, ?_, ?_, ?_⟩
  · rw [hshape]; exact List.cons_ne_nil _ _
  · unfold faviconName
    intro hc
    simp only [List.mem_append] at hc
    rcases hc with (((h | h) | h) | h) | h
    · revert h; decide
    · rcases formatInt_chars s _ h with h1 | h1
      · revert h1; decide
      · revert h1; decide
    · revert h; decide
    · rcases formatInt_chars s _ h with h1 | h1
      · revert h1; decide
      · revert h1; decide
    · revert h; decide
  · intro h
    rw [h] at hlen
    revert hlen; decide
  · intro h
    rw [h] at hlen
    revert hlen; decide

theorem filepathBase_faviconPath (dir : GoString) (s : Int) :
    filepathBase (faviconPath dir s) = faviconName s := by
  obtain ⟨pre, hpre, hlast⟩ := filepathJoin_plain dir (faviconName s) (plainName_faviconName s)
  have : faviconPath dir s = pre ++ faviconName s := hpre
  rw [this]
  exact filepathBase_append pre _ (plainName_faviconName s) hlast

theorem generateLoop_calls {σ : Type} (g : FaviconGenerator σ) (sizes : List Int) :
    ∀ (result : GenerateResult) (w : World σ) (calls : List (ResizeCall × Option GoError)),
      ∀ call ∈ (generateLoop g sizes result w calls).resizeCalls,
        call ∈ calls ∨ ∃ s ∈ sizes, call.1 = resizeCallFor g s := by
  intro result w calls call hcall
  rcases generateLoop_cases g sizes result w calls with ⟨_, h⟩ | ⟨k, e, _, _, _, h⟩
  · rw [h] at hcall
    rcases List.mem_append.mp hcall with h1 | h1
    · exact Or.inl h1
    · obtain ⟨s, hs, rfl⟩ := List.mem_map.mp h1
      exact Or.inr ⟨s, hs, rfl⟩
  · rw [h] at hcall
    rcases List.mem_append.mp hcall with h1 | h1
    · rcases List.mem_append.mp h1 with h2 | h2
      · exact Or.inl h2
      · obtain ⟨s, hs, rfl⟩ := List.mem_map.mp h2
        exact Or.inr ⟨s, List.mem_of_mem_take hs, rfl⟩
    · obtain ⟨s, hs, rfl⟩ := List.mem_map.mp h1
      exact Or.inr ⟨s, List.mem_of_mem_drop (List.mem_of_mem_take hs), rfl⟩

theorem Generate_calls {σ : Type} (g : FaviconGenerator σ) (w : World σ) :
    ∀ call ∈ (g.Generate w).resizeCalls, ∃ s ∈ g.Sizes, call.1 = resizeCallFor g s := by
  intro call hcall
  unfold FaviconGenerator.Generate at hcall
  split at hcall
  · simp at hcall
  · rcases generateLoop_calls g g.Sizes _ _ _ call hcall with h | h
    · simp at h
    · exact h

theorem appleTouch_href (config : HTMLTagsConfig) (tag : GoString)
    (htag : tag ∈ htmlTags config) (happle : isAppleTouchLink tag = true) :
    ∃ s ∈ config.Sizes, pngIconTag s ∈ htmlTags config ∧ hrefOf tag = hrefOf (pngIconTag s) := by
  have hf := filter_isAppleTouchLink_specTags config
  rw [← htmlTags_eq_specTags] at hf
  have hmem : tag ∈ (htmlTags config).filter isAppleTouchLink :=
    List.mem_filter.mpr ⟨htag, happle⟩
  rw [hf] at hmem
  cases hfind : config.Sizes.find? (fun s => decide (180 ≤ s)) with
  | none => rw [hfind] at hmem; simp at hmem
  | some s =>
    rw [hfind] at hmem
    have htag2 : tag = appleTouchIconTag s := by simpa using hmem
    have hs : s ∈ config.Sizes := List.mem_of_find?_eq_some hfind
    refine ⟨s, hs, ?_, ?_⟩
    · rw [htmlTags_eq_specTags]
      unfold specTags
      simp only [List.mem_append, List.mem_map]
      exact Or.inl (Or.inl (Or.inl (Or.inr ⟨s, hs, rfl⟩)))
    · rw [htag2, hrefOf_appleTouchIconTag, hrefOf_pngIconTag]

/-- Claim C25: the three components agree on the naming convention. For every size `s` the
base name of the path `Generate` hands to `Resize` for `s`, the `src` of the manifest icon
built for `s`, and the `href` of the PNG icon link of `s` without its leading `/` are the
string `favicon-{s}x{s}.png`; and an Apple touch icon link that is emitted has the `href` of
one of the PNG icon links emitted with it. -/
theorem naming_convention (s : Int) :
    (∀ dir : GoString, filepathBase (faviconPath dir s) = faviconName s)
      ∧ (∀ {σ : Type} (g : FaviconGenerator σ) (w : World σ),
          ∀ call ∈ (g.Generate w).resizeCalls,
            call.1.size = s → filepathBase call.1.outputPath = faviconName s)
      ∧ (iconFor s).Src = faviconName s
      ∧ hrefOf (pngIconTag s) = some ('/' :: faviconName s)
      ∧ (∀ (config : HTMLTagsConfig) (tag : GoString),
          tag ∈ htmlTags config → isAppleTouchLink tag = true →
            ∃ s1 ∈ config.Sizes, pngIconTag s1 ∈ htmlTags config
              ∧ hrefOf tag = hrefOf (pngIconTag s1)) := by
  refine ⟨fun dir => filepathBase_faviconPath dir s, ?_, ?_, hrefOf_pngIconTag s, appleTouch_href⟩
  · intro σ g w call hcall hsize
    obtain ⟨s1, _, hs1⟩ := Generate_calls g w call hcall
    rw [hs1] at hsize ⊢
    have : s1 = s := hsize
    subst this
    exact filepathBase_faviconPath g.OutputDir s1
  · unfold iconFor
    split <;> rfl

/-- The size 180 in the output directory `./favicons`, and the tags of the sizes 16 and 180,
whose Apple touch icon link points to the PNG of 180. -/
theorem naming_convention_witness :
    filepathBase (faviconPath "./favicons".toList 180) = "favicon-180x180.png".toList
      ∧ ∃ s1 ∈ [(16 : Int), 180], pngIconTag s1 ∈ htmlTags ⟨[16, 180], false, []⟩
          ∧ hrefOf (appleTouchIconTag 180) = hrefOf (pngIconTag s1) :=
  ⟨(naming_convention 180).1 "./favicons".toList,
   (naming_convention 180).2.2.2.2 ⟨[16, 180], false, []⟩ (appleTouchIconTag 180)
     (by decide) (by decide)⟩

/-! ## The driver: run, the ICO step and the HTML-only mode -/

theorem icoSizesLoop_eq (fs : FS) (output : GoString) (sizes : List Int) :
    ∀ icoSizes, icoSizesLoop fs output sizes icoSizes
      = icoSizes ++ (sizes.map (fun s => filepathJoin [output, faviconName s])).filter
          (fun path => fileExists fs path) := by
  induction sizes with
  | nil => intro icoSizes; simp [icoSizesLoop]
  | cons s sizes ih =>
    intro icoSizes
    unfold icoSizesLoop
    simp only [List.map_cons, List.filter_cons]
    by_cases h : fileExists fs (filepathJoin [output, faviconName s]) = true
    · have h2 : fileExists fs (filepathJoin [output, "favicon-".toList ++ formatInt s
          ++ "x".toList ++ formatInt s ++ ".png".toList]) = true := h
      rw [if_pos h2, ih, if_pos h]
      simp [faviconName]
    · have h2 : ¬ fileExists fs (filepathJoin [output, "favicon-".toList ++ formatInt s
          ++ "x".toList ++ formatInt s ++ ".png".toList]) = true := h
      rw [if_neg h2, ih, if_neg h]

theorem icoSizesLoop_candidates (fs : FS) (output : GoString) :
    icoSizesLoop fs output [16, 32, 48] [] = icoCandidates fs output := by
  rw [icoSizesLoop_eq, List.nil_append]
  rfl

theorem generateICOFile_none (gen : FaviconGenerator Host) (config : Config) (st : RunState)
    (h : icoCandidates st.world.fs config.Output = []) : generateICOFile gen config st = st := by
  unfold generateICOFile
  simp only [icoSizesLoop_candidates, h, List.length_nil, if_true]

theorem generateICOFile_some (gen : FaviconGenerator Host) (config : Config) (st : RunState)
    (h : icoCandidates st.world.fs config.Output ≠ []) :
    (generateICOFile gen config st).events
        = st.events ++ [.convertToICO ⟨icoCandidates st.world.fs config.Output,
            filepathJoin [gen.OutputDir, "favicon.ico".toList]⟩
            (gen.Processor.ConvertToICO (icoCandidates st.world.fs config.Output)
              (filepathJoin [gen.OutputDir, "favicon.ico".toList]) st.world).1.isSome]
      ∧ (generateICOFile gen config st).world
        = (gen.Processor.ConvertToICO (icoCandidates st.world.fs config.Output)
            (filepathJoin [gen.OutputDir, "favicon.ico".toList]) st.world).2 := by
  have hlen : ¬ (icoCandidates st.world.fs config.Output).length = 0 := by
    intro h0
    exact h (List.length_eq_zero.mp h0)
  cases hr : gen.Processor.ConvertToICO (icoCandidates st.world.fs config.Output)
      (filepathJoin [gen.OutputDir, "favicon.ico".toList]) st.world with
  | mk e w1 =>
    cases e with
    | none =>
      simp only [generateICOFile, icoSizesLoop_candidates, hlen, if_false,
        FaviconGenerator.GenerateICO, hr, RunState.record, RunState.print, RunState.warn,
        List.map_cons, List.map_nil, Option.isSome]
      constructor <;> first | rfl | trivial
    | some err =>
      simp only [generateICOFile, icoSizesLoop_candidates, hlen, if_false,
        FaviconGenerator.GenerateICO, hr, RunState.record, RunState.print, RunState.warn,
        List.map_cons, List.map_nil, Option.isSome]
      constructor <;> first | rfl | trivial

theorem run_validation_rejects (config : Config) (st : RunState) (err : GoError)
    (hoff : config.GenerateHTMLOnly = false)
    (hrej : validateSource st.world.fs config.Source = some err) :
    run config st = (some err, st.record [.validateSource (some err)]) := by
  unfold run
  simp only [hoff, Bool.false_eq_true, if_false, hrej]

theorem run_full_cases (config : Config) (st : RunState)
    (hoff : config.GenerateHTMLOnly = false) :
    (∃ e evs, (run config st).1 = some e ∧ (run config st).2.events = st.events ++ evs
        ∧ ∀ ev ∈ evs, ev.isIco = false)
      ∨ (∃ gen st1 evs, st1.events = st.events ++ evs ∧ (∀ ev ∈ evs, ev.isIco = false)
          ∧ run config st
            = runTail config
                (if config.GenerateICO = true then generateICOFile gen config st1 else st1)) := by
  cases hv : validateSource st.world.fs config.Source with
  | some err =>
    left
    rw [run_validation_rejects config st err hoff hv]
    refine ⟨err, [.validateSource (some err)], rfl, rfl, ?_⟩
    intro ev hev
    rw [List.mem_singleton] at hev
    rw [hev]; rfl
  | none =>
    cases hd : DetectAvailableProcessor config.Backend st.world with
    | error err =>
      left
      refine ⟨.wrapped "failed to initialize image processor: ".toList err,
        [.validateSource none, .detectProcessor none], ?_, ?_, ?_⟩
      · simp only [run, hoff, Bool.false_eq_true, if_false, hv, RunState.record, hd]
      · simp only [run, hoff, Bool.false_eq_true, if_false, hv, RunState.record, hd,
          List.append_assoc, List.singleton_append]
      · intro ev hev
        simp only [List.mem_cons, List.mem_singleton, List.not_mem_nil, or_false] at hev
        rcases hev with h | h <;> rw [h] <;> rfl
    | ok proc =>
      cases hg : (FaviconGenerator.Generate
          { Processor := proc, SourcePath := config.Source, OutputDir := config.Output,
            Sizes := config.Sizes } st.world) with
      | mk result gerr w1 calls =>
        have hevs : ∀ ev ∈ [Event.validateSource none, .detectProcessor (some proc.Name)]
            ++ calls.map (fun c => Event.resize c.1 c.2), ev.isIco = false := by
          intro ev hev
          rcases List.mem_append.mp hev with h | h
          · simp only [List.mem_cons, List.mem_singleton, List.not_mem_nil, or_false] at h
            rcases h with h | h <;> rw [h] <;> rfl
          · obtain ⟨c, _, hc⟩ := List.mem_map.mp h
            rw [← hc]; rfl
        cases gerr with
        | some err =>
          left
          refine ⟨.wrapped "failed to generate favicons: ".toList err, _, ?_, ?_, hevs⟩
          · simp only [run, hoff, Bool.false_eq_true, if_false, hv, RunState.record, hd,
              RunState.print, hg]
          · simp only [run, hoff, Bool.false_eq_true, if_false, hv, RunState.record, hd,
              RunState.print, hg, List.append_assoc, List.singleton_append, List.cons_append,
              List.nil_append]
        | none =>
          right
          have key : ∃ st1 : RunState,
              run config st = runTail config
                (if config.GenerateICO = true then
                  generateICOFile ⟨proc, config.Source, config.Output, config.Sizes⟩ config st1
                else st1)
              ∧ st1.events = st.events ++ [.validateSource none]
                  ++ [.detectProcessor (some proc.Name)]
                  ++ calls.map (fun c => Event.resize c.1 c.2) := by
            simp only [run, hoff, Bool.false_eq_true, if_false, hv, RunState.record, hd,
              RunState.print, hg]
            exact ⟨_, rfl, rfl⟩
          obtain ⟨st1, hrun, hev⟩ := key
          refine ⟨⟨proc, config.Source, config.Output, config.Sizes⟩, st1, _, ?_, hevs, hrun⟩
          rw [hev]
          simp only [List.append_assoc]
          rfl

theorem GenerateICO_error {σ : Type} (g : FaviconGenerator σ) (pngPaths : List GoString)
    (w : World σ) (err : GoError)
    (h : (g.Processor.ConvertToICO pngPaths (filepathJoin [g.OutputDir, "favicon.ico".toList])
      w).1 = some err) :
    (g.GenerateICO pngPaths w).err = some (.wrapped "failed to generate ICO file: ".toList err)
      ∧ (g.GenerateICO pngPaths w).path = [] := by
  unfold FaviconGenerator.GenerateICO
  simp only [h]
  constructor <;> first | rfl | trivial

theorem GenerateManifest_frame (c : ManifestConfig) (dir : GoString) (fs : FS) :
    (GenerateManifest c dir fs).2.dirs = fs.dirs
      ∧ (∀ f ∈ (GenerateManifest c dir fs).2.files,
          f ∈ fs.files ∨ f.1 = filepathJoin [dir, "manifest.webmanifest".toList])
      ∧ (∀ f ∈ fs.files, f.1 ≠ filepathJoin [dir, "manifest.webmanifest".toList] →
          f ∈ (GenerateManifest c dir fs).2.files) := by
  unfold GenerateManifest
  simp only
  split
  · exact ⟨rfl, fun f hf => Or.inl hf, fun f hf _ => hf⟩
  · split
    · exact ⟨rfl, fun f hf => Or.inl hf, fun f hf _ => hf⟩
    · rename_i data _ fs1 hw
      refine ⟨osWriteFile_dirs _ _ _ _ hw, ?_, ?_⟩
      · intro f hf
        unfold osWriteFile at hw
        split at hw
        · simp at hw
        · split at hw
          · simp at hw
          · simp only [Except.ok.injEq] at hw
            rw [← hw] at hf
            rcases List.mem_cons.mp hf with h | h
            · right; rw [h]
            · left; exact (List.mem_filter.mp h).1
      · intro f hf hne
        unfold osWriteFile at hw
        split at hw
        · simp at hw
        · split at hw
          · simp at hw
          · simp only [Except.ok.injEq] at hw
            rw [← hw]
            exact List.mem_cons_of_mem _ (List.mem_filter.mpr ⟨hf, by simpa using hne⟩)

theorem run_htmlOnly_cases (config : Config) (st : RunState)
    (hon : config.GenerateHTMLOnly = true) :
    (run config st).2.events
        = st.events ++ (if config.GenerateManifest = true then
            [.manifest
              (GenerateManifest config.buildManifestConfig config.Output st.world.fs).1.1
              (GenerateManifest config.buildManifestConfig config.Output st.world.fs).1.2]
          else [])
      ∧ (run config st).2.world.ext = st.world.ext
      ∧ (run config st).2.world.fs
        = (if config.GenerateManifest = true then
            (GenerateManifest config.buildManifestConfig config.Output st.world.fs).2
          else st.world.fs)
      ∧ ((run config st).1 = none ↔
          (config.GenerateManifest = true →
            (GenerateManifest config.buildManifestConfig config.Output st.world.fs).1.2 = none)) := by
  cases hm : config.GenerateManifest with
  | false =>
    simp only [run, hon, if_true, runHTMLOnlyMode, hm, Bool.false_eq_true, if_false,
      RunState.print, List.append_nil, false_implies, iff_true, and_self]
  | true =>
    cases hg : GenerateManifest config.buildManifestConfig config.Output st.world.fs with
    | mk pe fs1 =>
      cases pe with
      | mk p e =>
        cases e with
        | none =>
          simp only [run, hon, if_true, runHTMLOnlyMode, hm, hg, RunState.print,
            RunState.record, true_implies, and_self]
        | some err =>
          simp only [run, hon, if_true, runHTMLOnlyMode, hm, hg, RunState.print,
            RunState.record, true_implies, and_self]
          simp

/-- Claim C23, amended: when `GenerateHTMLOnly` is set, `run` validates no source, detects no
processor and calls neither `Resize` nor `ConvertToICO`, whatever the other fields are: the
only step it records is the manifest step, and only when `GenerateManifest` is set; it starts
no external command; it succeeds exactly when the manifest is not requested or
`GenerateManifest` succeeds, whatever the source and the installed tools are; it creates no
directory, and the only file it can write is the manifest, and only when `GenerateManifest`
is set. -/
theorem run_htmlOnly (config : Config) (st : RunState) (hon : config.GenerateHTMLOnly = true) :
    (run config st).2.events
        = st.events ++ (if config.GenerateManifest = true then
            [.manifest
              (GenerateManifest config.buildManifestConfig config.Output st.world.fs).1.1
              (GenerateManifest config.buildManifestConfig config.Output st.world.fs).1.2]
          else [])
      ∧ (∀ ev ∈ (run config st).2.events, ev ∈ st.events ∨ ev.isImageWork = false)
      ∧ (run config st).2.world.ext = st.world.ext
      ∧ ((run config st).1 = none ↔
          (config.GenerateManifest = true →
            (GenerateManifest config.buildManifestConfig config.Output st.world.fs).1.2 = none))
      ∧ (config.GenerateManifest = false → (run config st).2.world = st.world)
      ∧ (run config st).2.world.fs.dirs = st.world.fs.dirs
      ∧ (∀ f ∈ (run config st).2.world.fs.files,
          f ∈ st.world.fs.files
            ∨ (config.GenerateManifest = true
              ∧ f.1 = filepathJoin [config.Output, "manifest.webmanifest".toList]))
      ∧ (∀ f ∈ st.world.fs.files,
          f.1 ≠ filepathJoin [config.Output, "manifest.webmanifest".toList] →
            f ∈ (run config st).2.world.fs.files) := by
  obtain ⟨hev, hext, hfs, hres⟩ := run_htmlOnly_cases config st hon
  obtain ⟨hd, hnew, hold⟩ :=
    GenerateManifest_frame config.buildManifestConfig config.Output st.world.fs
  refine ⟨hev, ?_, hext, hres, ?_, ?_, ?_, ?_⟩
  · intro ev h
    rw [hev] at h
    rcases List.mem_append.mp h with h | h
    · exact Or.inl h
    · right
      by_cases hm : config.GenerateManifest = true
      · rw [if_pos hm, List.mem_singleton] at h
        rw [h]; rfl
      · rw [if_neg hm] at h
        cases h
  · intro hm
    have h1 : (run config st).2.world.fs = st.world.fs := by
      rw [hfs, hm]; rfl
    cases hw : (run config st).2.world with
    | mk fs1 ext1 =>
      rw [hw] at h1 hext
      simp only at h1 hext
      rw [h1, hext]
  · rw [hfs]
    split
    · exact hd
    · rfl
  · intro f hf
    rw [hfs] at hf
    by_cases hm : config.GenerateManifest = true
    · rw [if_pos hm] at hf
      rcases hnew f hf with h | h
      · exact Or.inl h
      · exact Or.inr ⟨hm, h⟩
    · rw [if_neg hm] at hf
      exact Or.inl hf
  · intro f hf hne
    rw [hfs]
    split
    · exact hold f hf hne
    · exact hf

/-- Claim C26: `generateICOFile` hands to `GenerateICO`, and so to `ConvertToICO`, exactly
those of `favicon-16x16.png`, `favicon-32x32.png` and `favicon-48x48.png` of the output
directory that exist, in that order, whatever the requested sizes are; when none of the three
exists it makes no call and changes nothing. -/
theorem generateICOFile_candidates (gen : FaviconGenerator Host) (config : Config)
    (st : RunState) :
    (generateICOFile gen config st).events
        = st.events ++ (if icoCandidates st.world.fs config.Output = [] then []
          else [.convertToICO ⟨icoCandidates st.world.fs config.Output,
              filepathJoin [gen.OutputDir, "favicon.ico".toList]⟩
            (gen.Processor.ConvertToICO (icoCandidates st.world.fs config.Output)
              (filepathJoin [gen.OutputDir, "favicon.ico".toList]) st.world).1.isSome])
      ∧ (generateICOFile gen config st).world
        = (if icoCandidates st.world.fs config.Output = [] then st.world
          else (gen.Processor.ConvertToICO (icoCandidates st.world.fs config.Output)
              (filepathJoin [gen.OutputDir, "favicon.ico".toList]) st.world).2)
      ∧ (icoCandidates st.world.fs config.Output = [] → generateICOFile gen config st = st)
      ∧ (∀ sizes : List Int,
          generateICOFile { gen with Sizes := sizes } { config with Sizes := sizes } st
            = generateICOFile gen config st)
      ∧ icoCandidates st.world.fs config.Output
        = (["favicon-16x16.png".toList, "favicon-32x32.png".toList,
            "favicon-48x48.png".toList].map (fun name => filepathJoin [config.Output, name])).filter
          (fun path => fileExists st.world.fs path) := by
  have hnames : icoCandidates st.world.fs config.Output
      = (["favicon-16x16.png".toList, "favicon-32x32.png".toList,
          "favicon-48x48.png".toList].map (fun name => filepathJoin [config.Output, name])).filter
        (fun path => fileExists st.world.fs path) := by
    have h16 : faviconName 16 = "favicon-16x16.png".toList := by decide
    have h32 : faviconName 32 = "favicon-32x32.png".toList := by decide
    have h48 : faviconName 48 = "favicon-48x48.png".toList := by decide
    unfold icoCandidates
    simp only [List.map_cons, List.map_nil, h16, h32, h48]
  by_cases hc : icoCandidates st.world.fs config.Output = []
  · rw [if_pos hc, if_pos hc, generateICOFile_none gen config st hc]
    refine ⟨by rw [List.append_nil], rfl, fun _ => rfl, fun sizes => ?_, ?_⟩
    · exact generateICOFile_none _ _ st hc
    · exact hnames
  · rw [if_neg hc, if_neg hc]
    refine ⟨(generateICOFile_some gen config st hc).1, (generateICOFile_some gen config st hc).2,
      fun h => absurd h hc, fun sizes => rfl, hnames⟩

/-- Claim C27: when HTML-only mode is off and `validateSource` rejects the configured source,
`run` returns that error having done nothing else: the world is as it was, so no output
directory was created, no file written and no command started; the only step recorded is the
validation, so no processor was detected and neither `Resize` nor `ConvertToICO` called; and
nothing was printed. -/
theorem run_validation_error (config : Config) (st : RunState) (err : GoError)
    (hoff : config.GenerateHTMLOnly = false)
    (hrej : validateSource st.world.fs config.Source = some err) :
    (run config st).1 = some err
      ∧ (run config st).2.world = st.world
      ∧ (run config st).2.events = st.events ++ [.validateSource (some err)]
      ∧ (run config st).2.stdout = st.stdout
      ∧ (run config st).2.stderr = st.stderr := by
  rw [run_validation_rejects config st err hoff hrej]
  exact ⟨rfl, rfl, rfl, rfl, rfl⟩

/-- HTML-only mode with the manifest requested and the default output directory, which does
not exist: the run fails although `GenerateHTMLOnly` is set. -/
theorem run_htmlOnly_manifest_failure :
    ({ defaultConfig with GenerateHTMLOnly := true, GenerateManifest := true }
        : Config).GenerateHTMLOnly = true
      ∧ (run { defaultConfig with GenerateHTMLOnly := true, GenerateManifest := true }
          (RunState.init ⟨sourceFS, bareHost⟩)).1
        = some (.wrapped "failed to generate manifest: ".toList
            (.wrapped "failed to write manifest file: ".toList
              (.pathError "open".toList "favicons/manifest.webmanifest".toList .ENOENT))) :=
  ⟨rfl, rfl⟩

/-- HTML-only mode with an empty source and no image tool, the manifest written to the
current directory: the run succeeds. -/
theorem run_htmlOnly_witness :
    (run { defaultConfig with
          GenerateHTMLOnly := true, GenerateManifest := true, Source := [], Output := ".".toList }
        (RunState.init ⟨emptyFS, bareHost⟩)).1 = none :=
  (run_htmlOnly { defaultConfig with
      GenerateHTMLOnly := true, GenerateManifest := true, Source := [], Output := ".".toList }
    (RunState.init ⟨emptyFS, bareHost⟩) rfl).2.2.2.1.mpr (fun _ => rfl)

/-- The sizes 64 and 128 requested over the files of an earlier run: the one candidate is the
icon of 32; in a file system without icons nothing happens. -/
theorem generateICOFile_candidates_witness :
    icoCandidates leftoverFS "./favicons".toList = ["favicons/favicon-32x32.png".toList]
      ∧ generateICOFile ⟨imageMagick, "logo.svg".toList, "./favicons".toList, [64, 128]⟩
          { defaultConfig with Sizes := [64, 128] } (RunState.init ⟨sourceFS, pngOnlyHost⟩)
        = RunState.init ⟨sourceFS, pngOnlyHost⟩ :=
  ⟨rfl,
   (generateICOFile_candidates ⟨imageMagick, "logo.svg".toList, "./favicons".toList, [64, 128]⟩
      { defaultConfig with Sizes := [64, 128] } (RunState.init ⟨sourceFS, pngOnlyHost⟩)).2.2.1
      rfl⟩

/-- A source that does not exist: the run returns the error of the validation and leaves the
world as it was. -/
theorem run_validation_error_witness :
    (run { defaultConfig with Source := "missing.png".toList }
        (RunState.init ⟨sourceFS, pngOnlyHost⟩)).1
        = some (.errorf "source file does not exist: missing.png".toList)
      ∧ (run { defaultConfig with Source := "missing.png".toList }
          (RunState.init ⟨sourceFS, pngOnlyHost⟩)).2.world = ⟨sourceFS, pngOnlyHost⟩ :=
  ⟨(run_validation_error { defaultConfig with Source := "missing.png".toList }
      (RunState.init ⟨sourceFS, pngOnlyHost⟩)
      (.errorf "source file does not exist: missing.png".toList) rfl rfl).1,
   (run_validation_error { defaultConfig with Source := "missing.png".toList }
      (RunState.init ⟨sourceFS, pngOnlyHost⟩)
      (.errorf "source file does not exist: missing.png".toList) rfl rfl).2.1⟩

/-! ## GenerateManifest: the file it writes -/

theorem osWriteFile_read (fs fs1 : FS) (name : GoString) (data : FileContent)
    (h : osWriteFile fs name data = .ok fs1) : osReadFile fs1 name = .ok data := by
  unfold osWriteFile at h
  split at h
  · simp at h
  · split at h
    · simp at h
    · rename_i hdir
      simp only [Except.ok.injEq] at h
      rw [← h]
      unfold osReadFile
      simp only [hdir, if_false, List.find?_cons, decide_True]

theorem GenerateManifest_written (config : ManifestConfig) (outputDir : GoString) (fs : FS)
    (h : (GenerateManifest config outputDir fs).1.2 = none) :
    (GenerateManifest config outputDir fs).1.1
        = filepathJoin [outputDir, "manifest.webmanifest".toList]
      ∧ osReadFile (GenerateManifest config outputDir fs).2
          (GenerateManifest config outputDir fs).1.1
        = .ok (.json (marshalManifest (buildManifest config))) := by
  cases hw : osWriteFile fs (filepathJoin [outputDir, "manifest.webmanifest".toList])
      (.json (marshalManifest (buildManifest config))) with
  | error err =>
    simp only [GenerateManifest, jsonMarshalIndent, hw] at h
    simp at h
  | ok fs1 =>
    simp only [GenerateManifest, jsonMarshalIndent, hw]
    exact ⟨trivial, osWriteFile_read _ _ _ _ hw⟩

theorem GenerateManifest_existing_dir (config : ManifestConfig) (outputDir : GoString) (fs : FS)
    (hdir : dirExists fs outputDir = true)
    (hfree : filepathJoin [outputDir, "manifest.webmanifest".toList] ∉ fs.dirs) :
    (GenerateManifest config outputDir fs).1
      = (filepathJoin [outputDir, "manifest.webmanifest".toList], none) := by
  have hp : ¬ parentDir (filepathJoin [outputDir, "manifest.webmanifest".toList]) ∉ fs.dirs := by
    rw [parentDir_filepathJoin _ _ plainName_manifest]
    simpa [dirExists] using hdir
  unfold GenerateManifest jsonMarshalIndent osWriteFile
  simp only [hp, if_false, hfree]

theorem marshalIcon_fields (s : Int) :
    (marshalIcon (iconFor s)).get? "src"
        = some (.str ("favicon-".toList ++ formatInt s ++ "x".toList ++ formatInt s
            ++ ".png".toList))
      ∧ (marshalIcon (iconFor s)).get? "sizes"
        = some (.str (formatInt s ++ "x".toList ++ formatInt s))
      ∧ (marshalIcon (iconFor s)).get? "type" = some (.str "image/png".toList)
      ∧ (marshalIcon (iconFor s)).get? "purpose"
        = (if s ≥ 192 then some (.str "any maskable".toList) else none) := by
  by_cases h : s ≥ 192
  · rw [if_pos h]
    unfold iconFor
    simp only [h, if_true]
    exact ⟨rfl, rfl, rfl, rfl⟩
  · rw [if_neg h]
    unfold iconFor
    simp only [h, if_false]
    exact ⟨rfl, rfl, rfl, rfl⟩

/-- Claim C7: when the output directory exists `GenerateManifest` writes the manifest, and
whenever it returns no error the file it wrote reads back as a JSON object whose `icons` are
the icons of the sizes, in order: the icon built for a size `s` carries the purpose
`any maskable`, written under the key `purpose`, exactly when `s ≥ 192`; an icon for a size
below 192 has an empty purpose and no key `purpose`, the sizes 180 to 191 of an Apple touch
icon included. -/
theorem manifest_icon_purpose (config : ManifestConfig) (outputDir : GoString) (fs : FS) :
    (dirExists fs outputDir = true →
        filepathJoin [outputDir, "manifest.webmanifest".toList] ∉ fs.dirs →
        (GenerateManifest config outputDir fs).1
          = (filepathJoin [outputDir, "manifest.webmanifest".toList], none))
      ∧ ((GenerateManifest config outputDir fs).1.2 = none →
          ∃ doc, osReadFile (GenerateManifest config outputDir fs).2
              (GenerateManifest config outputDir fs).1.1 = .ok (.json doc)
            ∧ doc.get? "icons"
              = some (.arr (config.IconSizes.map (fun s => marshalIcon (iconFor s)))))
      ∧ (buildManifest config).Icons = some (config.IconSizes.map iconFor)
      ∧ ∀ s : Int,
        ((iconFor s).Purpose = "any maskable".toList ↔ s ≥ 192)
          ∧ (marshalIcon (iconFor s)).get? "purpose"
            = (if s ≥ 192 then some (.str "any maskable".toList) else none)
          ∧ (s ≥ 192 → "purpose" ∈ (marshalIcon (iconFor s)).keys)
          ∧ (s < 192 → (iconFor s).Purpose = [] ∧ "purpose" ∉ (marshalIcon (iconFor s)).keys)
          ∧ (180 ≤ s → s < 192 → appleTouchLoop [s] [] = [appleTouchIconTag s]) := by
  refine ⟨GenerateManifest_existing_dir config outputDir fs, ?_, (iconFor_purpose config).1, ?_⟩
  · intro h
    exact ⟨_, (GenerateManifest_written config outputDir fs h).2,
      (buildManifest_icons config).2.2⟩
  · intro s
    obtain ⟨h1, h2, h3, h4⟩ := (iconFor_purpose config).2 s
    exact ⟨h1, (marshalIcon_fields s).2.2.2, h2, h3, h4⟩

/-- Claim C8: whenever `GenerateManifest` returns no error, which it does when the output
directory exists, the file it wrote reads back as a JSON object whose `icons` array has
exactly one icon per size of the list, in its order and with duplicates kept, the one for
`s` having the `src` `favicon-{s}x{s}.png`, the `sizes` `{s}x{s}` and the `type`
`image/png`. -/
theorem manifest_icons (config : ManifestConfig) (outputDir : GoString) (fs : FS) :
    (dirExists fs outputDir = true →
        filepathJoin [outputDir, "manifest.webmanifest".toList] ∉ fs.dirs →
        (GenerateManifest config outputDir fs).1
          = (filepathJoin [outputDir, "manifest.webmanifest".toList], none))
      ∧ ((GenerateManifest config outputDir fs).1.2 = none →
          ∃ (doc : JSON) (icons : List JSON), osReadFile (GenerateManifest config outputDir fs).2
              (GenerateManifest config outputDir fs).1.1 = .ok (.json doc)
            ∧ doc.get? "icons" = some (.arr icons)
            ∧ icons.length = config.IconSizes.length
            ∧ icons = config.IconSizes.map (fun s => marshalIcon (iconFor s))
            ∧ ∀ (i : Nat) (s : Int), config.IconSizes[i]? = some s →
                ∃ icon : JSON, icons[i]? = some icon
                  ∧ icon.get? "src" = some (.str ("favicon-".toList ++ formatInt s
                      ++ "x".toList ++ formatInt s ++ ".png".toList))
                  ∧ icon.get? "sizes" = some (.str (formatInt s ++ "x".toList ++ formatInt s))
                  ∧ icon.get? "type" = some (.str "image/png".toList))
      ∧ goLen (buildManifest config).Icons = config.IconSizes.length
      ∧ ((buildManifest config).Icons.getD []).map (fun icon => (icon.Src, icon.Sizes, icon.Typ))
          = config.IconSizes.map specIconFields := by
  refine ⟨GenerateManifest_existing_dir config outputDir fs, ?_, (buildManifest_icons config).1,
    (buildManifest_icons config).2.1⟩
  intro h
  refine ⟨_, _, (GenerateManifest_written config outputDir fs h).2,
    (buildManifest_icons config).2.2, by rw [List.length_map], rfl, ?_⟩
  intro i s hs
  refine ⟨marshalIcon (iconFor s), ?_, (marshalIcon_fields s).1, (marshalIcon_fields s).2.1,
    (marshalIcon_fields s).2.2.1⟩
  rw [List.getElem?_map, hs]
  rfl

/-- Claim C9: whenever `GenerateManifest` returns no error, which it does when the output
directory exists, the file it wrote reads back as a JSON object in which each of the keys
`name`, `short_name`, `description`, `orientation`, `scope`, `theme_color`,
`background_color` and `categories` is present exactly when the corresponding value of the
configuration is not empty; `start_url`, `display` and `icons` are always present; `icons`
is always an array, the empty array when the size list is empty. -/
theorem manifest_keys (config : ManifestConfig) (outputDir : GoString) (fs : FS) :
    (dirExists fs outputDir = true →
        filepathJoin [outputDir, "manifest.webmanifest".toList] ∉ fs.dirs →
        (GenerateManifest config outputDir fs).1
          = (filepathJoin [outputDir, "manifest.webmanifest".toList], none))
      ∧ ((GenerateManifest config outputDir fs).1.2 = none →
          ∃ doc, osReadFile (GenerateManifest config outputDir fs).2
              (GenerateManifest config outputDir fs).1.1 = .ok (.json doc)
            ∧ ("name" ∈ doc.keys ↔ config.Name ≠ [])
            ∧ ("short_name" ∈ doc.keys ↔ config.ShortName ≠ [])
            ∧ ("description" ∈ doc.keys ↔ config.Description ≠ [])
            ∧ ("orientation" ∈ doc.keys ↔ config.Orientation ≠ [])
            ∧ ("scope" ∈ doc.keys ↔ config.Scope ≠ [])
            ∧ ("theme_color" ∈ doc.keys ↔ config.ThemeColor ≠ [])
            ∧ ("background_color" ∈ doc.keys ↔ config.BackgroundColor ≠ [])
            ∧ ("categories" ∈ doc.keys ↔ goLen config.Categories ≠ 0)
            ∧ "start_url" ∈ doc.keys
            ∧ "display" ∈ doc.keys
            ∧ "icons" ∈ doc.keys
            ∧ (∃ elems, doc.get? "icons" = some (.arr elems))
            ∧ (config.IconSizes = [] → doc.get? "icons" = some (.arr []))) := by
  refine ⟨GenerateManifest_existing_dir config outputDir fs, ?_⟩
  intro h
  exact ⟨_, (GenerateManifest_written config outputDir fs h).2, buildManifest_keys config⟩

/-- The default configuration with the sizes 180 and 192, written to the current directory:
the second icon of the file carries the purpose, the first does not. -/
theorem manifest_icon_purpose_witness :
    ∃ doc, osReadFile (GenerateManifest
          { defaultConfig.buildManifestConfig with IconSizes := [180, 192] } ".".toList emptyFS).2
        "manifest.webmanifest".toList = .ok (.json doc)
      ∧ doc.get? "icons" = some (.arr [marshalIcon (iconFor 180), marshalIcon (iconFor 192)])
      ∧ (marshalIcon (iconFor 180)).get? "purpose" = none
      ∧ (marshalIcon (iconFor 192)).get? "purpose" = some (.str "any maskable".toList) :=
  let ⟨doc, h1, h2⟩ := (manifest_icon_purpose
    { defaultConfig.buildManifestConfig with IconSizes := [180, 192] } ".".toList emptyFS).2.1 rfl
  ⟨doc, h1, h2,
    ((manifest_icon_purpose defaultConfig.buildManifestConfig ".".toList emptyFS).2.2.2 180).2.1,
    ((manifest_icon_purpose defaultConfig.buildManifestConfig ".".toList emptyFS).2.2.2 192).2.1⟩

/-- The sizes 32, 16 and 32 again, written to the current directory: the file has three
icons. -/
theorem manifest_icons_witness :
    (GenerateManifest { defaultConfig.buildManifestConfig with IconSizes := [32, 16, 32] }
        ".".toList emptyFS).1 = ("manifest.webmanifest".toList, none)
      ∧ ∃ doc icons, osReadFile (GenerateManifest
            { defaultConfig.buildManifestConfig with IconSizes := [32, 16, 32] }
            ".".toList emptyFS).2 "manifest.webmanifest".toList = .ok (.json doc)
          ∧ doc.get? "icons" = some (.arr icons) ∧ icons.length = 3 :=
  ⟨(manifest_icons { defaultConfig.buildManifestConfig with IconSizes := [32, 16, 32] }
      ".".toList emptyFS).1 (by decide) (by decide),
   let ⟨doc, icons, h1, h2, h3, _⟩ := (manifest_icons
      { defaultConfig.buildManifestConfig with IconSizes := [32, 16, 32] }
      ".".toList emptyFS).2.1 rfl
   ⟨doc, icons, h1, h2, h3⟩⟩

/-- The default configuration without any size, written to the current directory: the file
has no key `name`, and its `icons` are the empty array. -/
theorem manifest_keys_witness :
    ∃ doc, osReadFile (GenerateManifest
          { defaultConfig.buildManifestConfig with IconSizes := [] } ".".toList emptyFS).2
        "manifest.webmanifest".toList = .ok (.json doc)
      ∧ "name" ∉ doc.keys ∧ "display" ∈ doc.keys ∧ doc.get? "icons" = some (.arr []) :=
  let ⟨doc, h1, h2, _, _, _, _, _, _, _, _, h3, _, _, h4⟩ := (manifest_keys
    { defaultConfig.buildManifestConfig with IconSizes := [] } ".".toList emptyFS).2 rfl
  ⟨doc, h1, fun h => (h2.mp h) rfl, h3, h4 rfl⟩

/-! ## The Apple touch icon link in the output -/

theorem not_infix_of_not_mem (p t : GoString) (c : Char) (hc : c ∈ p) (hn : c ∉ t) :
    ¬ p <:+: t := by
  intro h
  exact hn (h.subset hc)

theorem u_not_mem_formatInt (n : Int) : 'u' ∉ formatInt n := by
  intro h
  rcases formatInt_chars n _ h with h1 | h1
  · exact absurd h1 (by decide)
  · exact absurd h1 (by decide)

theorem pngIconTag_no_appleWord (n : Int) : ¬ appleWord <:+: pngIconTag n := by
  apply not_infix_of_not_mem _ _ 'u' (by decide)
  have hf := eq_false (u_not_mem_formatInt n)
  simp only [pngIconTag, List.mem_append, hf, or_false, false_or]
  decide

theorem themeColorTag_no_appleWord (tc : GoString) (h : ¬ appleWord <:+: tc) :
    ¬ appleWord <:+: themeColorTag tc := by
  have hshape : themeColorTag tc
      = "<meta name=\"theme-color\" content=".toList ++ '"' :: (tc ++ '"' :: ">".toList) := by
    unfold themeColorTag
    have e1 : "<meta name=\"theme-color\" content=\"".toList
        = "<meta name=\"theme-color\" content=".toList ++ ['"'] := by decide
    have e2 : "\">".toList = '"' :: ">".toList := by decide
    rw [e1, e2]
    simp only [List.append_assoc, List.singleton_append, List.cons_append, List.nil_append]
  rw [hshape]
  exact not_infix_append_sep _ _ _ _ (by decide) (by decide)
    (not_infix_append_sep _ _ _ _ (by decide) h (by decide))

theorem appleWord_infix_appleTouchIconTag (s : Int) : appleWord <:+: appleTouchIconTag s := by
  have e : "<link rel=\"apple-touch-icon\" sizes=\"".toList
      = "<link rel=\"".toList ++ appleWord ++ "\" sizes=\"".toList := by decide
  unfold appleTouchIconTag
  rw [e]
  simp only [List.append_assoc]
  exact List.infix_append' _ _ _

theorem lines_appleTouchIconTag (s : Int) :
    lines (appleTouchIconTag s) = [appleTouchIconTag s] := by
  unfold lines stringsSplit List.splitOn
  apply List.splitOnP_eq_single
  intro x hx hx2
  have : x = '\n' := by simpa using hx2
  exact newline_not_mem_appleTouchIconTag s (this ▸ hx)

theorem filter_lines_of_no_appleWord (q : GoString → Bool)
    (hq : ∀ l, q l = true → appleWord <:+: l) (t : GoString) (ht : ¬ appleWord <:+: t) :
    (lines t).filter q = [] := by
  rw [List.filter_eq_nil_iff]
  intro l hl hql
  exact ht ((hq l hql).trans ( mem_splitOn_infix _ _ _ hl))

theorem filter_flatMap_lines_nil (q : GoString → Bool)
    (hq : ∀ l, q l = true → appleWord <:+: l) (ts : List GoString)
    (hts : ∀ t ∈ ts, ¬ appleWord <:+: t) : (ts.flatMap lines).filter q = [] := by
  rw [List.filter_eq_nil_iff]
  intro l hl hql
  obtain ⟨t, ht, hlt⟩ := List.mem_flatMap.mp hl
  exact hts t ht ((hq l hql).trans ( mem_splitOn_infix _ _ _ hlt))

theorem filter_lines_GenerateHTMLTags (config : HTMLTagsConfig) (q : GoString → Bool)
    (hq : ∀ l, q l = true → appleWord <:+: l) (hq2 : ∀ s, q (appleTouchIconTag s) = true)
    (hth : ¬ appleWord <:+: config.ThemeColor) :
    (lines (GenerateHTMLTags config)).filter q =
      match config.Sizes.find? (fun s => decide (180 ≤ s)) with
      | some s => [appleTouchIconTag s]
      | none => [] := by
  rw [lines_GenerateHTMLTags]
  unfold specTags
  simp only [List.flatMap_append, List.filter_append]
  have h0 : ([faviconIcoTag].flatMap lines).filter q = [] :=
    filter_flatMap_lines_nil q hq _ (by intro t ht; rw [List.mem_singleton] at ht; rw [ht]; decide)
  have h1 : ((config.Sizes.map pngIconTag).flatMap lines).filter q = [] :=
    filter_flatMap_lines_nil q hq _ (by
      intro t ht
      obtain ⟨s, _, rfl⟩ := List.mem_map.mp ht
      exact pngIconTag_no_appleWord s)
  have h3 : ((if config.IncludeManifest = true then [manifestTag] else []).flatMap lines).filter q
      = [] :=
    filter_flatMap_lines_nil q hq _ (by
      intro t ht
      split at ht
      · rw [List.mem_singleton] at ht; rw [ht]; decide
      · cases ht)
  have h4 : ((if config.ThemeColor = [] then []
      else [themeColorTag config.ThemeColor]).flatMap lines).filter q = [] :=
    filter_flatMap_lines_nil q hq _ (by
      intro t ht
      split at ht
      · cases ht
      · rw [List.mem_singleton] at ht; rw [ht]; exact themeColorTag_no_appleWord _ hth)
  rw [h0, h1, h3, h4, List.nil_append, List.nil_append, List.append_nil, List.append_nil]
  cases hf : config.Sizes.find? (fun s => decide (180 ≤ s)) with
  | none => rfl
  | some s =>
    simp only [List.flatMap_cons, List.flatMap_nil, List.append_nil, lines_appleTouchIconTag,
      List.filter_cons, hq2 s, if_true, List.filter_nil]

theorem GenerateHTMLTags_no_appleWord (config : HTMLTagsConfig)
    (hall : ∀ s ∈ config.Sizes, s < 180) (hth : ¬ appleWord <:+: config.ThemeColor) :
    ¬ appleWord <:+: GenerateHTMLTags config := by
  have hnone : config.Sizes.find? (fun s => decide (180 ≤ s)) = none := by
    rw [List.find?_eq_none]
    intro s hs
    have := hall s hs
    simp only [decide_eq_true_eq]; omega
  rw [GenerateHTMLTags_join]
  unfold stringsJoin
  apply intercalate_no_infix _ _ (by decide) _ (by simp [specTags])
  intro t ht
  unfold specTags at ht
  rw [hnone] at ht
  simp only [List.mem_append, List.mem_singleton, List.mem_map, List.not_mem_nil, or_false]
    at ht
  rcases ht with ((h | ⟨s, _, h⟩) | h) | h
  · subst h; decide
  · subst h; exact pngIconTag_no_appleWord s
  · split at h
    · rw [List.mem_singleton] at h; rw [h]; decide
    · cases h
  · split at h
    · cases h
    · rw [List.mem_singleton] at h; rw [h]; exact themeColorTag_no_appleWord _ hth

/-- Claim C5, as amended: for every size list and every theme colour that does not itself
contain the text `apple-touch-icon`, the output of `GenerateHTMLTags` has at most one line
with that text. When some size is at least 180 it has exactly one, the Apple touch icon link
of the first such size in list order, which is also its only line that opens as an Apple
touch icon link; when every size is below 180 the output does not contain the text at
all. -/
theorem GenerateHTMLTags_appleTouch (config : HTMLTagsConfig)
    (hth : ¬ stringsContains config.ThemeColor appleWord) :
    ((lines (GenerateHTMLTags config)).filter
        (fun l => decide (stringsContains l appleWord))).length ≤ 1
      ∧ (∀ s, config.Sizes.find? (fun s => decide (180 ≤ s)) = some s →
          (lines (GenerateHTMLTags config)).filter
              (fun l => decide (stringsContains l appleWord)) = [appleTouchIconTag s]
            ∧ (lines (GenerateHTMLTags config)).filter isAppleTouchLink
              = [appleTouchIconTag s])
      ∧ ((∀ s ∈ config.Sizes, s < 180) →
          ¬ stringsContains (GenerateHTMLTags config) appleWord) := by
  have hc := filter_lines_GenerateHTMLTags config
    (fun l => decide (stringsContains l appleWord))
    (by intro l hl; simpa [stringsContains] using hl)
    (by intro s; simpa [stringsContains] using appleWord_infix_appleTouchIconTag s) hth
  have ha := filter_lines_GenerateHTMLTags config isAppleTouchLink
    (by
      intro l hl
      unfold isAppleTouchLink at hl
      have hp : "<link rel=\"apple-touch-icon\"".toList <+: l := by simpa using hl
      have hw : appleWord <:+: "<link rel=\"apple-touch-icon\"".toList := by decide
      exact hw.trans hp.isInfix)
    isAppleTouchLink_appleTouchIconTag hth
  refine ⟨?_, ?_, ?_⟩
  · rw [hc]; split <;> simp
  · intro s hs
    rw [hc, ha, hs]
    exact ⟨rfl, rfl⟩
  · intro hall
    exact GenerateHTMLTags_no_appleWord config hall hth

/-- Claim C5 fails as stated: the theme colour is written into the output as it is, so with
the sizes 16, 32 and 64, all below 180, and a theme colour that carries a line break and a
link, the output has a line that is an Apple touch icon link. -/
theorem GenerateHTMLTags_appleTouch_injected :
    (∀ s ∈ [(16 : Int), 32, 64], s < 180)
      ∧ "<link rel=\"apple-touch-icon\" href=\"/x.png\">".toList
        ∈ lines (GenerateHTMLTags
            ⟨[16, 32, 64], false, "#fff\">\n<link rel=\"apple-touch-icon\" href=\"/x.png".toList⟩)
      ∧ isAppleTouchLink "<link rel=\"apple-touch-icon\" href=\"/x.png\">".toList = true
      ∧ stringsContains (GenerateHTMLTags
            ⟨[16, 32, 64], false, "#fff\">\n<link rel=\"apple-touch-icon\" href=\"/x.png".toList⟩)
          appleWord := by
  have hline : "<link rel=\"apple-touch-icon\" href=\"/x.png\">".toList
      ∈ lines (GenerateHTMLTags
          ⟨[16, 32, 64], false, "#fff\">\n<link rel=\"apple-touch-icon\" href=\"/x.png".toList⟩) := by
    decide
  have hword : appleWord <:+: "<link rel=\"apple-touch-icon\" href=\"/x.png\">".toList := by
    decide
  have hin : "<link rel=\"apple-touch-icon\" href=\"/x.png\">".toList
      <:+: GenerateHTMLTags
          ⟨[16, 32, 64], false, "#fff\">\n<link rel=\"apple-touch-icon\" href=\"/x.png".toList⟩ :=
    mem_splitOn_infix '\n' _ _ hline
  exact ⟨by decide, hline, by decide, hword.trans hin⟩

/-- The lists `[512, 180]`, whose Apple touch icon is that of 512, and `[16, 32, 64]`, which
has none, with the theme colour `#ffffff`. -/
theorem GenerateHTMLTags_appleTouch_witness :
    (lines (GenerateHTMLTags ⟨[512, 180], false, "#ffffff".toList⟩)).filter isAppleTouchLink
        = [appleTouchIconTag 512]
      ∧ ¬ stringsContains (GenerateHTMLTags ⟨[16, 32, 64], false, "#ffffff".toList⟩) appleWord :=
  ⟨((GenerateHTMLTags_appleTouch ⟨[512, 180], false, "#ffffff".toList⟩ (by decide)).2.1 512
      (by decide)).2,
   (GenerateHTMLTags_appleTouch ⟨[16, 32, 64], false, "#ffffff".toList⟩ (by decide)).2.2
     (by decide)⟩

/-! ## Generate: the first failing size -/

theorem generateLoop_fail {σ : Type} (g : FaviconGenerator σ) (sizes : List Int) :
    ∀ (i : Nat) (s : Int) (e : GoError) (result : GenerateResult) (w : World σ)
      (calls : List (ResizeCall × Option GoError)),
      sizes[i]? = some s →
      (∀ k < i, (g.Processor.Resize g.SourcePath (faviconPath g.OutputDir (sizes.getD k 0))
          (sizes.getD k 0) (resizeWorld g (sizes.take k) w)).1 = none) →
      (g.Processor.Resize g.SourcePath (faviconPath g.OutputDir s) s
          (resizeWorld g (sizes.take i) w)).1 = some e →
      generateLoop g sizes result w calls
        = ⟨none, some (.wrapped ("failed to generate ".toList ++ formatInt s ++ "x".toList
              ++ formatInt s ++ " favicon: ".toList) e),
            (g.Processor.Resize g.SourcePath (faviconPath g.OutputDir s) s
              (resizeWorld g (sizes.take i) w)).2,
            calls ++ (sizes.take i).map (fun s => (resizeCallFor g s, none))
              ++ [(resizeCallFor g s, some e)]⟩ := by
  induction sizes with
  | nil => intro i s e result w calls hi; simp at hi
  | cons s0 sizes ih =>
    intro i s e result w calls hi hok hfail
    cases i with
    | zero =>
      have hs : s0 = s := by simpa using hi
      subst hs
      simp only [List.take_zero, resizeWorld] at hfail
      unfold generateLoop
      simp only [hfail, List.take_zero, List.map_nil, List.append_nil, resizeWorld]
      rfl
    | succ i =>
      have hi2 : sizes[i]? = some s := by simpa using hi
      have h0 := hok 0 (Nat.succ_pos i)
      simp only [List.getD_cons_zero, List.take_zero, resizeWorld] at h0
      simp only [List.take_succ_cons, resizeWorld] at hfail
      have hok2 : ∀ k < i, (g.Processor.Resize g.SourcePath
          (faviconPath g.OutputDir (sizes.getD k 0)) (sizes.getD k 0)
          (resizeWorld g (sizes.take k)
            (g.Processor.Resize g.SourcePath (faviconPath g.OutputDir s0) s0 w).2)).1 = none := by
        intro k hk
        have := hok (k + 1) (Nat.succ_lt_succ hk)
        simpa only [List.getD_cons_succ, List.take_succ_cons, resizeWorld] using this
      unfold generateLoop
      simp only [h0]
      rw [ih i s e _ _ _ hi2 hok2 hfail]
      simp only [List.take_succ_cons, List.map_cons, resizeWorld, List.append_assoc,
        List.singleton_append, List.cons_append, List.nil_append]
      rfl

/-- Claim C12: `Generate` fails fast. If, the output directory made, the calls of `Resize`
for the sizes before index `i` succeed and the call for the size at index `i` fails, each
call made in the world the one before left, then `Generate` returns that error, wrapped, and
a nil result, and `Resize` has been called exactly `i + 1` times, on the first `i + 1` sizes
in order: no later size is attempted, and the world is the one the failing call left. -/
theorem Generate_fail_fast {σ : Type} (g : FaviconGenerator σ) (w : World σ) (fs1 : FS)
    (i : Nat) (s : Int) (e : GoError)
    (hmk : osMkdirAll w.fs g.OutputDir = (none, fs1))
    (hi : g.Sizes[i]? = some s)
    (hok : ∀ k < i, (g.Processor.Resize g.SourcePath
        (faviconPath g.OutputDir (g.Sizes.getD k 0)) (g.Sizes.getD k 0)
        (resizeWorld g (g.Sizes.take k) { w with fs := fs1 })).1 = none)
    (hfail : (g.Processor.Resize g.SourcePath (faviconPath g.OutputDir s) s
        (resizeWorld g (g.Sizes.take i) { w with fs := fs1 })).1 = some e) :
    (g.Generate w).result = none
      ∧ (g.Generate w).err
        = some (.wrapped ("failed to generate ".toList ++ formatInt s ++ "x".toList
            ++ formatInt s ++ " favicon: ".toList) e)
      ∧ (g.Generate w).resizeCalls.length = i + 1
      ∧ (g.Generate w).resizeCalls
        = (g.Sizes.take i).map (fun s => (resizeCallFor g s, none))
          ++ [(resizeCallFor g s, some e)]
      ∧ (g.Generate w).resizeCalls.map Prod.fst = (g.Sizes.take (i + 1)).map (resizeCallFor g)
      ∧ (g.Generate w).world
        = (g.Processor.Resize g.SourcePath (faviconPath g.OutputDir s) s
            (resizeWorld g (g.Sizes.take i) { w with fs := fs1 })).2 := by
  have hgen : g.Generate w
      = generateLoop g g.Sizes { GeneratedFiles := [], ICOPath := [] } { w with fs := fs1 } [] := by
    unfold FaviconGenerator.Generate
    rw [hmk]
  have hlt : i < g.Sizes.length := by
    by_contra hge
    rw [List.getElem?_eq_none (by omega)] at hi
    cases hi
  have htake : g.Sizes.take (i + 1) = g.Sizes.take i ++ [s] := by
    rw [List.take_succ, hi]
    rfl
  rw [hgen, generateLoop_fail g g.Sizes i s e _ _ _ hi hok hfail]
  refine ⟨rfl, rfl, ?_, ?_, ?_, rfl⟩
  · simp only [List.nil_append, List.length_append, List.length_map, List.length_take,
      List.length_singleton]
    omega
  · simp only [List.nil_append]
  · simp only [List.nil_append, List.map_append, List.map_map, htake, List.map_cons,
      List.map_nil]
    rfl

/-- The sizes 16, 32 and 64 with a processor that fails on 32: two calls, the second failed,
and no result. -/
theorem Generate_fail_fast_witness :
    (FaviconGenerator.Generate ⟨pickyProcessor 32, "logo.svg".toList, "out".toList, [16, 32, 64]⟩
        ⟨sourceFS, ()⟩).result = none
      ∧ (FaviconGenerator.Generate
          ⟨pickyProcessor 32, "logo.svg".toList, "out".toList, [16, 32, 64]⟩
          ⟨sourceFS, ()⟩).resizeCalls.length = 2 :=
  ⟨(Generate_fail_fast ⟨pickyProcessor 32, "logo.svg".toList, "out".toList, [16, 32, 64]⟩
      ⟨sourceFS, ()⟩ (osMkdirAll sourceFS "out".toList).2 1 32 (.errorf "resize failed".toList)
      rfl rfl (by intro k hk; interval_cases k; rfl) rfl).1,
   (Generate_fail_fast ⟨pickyProcessor 32, "logo.svg".toList, "out".toList, [16, 32, 64]⟩
      ⟨sourceFS, ()⟩ (osMkdirAll sourceFS "out".toList).2 1 32 (.errorf "resize failed".toList)
      rfl rfl (by intro k hk; interval_cases k; rfl) rfl).2.2.1⟩

/-! ## The driver: the steps after a failed ICO conversion -/

theorem find?_filter_ne (files : List (GoString × FileContent)) (name other : GoString)
    (hne : other ≠ name) :
    (files.filter (fun f => decide (f.1 ≠ name))).find? (fun f => decide (f.1 = other))
      = files.find? (fun f => decide (f.1 = other)) := by
  induction files with
  | nil => rfl
  | cons f files ih =>
    rw [List.filter_cons]
    by_cases h1 : f.1 = name
    · have hd : decide (f.1 ≠ name) = false := by simpa using h1
      have h2 : decide (f.1 = other) = false := by
        simp only [decide_eq_false_iff_not]
        exact fun h => hne (h ▸ h1)
      rw [hd, List.find?_cons, h2]
      simpa using ih
    · have hd : decide (f.1 ≠ name) = true := by simpa using h1
      rw [hd]
      simp only [if_true, List.find?_cons]
      cases decide (f.1 = other)
      · exact ih
      · rfl

theorem osWriteFile_read_other (fs fs1 : FS) (name other : GoString) (data c : FileContent)
    (h : osWriteFile fs name data = .ok fs1) (hne : other ≠ name)
    (hr : osReadFile fs other = .ok c) : osReadFile fs1 other = .ok c := by
  unfold osWriteFile at h
  split at h
  · simp at h
  · split at h
    · simp at h
    · simp only [Except.ok.injEq] at h
      rw [← h]
      unfold osReadFile at hr ⊢
      by_cases hd : other ∈ fs.dirs
      · rw [if_pos hd] at hr; simp at hr
      · rw [if_neg hd] at hr
        have hf : (fs.files.filter (fun f => decide (f.1 ≠ name))).find?
            (fun f => decide (f.1 = other)) = fs.files.find? (fun f => decide (f.1 = other)) :=
          find?_filter_ne fs.files name other hne
        have hhead : decide (name = other) = false := by
          simp only [decide_eq_false_iff_not]
          exact fun h => hne h.symm
        simp only [hd, if_false, List.find?_cons, hhead, hf]
        cases hfind : fs.files.find? (fun f => decide (f.1 = other)) with
        | none => rw [hfind] at hr; simp at hr
        | some f => rw [hfind] at hr; exact hr

theorem plainName_htmlTags : PlainName "favicon-tags.html".toList :=
  ⟨by decide, by decide, by decide, by decide⟩

theorem filepathBase_filepathJoin (d n : GoString) (hn : PlainName n) :
    filepathBase (filepathJoin [d, n]) = n := by
  obtain ⟨pre, hpre, hlast⟩ := filepathJoin_plain d n hn
  rw [hpre]
  exact filepathBase_append pre n hn hlast

theorem manifestPath_ne_htmlPath (d : GoString) :
    filepathJoin [d, "manifest.webmanifest".toList]
      ≠ filepathJoin [d, "favicon-tags.html".toList] := by
  intro h
  have h1 := filepathBase_filepathJoin d _ plainName_manifest
  have h2 := filepathBase_filepathJoin d _ plainName_htmlTags
  rw [h, h2] at h1
  exact absurd h1 (by decide)

theorem runTail_steps (config : Config) (st : RunState) :
    ∃ tl, (runTail config st).2.events = st.events ++ tl
      ∧ (∀ ev ∈ tl, ev.isIco = false ∧ ev.isImageWork = false)
      ∧ ((∀ ev ∈ tl, ev.outputFailed = false) → (runTail config st).1 = none)
      ∧ (∀ e, (runTail config st).1 = some e →
          (∃ c, e = .wrapped "failed to generate manifest: ".toList c)
            ∨ (∃ c, e = .wrapped "failed to write HTML tags: ".toList c))
      ∧ (config.GenerateManifest = true →
          tl.head? = some (.manifest
            (GenerateManifest config.buildManifestConfig config.Output st.world.fs).1.1
            (GenerateManifest config.buildManifestConfig config.Output st.world.fs).1.2))
      ∧ (config.GenerateHTML = true →
          (config.GenerateManifest = true →
            (GenerateManifest config.buildManifestConfig config.Output st.world.fs).1.2 = none) →
          ∃ e, tl.getLast?
            = some (.htmlTags (filepathJoin [config.Output, "favicon-tags.html".toList]) e))
      ∧ ((runTail config st).1 = none → config.GenerateManifest = true →
          osReadFile (runTail config st).2.world.fs
              (filepathJoin [config.Output, "manifest.webmanifest".toList])
            = .ok (.json (marshalManifest (buildManifest config.buildManifestConfig))))
      ∧ ((runTail config st).1 = none → config.GenerateHTML = true →
          osReadFile (runTail config st).2.world.fs
              (filepathJoin [config.Output, "favicon-tags.html".toList])
            = .ok (.text (GenerateHTMLTags config.buildHTMLTagsConfig))) := by
  cases hm : config.GenerateManifest with
  | false =>
    cases hh : config.GenerateHTML with
    | false =>
      refine ⟨[], ?_, ?_, ?_, ?_, ?_, ?_, ?_, ?_⟩ <;>
        ((try simp only [runTail, hm, hh, RunState.record, RunState.print, Bool.false_eq_true, if_false, if_true])
         (try simp [Event.isIco, Event.isImageWork, Event.outputFailed]))
    | true =>
      cases hw : osWriteFile st.world.fs (filepathJoin [config.Output, "favicon-tags.html".toList])
          (.text (GenerateHTMLTags config.buildHTMLTagsConfig)) with
      | error err =>
        refine ⟨[.htmlTags (filepathJoin [config.Output, "favicon-tags.html".toList]) (some err)], ?_, ?_, ?_, ?_, ?_, ?_, ?_, ?_⟩ <;>
          ((try simp only [runTail, hm, hh, generateHTMLTagsFile, hw, RunState.record, RunState.print, Bool.false_eq_true, if_false, if_true])
           (try simp [Event.isIco, Event.isImageWork, Event.outputFailed]))
      | ok fs1 =>
        refine ⟨[.htmlTags (filepathJoin [config.Output, "favicon-tags.html".toList]) none], ?_, ?_, ?_, ?_, ?_, ?_, ?_, ?_⟩ <;>
          ((try simp only [runTail, hm, hh, generateHTMLTagsFile, hw, RunState.record, RunState.print, Bool.false_eq_true, if_false, if_true])
           (try simp [Event.isIco, Event.isImageWork, Event.outputFailed]))
        · exact osWriteFile_read _ _ _ _ hw
  | true =>
    cases hg : GenerateManifest config.buildManifestConfig config.Output st.world.fs with
    | mk pe fs1 =>
      cases pe with
      | mk p e =>
        cases e with
        | some err =>
          refine ⟨[.manifest p (some err)], ?_, ?_, ?_, ?_, ?_, ?_, ?_, ?_⟩ <;>
            ((try simp only [runTail, hm, hg, RunState.record, RunState.print, Bool.false_eq_true, if_false, if_true])
             (try simp [Event.isIco, Event.isImageWork, Event.outputFailed]))
        | none =>
          have hman := GenerateManifest_written config.buildManifestConfig config.Output
            st.world.fs (by rw [hg])
          rw [hg] at hman
          simp only at hman
          obtain ⟨hp, hman⟩ := hman
          rw [hp] at hman
          cases hh : config.GenerateHTML with
          | false =>
            refine ⟨[.manifest p none], ?_, ?_, ?_, ?_, ?_, ?_, ?_, ?_⟩ <;>
              ((try simp only [runTail, hm, hg, hh, RunState.record, RunState.print, Bool.false_eq_true, if_false, if_true])
               (try simp [Event.isIco, Event.isImageWork, Event.outputFailed]))
            · exact hman
          | true =>
            cases hw : osWriteFile fs1 (filepathJoin [config.Output, "favicon-tags.html".toList])
                (.text (GenerateHTMLTags config.buildHTMLTagsConfig)) with
            | error err =>
              refine ⟨[.manifest p none, .htmlTags (filepathJoin [config.Output, "favicon-tags.html".toList]) (some err)], ?_, ?_, ?_, ?_, ?_, ?_, ?_, ?_⟩ <;>
                ((try simp only [runTail, hm, hg, hh, generateHTMLTagsFile, hw, RunState.record, RunState.print, Bool.false_eq_true, if_false, if_true])
                 (try simp [Event.isIco, Event.isImageWork, Event.outputFailed]))
            | ok fs2 =>
              refine ⟨[.manifest p none, .htmlTags (filepathJoin [config.Output, "favicon-tags.html".toList]) none], ?_, ?_, ?_, ?_, ?_, ?_, ?_, ?_⟩ <;>
                ((try simp only [runTail, hm, hg, hh, generateHTMLTagsFile, hw, RunState.record, RunState.print, Bool.false_eq_true, if_false, if_true])
                 (try simp [Event.isIco, Event.isImageWork, Event.outputFailed]))
              · exact osWriteFile_read_other _ _ _ _ _ _ hw (manifestPath_ne_htmlPath _) hman
              · exact osWriteFile_read _ _ _ _ hw

theorem run_ico_steps (config : Config) (st : RunState) (call : IcoCall)
    (hoff : config.GenerateHTMLOnly = false)
    (hnew : ∀ ev ∈ st.events, ev.isIco = false)
    (hfail : Event.convertToICO call true ∈ (run config st).2.events) :
    ∃ (gen : FaviconGenerator Host) (st0 : RunState),
      (if config.GenerateICO = true then generateICOFile gen config st0
          else st0).events.getLast? = some (.convertToICO call true)
        ∧ run config st = runTail config
            (if config.GenerateICO = true then generateICOFile gen config st0 else st0) := by
  have hico : (Event.convertToICO call true).isIco = true := rfl
  rcases run_full_cases config st hoff with ⟨e, evs, _, hev, hno⟩ | ⟨gen, st1, evs, hev, hno, hrun⟩
  · rw [hev] at hfail
    rcases List.mem_append.mp hfail with h | h
    · rw [hnew _ h] at hico; exact absurd hico (by decide)
    · rw [hno _ h] at hico; exact absurd hico (by decide)
  · obtain ⟨tl, htl, htlno, _⟩ := runTail_steps config
      (if config.GenerateICO = true then generateICOFile gen config st1 else st1)
    have hst1 : ∀ ev ∈ st1.events, ev.isIco = false := by
      intro ev h
      rw [hev] at h
      rcases List.mem_append.mp h with h | h
      · exact hnew _ h
      · exact hno _ h
    rw [hrun, htl] at hfail
    have hmem : Event.convertToICO call true
        ∈ (if config.GenerateICO = true then generateICOFile gen config st1 else st1).events := by
      rcases List.mem_append.mp hfail with h | h
      · exact h
      · rw [(htlno _ h).1] at hico; exact absurd hico (by decide)
    refine ⟨gen, st1, ?_, hrun⟩
    by_cases hi : config.GenerateICO = true
    · rw [if_pos hi] at hmem ⊢
      by_cases hc : icoCandidates st1.world.fs config.Output = []
      · rw [generateICOFile_none gen config st1 hc] at hmem
        rw [hst1 _ hmem] at hico; exact absurd hico (by decide)
      · rw [(generateICOFile_some gen config st1 hc).1] at hmem ⊢
        rcases List.mem_append.mp hmem with h | h
        · rw [hst1 _ h] at hico; exact absurd hico (by decide)
        · rw [List.mem_singleton] at h
          rw [← h, List.getLast?_append_of_ne_nil _ (List.cons_ne_nil _ _)]
          rfl
    · rw [if_neg hi] at hmem
      rw [hst1 _ hmem] at hico; exact absurd hico (by decide)

/-- Claim C22: in the full pipeline, with `GenerateHTMLOnly` off and `GenerateICO` on, a
failure of `ConvertToICO` is not returned by `run`. In a run in which a call of
`ConvertToICO` failed, that failure is the last step `generateICOFile` records, and the run
goes on from the state it left: when `GenerateManifest` is set the next step recorded is the
call of `GenerateManifest`, and when `GenerateHTML` is set and the manifest step did not fail
the last step recorded is the writing of the HTML tags. The run returns nil when neither of
these steps fails, the manifest and the HTML tags then being in the files it leaves, and any
error it returns is that of one of these two steps. A direct call of `GenerateICO` whose
`ConvertToICO` fails returns an error wrapping that failure. -/
theorem run_ico_failure_not_fatal (config : Config) (w : World Host) (call : IcoCall)
    (hoff : config.GenerateHTMLOnly = false) (hico : config.GenerateICO = true)
    (hfail : Event.convertToICO call true ∈ (run config (RunState.init w)).2.events) :
    (∃ (gen : FaviconGenerator Host) (st0 : RunState) (tl : List Event),
        (generateICOFile gen config st0).events.getLast? = some (.convertToICO call true)
        ∧ (run config (RunState.init w)).2.events
          = (generateICOFile gen config st0).events ++ tl
        ∧ (config.GenerateManifest = true →
            tl.head? = some (.manifest
              (GenerateManifest config.buildManifestConfig config.Output
                (generateICOFile gen config st0).world.fs).1.1
              (GenerateManifest config.buildManifestConfig config.Output
                (generateICOFile gen config st0).world.fs).1.2))
        ∧ (config.GenerateHTML = true →
            (config.GenerateManifest = true →
              (GenerateManifest config.buildManifestConfig config.Output
                (generateICOFile gen config st0).world.fs).1.2 = none) →
            ∃ e, tl.getLast?
              = some (.htmlTags (filepathJoin [config.Output, "favicon-tags.html".toList]) e))
        ∧ run config (RunState.init w) = runTail config (generateICOFile gen config st0))
      ∧ ((∀ ev ∈ (run config (RunState.init w)).2.events, ev.outputFailed = false) →
          (run config (RunState.init w)).1 = none)
      ∧ (∀ e, (run config (RunState.init w)).1 = some e →
          (∃ c, e = .wrapped "failed to generate manifest: ".toList c)
            ∨ (∃ c, e = .wrapped "failed to write HTML tags: ".toList c))
      ∧ ((run config (RunState.init w)).1 = none → config.GenerateManifest = true →
          osReadFile (run config (RunState.init w)).2.world.fs
              (filepathJoin [config.Output, "manifest.webmanifest".toList])
            = .ok (.json (marshalManifest (buildManifest config.buildManifestConfig))))
      ∧ ((run config (RunState.init w)).1 = none → config.GenerateHTML = true →
          osReadFile (run config (RunState.init w)).2.world.fs
              (filepathJoin [config.Output, "favicon-tags.html".toList])
            = .ok (.text (GenerateHTMLTags config.buildHTMLTagsConfig)))
      ∧ (∀ {σ : Type} (g : FaviconGenerator σ) (pngPaths : List GoString) (w0 : World σ)
          (err : GoError),
          (g.Processor.ConvertToICO pngPaths (filepathJoin [g.OutputDir, "favicon.ico".toList])
            w0).1 = some err →
          (g.GenerateICO pngPaths w0).err
            = some (.wrapped "failed to generate ICO file: ".toList err)) := by
  obtain ⟨gen, st0, hlast, hrun⟩ :=
    run_ico_steps config (RunState.init w) call hoff (by intro ev h; cases h) hfail
  rw [if_pos hico] at hlast hrun
  obtain ⟨tl, htl, _, hok, hshape, hman, hhtml, hreadm, hreadh⟩ :=
    runTail_steps config (generateICOFile gen config st0)
  rw [hrun]
  refine ⟨⟨gen, st0, tl, hlast, htl, hman, hhtml, rfl⟩, ?_, hshape, hreadm, hreadh,
    fun g pngPaths w0 err h => (GenerateICO_error g pngPaths w0 err h).1⟩
  intro hall
  apply hok
  intro ev hev
  apply hall
  rw [htl]
  exact List.mem_append_right _ hev

/-- The default run on the sizes 16 and 64 with the manifest requested and a `convert` that
cannot write ICO files: the conversion of `favicon-16x16.png` fails, the run returns nil, and
the HTML tags are in the file it wrote. -/
theorem run_ico_failure_not_fatal_witness :
    (run { defaultConfig with Sizes := [16, 64], GenerateManifest := true }
        (RunState.init ⟨sourceFS, pngOnlyHost⟩)).1 = none
      ∧ osReadFile (run { defaultConfig with Sizes := [16, 64], GenerateManifest := true }
          (RunState.init ⟨sourceFS, pngOnlyHost⟩)).2.world.fs
          (filepathJoin ["./favicons".toList, "favicon-tags.html".toList])
        = .ok (.text (GenerateHTMLTags
            ({ defaultConfig with Sizes := [16, 64], GenerateManifest := true }
              : Config).buildHTMLTagsConfig)) :=
  have hev : (run { defaultConfig with Sizes := [16, 64], GenerateManifest := true }
      (RunState.init ⟨sourceFS, pngOnlyHost⟩)).2.events
      = [.validateSource none, .detectProcessor (some "imagemagick".toList),
        .resize ⟨"logo.svg".toList, "favicons/favicon-16x16.png".toList, 16⟩ none,
        .resize ⟨"logo.svg".toList, "favicons/favicon-64x64.png".toList, 64⟩ none,
        .convertToICO ⟨["favicons/favicon-16x16.png".toList],
          "favicons/favicon.ico".toList⟩ true,
        .manifest "favicons/manifest.webmanifest".toList none,
        .htmlTags "favicons/favicon-tags.html".toList none] := rfl
  have hthm := run_ico_failure_not_fatal
    { defaultConfig with Sizes := [16, 64], GenerateManifest := true } ⟨sourceFS, pngOnlyHost⟩
    ⟨["favicons/favicon-16x16.png".toList], "favicons/favicon.ico".toList⟩ rfl rfl
    (by rw [hev]; simp)
  have hnone := hthm.2.1 (by rw [hev]; simp [Event.outputFailed])
  ⟨hnone, hthm.2.2.2.2.1 hnone rfl⟩

end Favicongen
